import Mathlib

/-!
# Bare-metal clock bring-up and polling UART driver (STM32F4)

A shallow embedding of `Core/Src/bsp.c`, `Core/Src/uart_bm.c` and
`Core/Src/main.c`.

* Registers are 32-bit words kept as `Nat`; a store truncates modulo `2^32`.
* Every access to a memory-mapped register is an explicit `rd` or `wr` on a
  `World`: the register file, the bytes still on the receive line, the bytes
  written to the transmit data register, and the trace of accesses.
* The hardware runs between accesses: before each access the status bits may
  catch up with the control bits (`hwTick`), as decided by an `Env` of
  schedules indexed by the access count.
* Spin-wait loops take a fuel argument; running out of fuel ends the run with
  `Res.timeout`, keeping the world reached so far.
-/

namespace RepCounter

/-! ## Constants of the device header -/

/-- Modelled from the spec: `stm32f4xx.h` is not among the sources; internal
oscillator enable, bit 0 of `RCC->CR`. -/
def RCC_CR_HSION : Nat := 0x00000001

/-- Modelled from the spec: `stm32f4xx.h` is not among the sources; internal
oscillator ready flag, bit 1 of `RCC->CR`. -/
def RCC_CR_HSIRDY : Nat := 0x00000002

/-- Modelled from the spec: `stm32f4xx.h` is not among the sources; multiplier
(PLL) enable, bit 24 of `RCC->CR`. -/
def RCC_CR_PLLON : Nat := 0x01000000

/-- Modelled from the spec: `stm32f4xx.h` is not among the sources; multiplier
(PLL) locked flag, bit 25 of `RCC->CR`. -/
def RCC_CR_PLLRDY : Nat := 0x02000000

/-- Modelled from the spec: `stm32f4xx.h` is not among the sources; flash
instruction cache enable, bit 9 of `FLASH->ACR`. -/
def FLASH_ACR_ICEN : Nat := 0x00000200

/-- Modelled from the spec: `stm32f4xx.h` is not among the sources; flash data
cache enable, bit 10 of `FLASH->ACR`. -/
def FLASH_ACR_DCEN : Nat := 0x00000400

/-- Modelled from the spec: `stm32f4xx.h` is not among the sources; two flash
wait states in the latency field of `FLASH->ACR`. -/
def FLASH_ACR_LATENCY_2WS : Nat := 0x00000002

/-- Modelled from the spec: `stm32f4xx.h` is not among the sources; position of
the input divider M in `RCC->PLLCFGR`. -/
def RCC_PLLCFGR_PLLM_Pos : Nat := 0

/-- Modelled from the spec: `stm32f4xx.h` is not among the sources; position of
the multiplier N in `RCC->PLLCFGR`. -/
def RCC_PLLCFGR_PLLN_Pos : Nat := 6

/-- Modelled from the spec: `stm32f4xx.h` is not among the sources; position of
the output divider field P in `RCC->PLLCFGR`. -/
def RCC_PLLCFGR_PLLP_Pos : Nat := 16

/-- Modelled from the spec: `stm32f4xx.h` is not among the sources; position of
the auxiliary divider Q in `RCC->PLLCFGR`. -/
def RCC_PLLCFGR_PLLQ_Pos : Nat := 24

/-- Modelled from the spec: `stm32f4xx.h` is not among the sources; the source
select bit (bit 22) left clear selects the internal oscillator. -/
def RCC_PLLCFGR_PLLSRC_HSI : Nat := 0x00000000

/-- Modelled from the spec: `stm32f4xx.h` is not among the sources; AHB
prescaler field, bits 7:4 of `RCC->CFGR`. -/
def RCC_CFGR_HPRE : Nat := 0x000000F0

/-- Modelled from the spec: `stm32f4xx.h` is not among the sources; APB1
prescaler field, bits 12:10 of `RCC->CFGR`. -/
def RCC_CFGR_PPRE1 : Nat := 0x00001C00

/-- Modelled from the spec: `stm32f4xx.h` is not among the sources; APB2
prescaler field, bits 15:13 of `RCC->CFGR`. -/
def RCC_CFGR_PPRE2 : Nat := 0x0000E000

/-- Modelled from the spec: `stm32f4xx.h` is not among the sources; APB1
prescaler code `100b`, divide by two. -/
def RCC_CFGR_PPRE1_DIV2 : Nat := 0x00001000

/-- Modelled from the spec: `stm32f4xx.h` is not among the sources; system
clock switch request field, bits 1:0 of `RCC->CFGR`. -/
def RCC_CFGR_SW : Nat := 0x00000003

/-- Modelled from the spec: `stm32f4xx.h` is not among the sources; switch
request code `10b`, the multiplier output. -/
def RCC_CFGR_SW_PLL : Nat := 0x00000002

/-- Modelled from the spec: `stm32f4xx.h` is not among the sources; system
clock switch status field, bits 3:2 of `RCC->CFGR`. -/
def RCC_CFGR_SWS : Nat := 0x0000000C

/-- Modelled from the spec: `stm32f4xx.h` is not among the sources; switch
status code `10b`, the multiplier output is the system clock. -/
def RCC_CFGR_SWS_PLL : Nat := 0x00000008

/-- Modelled from the spec: `stm32f4xx.h` is not among the sources; GPIOA
clock gate, bit 0 of `RCC->AHB1ENR`. -/
def RCC_AHB1ENR_GPIOAEN : Nat := 0x00000001

/-- Modelled from the spec: `stm32f4xx.h` is not among the sources; USART2
clock gate, bit 17 of `RCC->APB1ENR`. -/
def RCC_APB1ENR_USART2EN : Nat := 0x00020000

/-- Modelled from the spec: `stm32f4xx.h` is not among the sources; receiver
enable, bit 2 of `USART2->CR1`. -/
def USART_CR1_RE : Nat := 0x00000004

/-- Modelled from the spec: `stm32f4xx.h` is not among the sources;
transmitter enable, bit 3 of `USART2->CR1`. -/
def USART_CR1_TE : Nat := 0x00000008

/-- Modelled from the spec: `stm32f4xx.h` is not among the sources; peripheral
enable, bit 13 of `USART2->CR1`. -/
def USART_CR1_UE : Nat := 0x00002000

/-- Modelled from the spec: `stm32f4xx.h` is not among the sources;
receive-data-available flag, bit 5 of `USART2->SR`. -/
def USART_SR_RXNE : Nat := 0x00000020

/-- Modelled from the spec: `stm32f4xx.h` is not among the sources;
transmit-data-register-empty flag, bit 7 of `USART2->SR`. -/
def USART_SR_TXE : Nat := 0x00000080

/-! ## Machine words -/

/-- Truncation of a value to an unsigned 32-bit word. -/
def u32 (v : Nat) : Nat := v % 4294967296

/-- The C operator `~` on an unsigned 32-bit operand. -/
def not32 (v : Nat) : Nat := 4294967295 ^^^ u32 v

/-- The conversion `(uint8_t)c` of a `char` value. -/
def toU8 (c : Int) : Nat := (c % 256).toNat

/-- The conversion `(char)v` of a value `v < 256`: the identity where `char`
is unsigned, two's complement where it is signed. -/
def toChar (charSigned : Bool) (v : Nat) : Int :=
  if charSigned && decide (128 ≤ v) then (v : Int) - 256 else (v : Int)

/-! ## The register file and the hardware around it -/

/-- The memory-mapped registers the program touches. -/
inductive Reg
  | RCC_CR | RCC_PLLCFGR | RCC_CFGR | RCC_AHB1ENR | RCC_APB1ENR
  | FLASH_ACR
  | GPIOA_MODER | GPIOA_OTYPER | GPIOA_OSPEEDR | GPIOA_PUPDR | GPIOA_AFRL
  | USART2_SR | USART2_DR | USART2_BRR | USART2_CR1 | USART2_CR2 | USART2_CR3
  deriving DecidableEq, Repr

/-- A register file: the word held by each register. `USART2_DR` is the
receive side of the data register. -/
abbrev Regs := Reg → Nat

/-- Replace the word of one register. -/
def Regs.set (rs : Regs) (r : Reg) (v : Nat) : Regs :=
  fun q => if q = r then v else rs q

/-- One access of the program to a register, with the word read or written. -/
inductive Access
  | read (r : Reg) (v : Nat)
  | write (r : Reg) (v : Nat)
  deriving DecidableEq, Repr

/-- A trace entry: the access and the register file at the moment it is made. -/
structure Event where
  acc : Access
  pre : Regs

/-- The hardware and compiler environment. Each schedule says, for the access
count `t`, whether the hardware has caught up at that moment: the oscillator
ready flag, the multiplier lock flag, the clock switch status, the transmit
empty flag, and the delivery of the next byte on the receive line.
`charSigned` records whether plain `char` is a signed type. -/
structure Env where
  hsi : Nat → Bool
  pll : Nat → Bool
  sws : Nat → Bool
  txe : Nat → Bool
  rxne : Nat → Bool
  charSigned : Bool

/-- The state of the simulated device. -/
structure World where
  regs : Regs
  clock : Nat
  rx : List Nat
  tx : List Nat
  log : List Event

/-- The hardware clears the flags `m` of the word `v`; no other bit moves. -/
def clr (v m : Nat) : Nat := v ^^^ (v &&& m)

/-- A status bit follows its control bit: set when the control bit is set,
clear when it is clear. -/
def follow (ctrl stat v : Nat) : Nat :=
  if v &&& ctrl ≠ 0 then v ||| stat else clr v stat

/-- Hardware effect on `RCC->CR`: the ready flags follow their enable bits
when their schedule fires. -/
def tickCR (env : Env) (t : Nat) (cr : Nat) : Nat :=
  let c1 := if env.hsi t then follow RCC_CR_HSION RCC_CR_HSIRDY cr else cr
  if env.pll t then follow RCC_CR_PLLON RCC_CR_PLLRDY c1 else c1

/-- Hardware effect on `RCC->CFGR`: the switch status field takes the value of
the switch request field when its schedule fires. -/
def tickCFGR (env : Env) (t : Nat) (cfgr : Nat) : Nat :=
  if env.sws t then clr cfgr RCC_CFGR_SWS ||| ((cfgr &&& RCC_CFGR_SW) <<< 2)
  else cfgr

/-- Hardware effect on `USART2->SR`, transmit side: the transmit-empty flag is
set when its schedule fires. -/
def tickTXE (env : Env) (t : Nat) (sr : Nat) : Nat :=
  if env.txe t then sr ||| USART_SR_TXE else sr

/-- Whether the receiver delivers the next byte at access count `t`: its
schedule fires, no byte is waiting to be read, and the line holds a byte. -/
def delivers (env : Env) (w : World) : Bool :=
  env.rxne w.clock && decide (w.regs .USART2_SR &&& USART_SR_RXNE = 0) && !w.rx.isEmpty

/-- The hardware step taken before every access. -/
def hwTick (env : Env) (w : World) : World :=
  let t := w.clock
  let cr := tickCR env t (w.regs .RCC_CR)
  let cfgr := tickCFGR env t (w.regs .RCC_CFGR)
  let sr := tickTXE env t (w.regs .USART2_SR)
  let rs := ((w.regs.set .RCC_CR cr).set .RCC_CFGR cfgr).set .USART2_SR sr
  if delivers env w then
    { w with regs := (rs.set .USART2_SR (sr ||| USART_SR_RXNE)).set .USART2_DR (w.rx.headD 0),
             rx := w.rx.tail }
  else
    { w with regs := rs }

/-! ## Computations -/

/-- Outcome of a run: a value and the world reached, or the world reached when
the fuel of a wait loop ran out. -/
inductive Res (α : Type)
  | done (a : α) (w : World)
  | timeout (w : World)

/-- The world at the end of a run. -/
def Res.world {α : Type} : Res α → World
  | .done _ w => w
  | .timeout w => w

/-- Computations over the device. -/
def M (α : Type) : Type := World → Res α

instance : Monad M where
  pure a := fun w => .done a w
  bind m f := fun w =>
    match m w with
    | .done a w1 => f a w1
    | .timeout w1 => .timeout w1

/-- The world after a read of `r`: the hardware steps, the access is logged,
and a read of the data register clears the receive-available flag. -/
def rdW (env : Env) (r : Reg) (w : World) : World :=
  let w1 := hwTick env w
  { w1 with
    regs := if r = .USART2_DR then
        w1.regs.set .USART2_SR (clr (w1.regs .USART2_SR) USART_SR_RXNE)
      else w1.regs
    clock := w1.clock + 1
    log := w1.log ++ [⟨.read r (w1.regs r), w1.regs⟩] }

/-- The word a read of `r` returns. -/
def rdV (env : Env) (r : Reg) (w : World) : Nat := (hwTick env w).regs r

/-- The world after a write of `v` to `r`: the hardware steps, the access is
logged and the truncated word is stored; a write to the data register goes to
the transmitter, which records the byte and clears the transmit-empty flag. -/
def wrW (env : Env) (r : Reg) (v : Nat) (w : World) : World :=
  let w1 := hwTick env w
  { w1 with
    regs := if r = .USART2_DR then
        w1.regs.set .USART2_SR (clr (w1.regs .USART2_SR) USART_SR_TXE)
      else w1.regs.set r (u32 v)
    tx := if r = .USART2_DR then w1.tx ++ [u32 v] else w1.tx
    clock := w1.clock + 1
    log := w1.log ++ [⟨.write r (u32 v), w1.regs⟩] }

/-- A volatile read of a register. -/
def rd (env : Env) (r : Reg) : M Nat := fun w => .done (rdV env r w) (rdW env r w)

/-- A volatile write of a register. -/
def wr (env : Env) (r : Reg) (v : Nat) : M Unit := fun w => .done () (wrW env r v w)

/-- The compound assignment `REG |= m`: one read, one write. -/
def regOr (env : Env) (r : Reg) (m : Nat) : M Unit := do
  let v ← rd env r
  wr env r (v ||| m)

/-- The compound assignment `REG &= m`: one read, one write. -/
def regAnd (env : Env) (r : Reg) (m : Nat) : M Unit := do
  let v ← rd env r
  wr env r (v &&& m)

/-- The empty-bodied wait loop `while (cond(REG)) { }`: each iteration reads
the register once. -/
def spinWhile (env : Env) (r : Reg) (cond : Nat → Bool) : Nat → M Unit
  | 0 => fun w => .timeout w
  | fuel + 1 => do
    let v ← rd env r
    if cond v then spinWhile env r cond fuel else pure ()

/-! ## `bsp.c` -/

/-- The word `BSP_SystemClockConfig` stores in `RCC->PLLCFGR`. -/
def pllcfgrWord : Nat :=
  let pll_m := 16
  let pll_n := 336
  let pll_q := 7
  (pll_m <<< RCC_PLLCFGR_PLLM_Pos) |||
  (pll_n <<< RCC_PLLCFGR_PLLN_Pos) |||
  (1 <<< RCC_PLLCFGR_PLLP_Pos) |||
  (pll_q <<< RCC_PLLCFGR_PLLQ_Pos) |||
  RCC_PLLCFGR_PLLSRC_HSI

/-- `void BSP_SystemClockConfig(void)`. -/
def BSP_SystemClockConfig (env : Env) (fuel : Nat) : M Unit := do
  -- 1. oscillator on, wait until ready
  regOr env .RCC_CR RCC_CR_HSION
  spinWhile env .RCC_CR (fun v => v &&& RCC_CR_HSIRDY == 0) fuel
  -- 2. flash latency and caches
  wr env .FLASH_ACR (FLASH_ACR_ICEN ||| FLASH_ACR_DCEN ||| FLASH_ACR_LATENCY_2WS)
  -- 3. stop the multiplier before reconfiguration
  let cr ← rd env .RCC_CR
  if cr &&& RCC_CR_PLLON != 0 then do
    regAnd env .RCC_CR (not32 RCC_CR_PLLON)
    spinWhile env .RCC_CR (fun v => v &&& RCC_CR_PLLRDY != 0) fuel
  -- 4. multiplier factors
  wr env .RCC_PLLCFGR pllcfgrWord
  -- 5. bus prescalers
  regAnd env .RCC_CFGR (not32 (RCC_CFGR_HPRE ||| RCC_CFGR_PPRE1 ||| RCC_CFGR_PPRE2))
  regOr env .RCC_CFGR RCC_CFGR_PPRE1_DIV2
  -- 6. start the multiplier, wait for lock
  regOr env .RCC_CR RCC_CR_PLLON
  spinWhile env .RCC_CR (fun v => v &&& RCC_CR_PLLRDY == 0) fuel
  -- 7. switch the system clock, wait for confirmation
  regAnd env .RCC_CFGR (not32 RCC_CFGR_SW)
  regOr env .RCC_CFGR RCC_CFGR_SW_PLL
  spinWhile env .RCC_CFGR (fun v => v &&& RCC_CFGR_SWS != RCC_CFGR_SWS_PLL) fuel

/-! ## `uart_bm.c` -/

/-- The constant `apb1_clk` of `UART2_Init`. -/
def apb1_clk : Nat := 42000000

/-- The word `UART2_Init` stores in `USART2->BRR`, in unsigned 32-bit
arithmetic. Division by zero is undefined in C; the model then has the value
of `Nat` division and no statement below relies on it. -/
def brrWord (baudrate : Nat) : Nat :=
  u32 (apb1_clk + baudrate / 2) / baudrate

/-- `void UART2_Init(uint32_t baudrate)`. -/
def UART2_Init (env : Env) (baudrate : Nat) : M Unit := do
  regOr env .RCC_AHB1ENR RCC_AHB1ENR_GPIOAEN
  regOr env .RCC_APB1ENR RCC_APB1ENR_USART2EN
  regAnd env .GPIOA_MODER (not32 ((3 <<< (2 * 2)) ||| (3 <<< (3 * 2))))
  regOr env .GPIOA_MODER ((2 <<< (2 * 2)) ||| (2 <<< (3 * 2)))
  regAnd env .GPIOA_AFRL (not32 ((0xF <<< (2 * 4)) ||| (0xF <<< (3 * 4))))
  regOr env .GPIOA_AFRL ((7 <<< (2 * 4)) ||| (7 <<< (3 * 4)))
  regOr env .GPIOA_OSPEEDR ((3 <<< (2 * 2)) ||| (3 <<< (3 * 2)))
  regAnd env .GPIOA_OTYPER (not32 ((1 <<< 2) ||| (1 <<< 3)))
  regAnd env .GPIOA_PUPDR (not32 ((3 <<< (2 * 2)) ||| (3 <<< (3 * 2))))
  regOr env .GPIOA_PUPDR (1 <<< (3 * 2))
  regAnd env .USART2_CR1 (not32 USART_CR1_UE)
  wr env .USART2_CR1 0
  wr env .USART2_CR2 0
  wr env .USART2_CR3 0
  wr env .USART2_BRR (brrWord baudrate)
  regOr env .USART2_CR1 (USART_CR1_TE ||| USART_CR1_RE)
  regOr env .USART2_CR1 USART_CR1_UE
  let _ ← rd env .USART2_SR
  let _ ← rd env .USART2_DR
  pure ()

/-- `void UART2_SendChar(char c)`. -/
def UART2_SendChar (env : Env) (fuel : Nat) (c : Int) : M Unit := do
  spinWhile env .USART2_SR (fun v => v &&& USART_SR_TXE == 0) fuel
  wr env .USART2_DR (toU8 c)

/-- The loop of `UART2_SendString` over the characters stored at `str`; the
list holds the characters in front of the terminating zero of the array, and
a zero inside the list ends the string early. -/
def sendLoop (env : Env) (fuel : Nat) : List Int → M Unit
  | [] => pure ()
  | c :: rest =>
    if c != 0 then do
      UART2_SendChar env fuel c
      sendLoop env fuel rest
    else pure ()

/-- `void UART2_SendString(const char *str)`; `none` is the null pointer. -/
def UART2_SendString (env : Env) (fuel : Nat) (str : Option (List Int)) : M Unit :=
  match str with
  | none => pure ()
  | some cs => sendLoop env fuel cs

/-- `char UART2_ReadChar(void)`. -/
def UART2_ReadChar (env : Env) (fuel : Nat) : M Int := do
  spinWhile env .USART2_SR (fun v => v &&& USART_SR_RXNE == 0) fuel
  let v ← rd env .USART2_DR
  pure (toChar env.charSigned (v &&& 0xFF))

/-- `uint8_t UART2_IsRxReady(void)`. -/
def UART2_IsRxReady (env : Env) : M Nat := do
  let v ← rd env .USART2_SR
  pure (if v &&& USART_SR_RXNE != 0 then 1 else 0)

/-! ## `main.c` -/

/-- A string literal as the characters in front of its terminating zero. -/
def cstr (s : String) : List Int := s.toList.map (fun ch => (ch.toNat : Int))

/-- The first banner line. -/
def banner1 : String := "\r\n=== Stage 1: UART2 Bare-Metal Test ===\r\n"

/-- The second banner line. -/
def banner2 : String := "Type characters to echo them back.\r\n"

/-- The loop `while (1) { ... }` of `main`, cut off after `n` iterations. -/
def echoLoop (env : Env) (fuel : Nat) : Nat → M Unit
  | 0 => fun w => .timeout w
  | n + 1 => do
    let ready ← UART2_IsRxReady env
    if ready != 0 then do
      let c ← UART2_ReadChar env fuel
      UART2_SendChar env fuel c
    echoLoop env fuel n

/-- `int main(void)`; it never returns, so every run ends in a timeout. -/
def main (env : Env) (fuel : Nat) : M Unit := do
  BSP_SystemClockConfig env fuel
  UART2_Init env 115200
  UART2_SendString env fuel (some (cstr banner1))
  UART2_SendString env fuel (some (cstr banner2))
  echoLoop env fuel fuel


/-! ## Definitions used by the statements and proofs -/

/-- Registers the hardware step may change. -/
def Reg.live : Reg → Bool
  | .RCC_CR | .RCC_CFGR | .USART2_SR | .USART2_DR => true
  | _ => false


/-- Every schedule of the environment fires again and again: each status
flag is eventually updated, and a byte on the line is eventually delivered. -/
def Fair (env : Env) : Prop :=
  (∀ t, ∃ d, env.hsi (t + d) = true) ∧ (∀ t, ∃ d, env.pll (t + d) = true) ∧
  (∀ t, ∃ d, env.sws (t + d) = true) ∧ (∀ t, ∃ d, env.txe (t + d) = true) ∧
  (∀ t, ∃ d, env.rxne (t + d) = true)

/-- With enough fuel the computation returns `a` in the world `w1`. -/
def Runs {α : Type} (m : Nat → M α) (w : World) (a : α) (w1 : World) : Prop :=
  ∃ N, ∀ n, N ≤ n → m n w = .done a w1

/-- The words written to register `r` in a trace, oldest first. -/
def writesTo (r : Reg) (log : List Event) : List Nat :=
  log.filterMap fun e =>
    match e.acc with
    | .write q v => if q = r then some v else none
    | .read _ _ => none

/-- What the hardware may do to `RCC->CR` while the program does not write
it: only the two ready flags (bits 1 and 25) move, and a ready flag that is
set together with its enable bit (bits 0 and 24) stays set. -/
structure CrStep (c c1 : Nat) : Prop where
  keep : ∀ i, i ≠ 1 → i ≠ 25 → c1.testBit i = c.testBit i
  hsi : c.testBit 0 = true → c.testBit 1 = true → c1.testBit 1 = true
  pll : c.testBit 24 = true → c.testBit 25 = true → c1.testBit 25 = true

/-- What the hardware may do to `RCC->CFGR` while the program does not write
it: only the switch status (bits 3:2) moves, and a status `10b` that agrees
with the request `10b` (bits 1:0) stays. -/
structure CfStep (c c1 : Nat) : Prop where
  keep : ∀ i, i ≠ 2 → i ≠ 3 → c1.testBit i = c.testBit i
  sws : c.testBit 0 = false → c.testBit 1 = true → c.testBit 2 = false → c.testBit 3 = true →
    c1.testBit 2 = false ∧ c1.testBit 3 = true

/-- Relation between two worlds of a stretch of the run in which the program
only reads: the hardware may have moved the status bits, nothing else
changed in the clock registers, the other registers outside the serial port
and the transmitted bytes. -/
structure Frame (w w1 : World) : Prop where
  cr : CrStep (w.regs .RCC_CR) (w1.regs .RCC_CR)
  cfgr : CfStep (w.regs .RCC_CFGR) (w1.regs .RCC_CFGR)
  dead : ∀ q : Reg, q.live = false → w1.regs q = w.regs q
  tx : w1.tx = w.tx

/-- Steps 1 to 3 of `BSP_SystemClockConfig`: oscillator on and ready, flash
latency, multiplier stopped. -/
def bspStop (env : Env) (fuel : Nat) : M Unit := do
  regOr env .RCC_CR RCC_CR_HSION
  spinWhile env .RCC_CR (fun v => v &&& RCC_CR_HSIRDY == 0) fuel
  wr env .FLASH_ACR (FLASH_ACR_ICEN ||| FLASH_ACR_DCEN ||| FLASH_ACR_LATENCY_2WS)
  let cr ← rd env .RCC_CR
  if cr &&& RCC_CR_PLLON != 0 then do
    regAnd env .RCC_CR (not32 RCC_CR_PLLON)
    spinWhile env .RCC_CR (fun v => v &&& RCC_CR_PLLRDY != 0) fuel

/-- Steps 4 to 7 of `BSP_SystemClockConfig`: multiplier factors, prescalers,
multiplier started and locked, system clock switched. -/
def bspStart (env : Env) (fuel : Nat) : M Unit := do
  wr env .RCC_PLLCFGR pllcfgrWord
  regAnd env .RCC_CFGR (not32 (RCC_CFGR_HPRE ||| RCC_CFGR_PPRE1 ||| RCC_CFGR_PPRE2))
  regOr env .RCC_CFGR RCC_CFGR_PPRE1_DIV2
  regOr env .RCC_CR RCC_CR_PLLON
  spinWhile env .RCC_CR (fun v => v &&& RCC_CR_PLLRDY == 0) fuel
  regAnd env .RCC_CFGR (not32 RCC_CFGR_SW)
  regOr env .RCC_CFGR RCC_CFGR_SW_PLL
  spinWhile env .RCC_CFGR (fun v => v &&& RCC_CFGR_SWS != RCC_CFGR_SWS_PLL) fuel

/-- What `BSP_SystemClockConfig` leaves behind, bit by bit: in `RCC->CR` the
bits 0, 1, 24, 25 (HSION, HSIRDY, PLLON, PLLRDY) are set and the others are
as before; in `RCC->CFGR` bits 3:0 read `1010b` (request and status on the
multiplier output), bits 7:4 and 15:10 read `000100b` apart (HPRE `0`, PPRE1
`100b`, PPRE2 `0`), bits 9:8 and 31:16 are as before; the flash and factor
registers hold their constants; nothing else changes outside the serial
port, and nothing is transmitted. -/
structure ClockPost (w w1 : World) : Prop where
  cr : ∀ i, (w1.regs .RCC_CR).testBit i =
    (decide (i = 0 ∨ i = 1 ∨ i = 24 ∨ i = 25) ||
      (decide (i < 32) && (w.regs .RCC_CR).testBit i))
  cfgr : ∀ i, (w1.regs .RCC_CFGR).testBit i =
    (decide (i = 1 ∨ i = 3 ∨ i = 12) ||
      (decide (i < 32) && decide (8 ≤ i) && !decide (10 ≤ i ∧ i < 16) &&
        (w.regs .RCC_CFGR).testBit i))
  acr : w1.regs .FLASH_ACR = FLASH_ACR_ICEN ||| FLASH_ACR_DCEN ||| FLASH_ACR_LATENCY_2WS
  pllcfgr : w1.regs .RCC_PLLCFGR = pllcfgrWord
  dead : ∀ q : Reg, q.live = false → q ≠ .FLASH_ACR → q ≠ .RCC_PLLCFGR → w1.regs q = w.regs q
  tx : w1.tx = w.tx

/-! ## Decoding the clock registers -/

/-- Frequency of the internal oscillator in Hz. -/
def hsiHz : Nat := 16000000

/-- Modelled from the spec: the field layout of `RCC->PLLCFGR` belongs to the
device, not to the sources; input divider M, bits 5:0. -/
def pllM (pllcfgr : Nat) : Nat := (pllcfgr >>> 0) % 64

/-- Modelled from the spec: the field layout of `RCC->PLLCFGR` belongs to the
device, not to the sources; multiplier N, bits 14:6. -/
def pllN (pllcfgr : Nat) : Nat := (pllcfgr >>> 6) % 512

/-- Modelled from the spec: the field layout of `RCC->PLLCFGR` belongs to the
device, not to the sources; output divider code P, bits 17:16. -/
def pllPcode (pllcfgr : Nat) : Nat := (pllcfgr >>> 16) % 4

/-- Modelled from the spec: the field layout of `RCC->PLLCFGR` belongs to the
device, not to the sources; source select, bit 22 (`0` is the internal
oscillator). -/
def pllSrc (pllcfgr : Nat) : Nat := (pllcfgr >>> 22) % 2

/-- Modelled from the spec: the field layout of `RCC->PLLCFGR` belongs to the
device, not to the sources; auxiliary divider Q, bits 27:24. -/
def pllQ (pllcfgr : Nat) : Nat := (pllcfgr >>> 24) % 16

/-- Modelled from the spec: the divider selected by the code P, `2 * (P + 1)`,
so that the code `01b` divides by four. -/
def pllPdiv (pllcfgr : Nat) : Nat := 2 * (pllPcode pllcfgr + 1)

/-- Frequency inside the multiplier, `(source / M) * N`, for the internal
oscillator as source. -/
def vcoHz (pllcfgr : Nat) : Nat := hsiHz / pllM pllcfgr * pllN pllcfgr

/-- Main output of the multiplier, `vco / P`. -/
def pllOutHz (pllcfgr : Nat) : Nat := vcoHz pllcfgr / pllPdiv pllcfgr

/-- Auxiliary output of the multiplier, `vco / Q`. -/
def pllAuxHz (pllcfgr : Nat) : Nat := vcoHz pllcfgr / pllQ pllcfgr

/-- Modelled from the spec: the prescaler encodings belong to the device, not
to the sources; AHB divider for a 4-bit HPRE code (`0xxx` is one). -/
def hpreDiv (code : Nat) : Nat :=
  if code < 8 then 1
  else if code < 12 then 2 ^ (code - 7)
  else 2 ^ (code - 6)

/-- Modelled from the spec: the prescaler encodings belong to the device, not
to the sources; APB divider for a 3-bit PPRE code (`0xx` is one, `100b` is
two). -/
def ppreDiv (code : Nat) : Nat :=
  if code < 4 then 1 else 2 ^ (code - 3)

/-- Core (AHB) clock in Hz when the multiplier output is the system clock. -/
def ahbHz (rs : Regs) : Nat :=
  pllOutHz (rs .RCC_PLLCFGR) / hpreDiv ((rs .RCC_CFGR &&& RCC_CFGR_HPRE) >>> 4)

/-- Clock of the first peripheral bus (APB1) in Hz. -/
def apb1Hz (rs : Regs) : Nat :=
  ahbHz rs / ppreDiv ((rs .RCC_CFGR &&& RCC_CFGR_PPRE1) >>> 10)

/-- Clock of the second peripheral bus (APB2) in Hz. -/
def apb2Hz (rs : Regs) : Nat :=
  ahbHz rs / ppreDiv ((rs .RCC_CFGR &&& RCC_CFGR_PPRE2) >>> 13)

/-! ## Concrete environments and worlds -/

/-- An environment in which the hardware always catches up at once; plain
`char` is unsigned. -/
def envNow : Env :=
  { hsi := fun _ => true, pll := fun _ => true, sws := fun _ => true,
    txe := fun _ => true, rxne := fun _ => true, charSigned := false }

/-- An environment in which the hardware catches up on every third access and
the receive line is silent for the first hundred accesses; plain `char` is
signed. -/
def envSlow : Env :=
  { hsi := fun t => t % 3 == 0, pll := fun t => t % 3 == 1, sws := fun t => t % 3 == 2,
    txe := fun t => t % 3 == 0, rxne := fun t => decide (100 ≤ t) && t % 3 == 1,
    charSigned := true }

/-- The register file after a reset of the device. -/
def resetRegs : Regs
  | .RCC_CR => 0x00000083
  | .RCC_PLLCFGR => 0x24003010
  | .GPIOA_MODER => 0xA8000000
  | .GPIOA_OSPEEDR => 0x0C000000
  | .GPIOA_PUPDR => 0x64000000
  | .USART2_SR => 0x000000C0
  | _ => 0

/-- The device after reset, with the given bytes on the receive line. -/
def coldStart (rx : List Nat) : World :=
  { regs := resetRegs, clock := 0, rx := rx, tx := [], log := [] }

/-- The register file of a device that was already brought up once: the
multiplier runs and drives the system clock, the serial port is enabled. -/
def warmRegs : Regs
  | .RCC_CR => 0x03000083
  | .RCC_PLLCFGR => 0x07015410
  | .RCC_CFGR => 0x0000100A
  | .FLASH_ACR => 0x00000602
  | .USART2_SR => 0x000000C0
  | .USART2_CR1 => 0x0000200C
  | .USART2_BRR => 365
  | _ => 0

/-- A device that was already brought up, with the given bytes on the receive
line. -/
def warmStart (rx : List Nat) : World :=
  { regs := warmRegs, clock := 0, rx := rx, tx := [], log := [] }

/-! ## Frame format bits of the serial port -/

/-- Modelled from the spec: `stm32f4xx.h` is not among the sources; the bits
of `USART2->CR1` other than RE, TE and UE: break, wake-up, the five interrupt
enables, parity select and enable, wake method, word length `M`, and
oversampling mode. -/
def USART_CR1_FORMAT_AND_IRQ : Nat := 0x00009FF3

/-- Modelled from the spec: `stm32f4xx.h` is not among the sources; word
length bit `M` (bit 12) of `USART2->CR1`, clear for 8 data bits. -/
def USART_CR1_M : Nat := 0x00001000

/-- Modelled from the spec: `stm32f4xx.h` is not among the sources; parity
control enable (bit 10) of `USART2->CR1`. -/
def USART_CR1_PCE : Nat := 0x00000400

/-- Modelled from the spec: `stm32f4xx.h` is not among the sources;
oversampling-by-8 select (bit 15) of `USART2->CR1`. -/
def USART_CR1_OVER8 : Nat := 0x00008000

/-- Modelled from the spec: `stm32f4xx.h` is not among the sources; stop bit
field (bits 13:12) of `USART2->CR2`, `00b` for one stop bit. -/
def USART_CR2_STOP : Nat := 0x00003000

/-- Modelled from the spec: `stm32f4xx.h` is not among the sources; RTS and
CTS flow control enables (bits 8 and 9) of `USART2->CR3`. -/
def USART_CR3_RTSE_CTSE : Nat := 0x00000300

/-! ## The serial line seen from the program -/

/-- The bytes the program has still to read, oldest first: the byte waiting in
the data register when the receive-available flag is set, then the bytes
still on the line. -/
def inbox (w : World) : List Nat :=
  if w.regs .USART2_SR &&& USART_SR_RXNE ≠ 0 then w.regs .USART2_DR :: w.rx else w.rx

/-- `n` calls of `UART2_IsRxReady` in a row, results ignored. -/
def pollRx (env : Env) : Nat → M Unit
  | 0 => pure ()
  | n + 1 => do
    let _ ← UART2_IsRxReady env
    pollRx env n

/-- The first two calls of `main`: clock configuration and serial port
initialisation. -/
def boot (env : Env) (fuel : Nat) : M Unit := do
  BSP_SystemClockConfig env fuel
  UART2_Init env 115200

/-- What `main` does after the two initialisation calls: the banner lines and
the echo loop. -/
def serve (env : Env) (fuel : Nat) : M Unit := do
  UART2_SendString env fuel (some (cstr banner1))
  UART2_SendString env fuel (some (cstr banner2))
  echoLoop env fuel fuel

/-- The bytes of a string literal. -/
def bytesOf (s : String) : List Nat := s.toList.map Char.toNat

/-! ## An observer of the multiplier reconfiguration -/

/-- Phases of the reconfiguration of the multiplier, as seen in the trace. -/
inductive PllPhase
  /-- PLLON was set on entry and has not been cleared; factors untouched. -/
  | running
  /-- PLLON was clear on entry and has not been set; factors untouched. -/
  | idle
  /-- PLLON was set on entry and has been cleared by a write of `RCC->CR`. -/
  | cleared
  /-- After that write, a read of `RCC->CR` has shown PLLRDY clear. -/
  | stopped
  /-- The factor register has been written, PLLON has not been set since. -/
  | written
  /-- PLLON has been set again after the write of the factor register. -/
  | restarted
  deriving DecidableEq, Repr

/-- Whether PLLON is set in a phase. -/
def PllPhase.on : PllPhase → Bool
  | .running | .restarted => true
  | _ => false

/-- Whether the factor register has been written in a phase. -/
def PllPhase.wrote : PllPhase → Bool
  | .written | .restarted => true
  | _ => false

/-- The observer at a read of `RCC->CR` returning `v`: once PLLON has been
cleared, a read with PLLRDY clear shows that the multiplier has stopped. -/
def pllOnRead (s : PllPhase) (v : Nat) : PllPhase :=
  match s with
  | .cleared => if v &&& RCC_CR_PLLRDY = 0 then .stopped else .cleared
  | s => s

/-- The observer at a write of `RCC->CR` that sets PLLON: accepted while PLLON
was never cleared, and after the factor register has been written. -/
def pllOnSet : PllPhase → Option PllPhase
  | .running => some .running
  | .written => some .restarted
  | .restarted => some .restarted
  | _ => none

/-- The observer at a write of `RCC->CR` that leaves PLLON clear: accepted
before the multiplier is started again, and keeps what has been observed. -/
def pllOnClear : PllPhase → Option PllPhase
  | .running => some .cleared
  | .idle => some .idle
  | .cleared => some .cleared
  | .stopped => some .stopped
  | .written => some .written
  | .restarted => none

/-- The observer at a write of `v` to `RCC->CR`. -/
def pllOnWrite (s : PllPhase) (v : Nat) : Option PllPhase :=
  if v &&& RCC_CR_PLLON ≠ 0 then pllOnSet s else pllOnClear s

/-- The observer at a write of the factor register with PLLON clear: accepted
once, and, if PLLON was set on entry, only after it has been cleared and
PLLRDY has been read clear. -/
def pllOnFactorsOff : PllPhase → Option PllPhase
  | .idle => some .written
  | .stopped => some .written
  | _ => none

/-- The observer at a write of the factor register: a violation when PLLON is
set in the register file at that moment. -/
def pllOnFactors (s : PllPhase) (pre : Regs) : Option PllPhase :=
  if pre .RCC_CR &&& RCC_CR_PLLON ≠ 0 then none else pllOnFactorsOff s

/-- One step of the observer; `none` is a violation. -/
def pllObserve (s : PllPhase) (e : Event) : Option PllPhase :=
  match e.acc with
  | .write .RCC_PLLCFGR _ => pllOnFactors s e.pre
  | .write .RCC_CR v => pllOnWrite s v
  | .read .RCC_CR v => some (pllOnRead s v)
  | _ => some s

/-- The observer run over a trace from the phase `s`. -/
def pllObserveAll (s : PllPhase) : List Event → Option PllPhase
  | [] => some s
  | e :: rest =>
    match pllObserve s e with
    | some s1 => pllObserveAll s1 rest
    | none => none

/-- The phase on entry, from the register file. -/
def pllEntry (rs : Regs) : PllPhase :=
  if rs .RCC_CR &&& RCC_CR_PLLON ≠ 0 then .running else .idle

/-- What holds of a world in which the observer, started in `s0`, has reached
the phase `s`: PLLON is as the phase says, every write of the factor register
so far was made with PLLON clear, and the factor register was written once
with its constant, which it holds, if the phase says so, and not at all
otherwise. -/
structure PllInv (s0 s : PllPhase) (w : World) : Prop where
  obs : pllObserveAll s0 w.log = some s
  bit : (w.regs .RCC_CR).testBit 24 = s.on
  safe : ∀ e ∈ w.log, ∀ v, e.acc = .write .RCC_PLLCFGR v → e.pre .RCC_CR &&& RCC_CR_PLLON = 0
  writes : writesTo .RCC_PLLCFGR w.log = if s.wrote then [pllcfgrWord] else []
  reg : s.wrote = true → w.regs .RCC_PLLCFGR = pllcfgrWord

/-- The outcome of the computation `m` from `w` satisfies `Q` when it returns
and `T` when it runs out of fuel. -/
def wp {α : Type} (m : M α) (Q : α → World → Prop) (T : World → Prop) (w : World) : Prop :=
  match m w with
  | .done a w1 => Q a w1
  | .timeout w1 => T w1

/-! ## The order of the accesses to the multiplier, in plain terms -/

/-- The event writes the factor register `RCC->PLLCFGR`. -/
def isFactors (e : Event) : Prop := ∃ v, e.acc = .write .RCC_PLLCFGR v

/-- The event writes `RCC->CR` with PLLON clear. -/
def isClear (e : Event) : Prop := ∃ v, e.acc = .write .RCC_CR v ∧ v &&& RCC_CR_PLLON = 0

/-- The event writes `RCC->CR` with PLLON set. -/
def isSet (e : Event) : Prop := ∃ v, e.acc = .write .RCC_CR v ∧ v &&& RCC_CR_PLLON ≠ 0

/-- The event reads `RCC->CR` and finds PLLRDY clear. -/
def isStopped (e : Event) : Prop := ∃ v, e.acc = .read .RCC_CR v ∧ v &&& RCC_CR_PLLRDY = 0

/-- The trace of a complete reconfiguration. The factor register is written
exactly once, at a moment when PLLON is clear in the register file. When
PLLON was set on entry, a write clearing PLLON and, after it, a read finding
PLLRDY clear come before the factor write, and no write sets PLLON between
the clearing write and the factor write. When PLLON was clear on entry, no
write sets it before the factor write. A write setting PLLON follows the
factor write. -/
def PllOrdered (onEntry : Bool) (log : List Event) : Prop :=
  ∃ before ef after,
    log = before ++ ef :: after ∧ isFactors ef ∧ ef.pre .RCC_CR &&& RCC_CR_PLLON = 0 ∧
    (∀ e ∈ before, ¬ isFactors e) ∧ (∀ e ∈ after, ¬ isFactors e) ∧
    (onEntry = true → ∃ a ec b er c, before = a ++ ec :: (b ++ er :: c) ∧
      isClear ec ∧ isStopped er ∧ ∀ e ∈ b ++ er :: c, ¬ isSet e) ∧
    (onEntry = false → ∀ e ∈ before, ¬ isSet e) ∧
    ∃ es ∈ after, isSet es

/-! # Theorems -/

/-! ## Basic facts -/

@[simp] theorem Regs.set_same (rs : Regs) (r : Reg) (v : Nat) : (rs.set r v) r = v := by
  simp [Regs.set]

@[simp] theorem Regs.set_other (rs : Regs) (r q : Reg) (v : Nat) (h : q ≠ r) :
    (rs.set r v) q = rs q := by
  simp [Regs.set, h]

@[simp] theorem hwTick_clock (env : Env) (w : World) : (hwTick env w).clock = w.clock := by
  unfold hwTick; split <;> rfl

@[simp] theorem hwTick_tx (env : Env) (w : World) : (hwTick env w).tx = w.tx := by
  unfold hwTick; split <;> rfl

@[simp] theorem hwTick_log (env : Env) (w : World) : (hwTick env w).log = w.log := by
  unfold hwTick; split <;> rfl

theorem hwTick_regs_dead (env : Env) (w : World) (q : Reg) (h : q.live = false) :
    (hwTick env w).regs q = w.regs q := by
  unfold hwTick
  cases q <;> simp [Reg.live] at h <;> split <;> simp [Regs.set]

@[simp] theorem hwTick_regs_CR (env : Env) (w : World) :
    (hwTick env w).regs .RCC_CR = tickCR env w.clock (w.regs .RCC_CR) := by
  unfold hwTick; split <;> simp [Regs.set]

@[simp] theorem hwTick_regs_CFGR (env : Env) (w : World) :
    (hwTick env w).regs .RCC_CFGR = tickCFGR env w.clock (w.regs .RCC_CFGR) := by
  unfold hwTick; split <;> simp [Regs.set]

@[simp] theorem rdW_clock (env : Env) (r : Reg) (w : World) :
    (rdW env r w).clock = w.clock + 1 := by simp [rdW]

@[simp] theorem wrW_clock (env : Env) (r : Reg) (v : Nat) (w : World) :
    (wrW env r v w).clock = w.clock + 1 := by simp [wrW]

@[simp] theorem rdW_tx (env : Env) (r : Reg) (w : World) : (rdW env r w).tx = w.tx := by
  simp [rdW]

@[simp] theorem rdW_log (env : Env) (r : Reg) (w : World) :
    (rdW env r w).log = w.log ++ [⟨.read r (rdV env r w), (hwTick env w).regs⟩] := by
  simp [rdW, rdV]

@[simp] theorem wrW_log (env : Env) (r : Reg) (v : Nat) (w : World) :
    (wrW env r v w).log = w.log ++ [⟨.write r (u32 v), (hwTick env w).regs⟩] := by
  simp [wrW]

theorem rdW_regs_dead (env : Env) (r q : Reg) (w : World) (h : q.live = false) :
    (rdW env r w).regs q = w.regs q := by
  have hq : q ≠ .USART2_SR := by rintro rfl; simp [Reg.live] at h
  unfold rdW
  by_cases hr : r = .USART2_DR <;> simp [hr, hq, hwTick_regs_dead env w q h]

theorem wrW_regs_dead (env : Env) (r q : Reg) (v : Nat) (w : World) (h : q.live = false) :
    (wrW env r v w).regs q = if q = r then u32 v else w.regs q := by
  have hq : q ≠ .USART2_SR := by rintro rfl; simp [Reg.live] at h
  have hq2 : q ≠ .USART2_DR := by rintro rfl; simp [Reg.live] at h
  unfold wrW
  by_cases hr : r = .USART2_DR
  · subst hr; simp [hq, hq2, hwTick_regs_dead env w q h]
  · by_cases hqr : q = r
    · subst hqr; simp [hr]
    · simp [hr, hqr, hwTick_regs_dead env w q h]

@[simp] theorem bind_apply {α β : Type} (m : M α) (f : α → M β) (w : World) :
    (m >>= f) w = match m w with
      | .done a w1 => f a w1
      | .timeout w1 => .timeout w1 := rfl

@[simp] theorem pure_apply {α : Type} (a : α) (w : World) :
    (pure a : M α) w = .done a w := rfl

@[simp] theorem rd_apply (env : Env) (r : Reg) (w : World) :
    rd env r w = .done (rdV env r w) (rdW env r w) := rfl

@[simp] theorem wr_apply (env : Env) (r : Reg) (v : Nat) (w : World) :
    wr env r v w = .done () (wrW env r v w) := rfl

@[simp] theorem regOr_apply (env : Env) (r : Reg) (m : Nat) (w : World) :
    regOr env r m w = .done () (wrW env r (rdV env r w ||| m) (rdW env r w)) := rfl

@[simp] theorem regAnd_apply (env : Env) (r : Reg) (m : Nat) (w : World) :
    regAnd env r m w = .done () (wrW env r (rdV env r w &&& m) (rdW env r w)) := rfl

theorem UART2_Init_done (env : Env) (b : Nat) (w : World) :
    ∃ w1, UART2_Init env b w = .done () w1 := by
  simp [UART2_Init]

/-! ## Bits of the constants and of the word operations -/

theorem testBit_ge (m n i : Nat) (hm : m < 2 ^ n) (hi : n ≤ i) : m.testBit i = false := by
  apply Nat.testBit_lt_two_pow
  exact lt_of_lt_of_le hm (Nat.pow_le_pow_right (by norm_num) hi)

theorem tb_1 (i : Nat) : (1 : Nat).testBit i = decide (i = 0) := by
  have := @Nat.testBit_two_pow 0 i; simpa [eq_comm] using this
theorem tb_2 (i : Nat) : (2 : Nat).testBit i = decide (i = 1) := by
  have := @Nat.testBit_two_pow 1 i; simpa [eq_comm] using this
theorem tb_8 (i : Nat) : (8 : Nat).testBit i = decide (i = 3) := by
  have := @Nat.testBit_two_pow 3 i; simpa [eq_comm] using this
theorem tb_32 (i : Nat) : (32 : Nat).testBit i = decide (i = 5) := by
  have := @Nat.testBit_two_pow 5 i; simpa [eq_comm] using this
theorem tb_128 (i : Nat) : (128 : Nat).testBit i = decide (i = 7) := by
  have := @Nat.testBit_two_pow 7 i; simpa [eq_comm] using this
theorem tb_4096 (i : Nat) : (4096 : Nat).testBit i = decide (i = 12) := by
  have := @Nat.testBit_two_pow 12 i; simpa [eq_comm] using this
theorem tb_16777216 (i : Nat) : (16777216 : Nat).testBit i = decide (i = 24) := by
  have := @Nat.testBit_two_pow 24 i; simpa [eq_comm] using this
theorem tb_33554432 (i : Nat) : (33554432 : Nat).testBit i = decide (i = 25) := by
  have := @Nat.testBit_two_pow 25 i; simpa [eq_comm] using this
theorem tb_3 (i : Nat) : (3 : Nat).testBit i = decide (i < 2) := by
  have := Nat.testBit_two_pow_sub_one 2 i; simpa using this
theorem tb_255 (i : Nat) : (255 : Nat).testBit i = decide (i < 8) := by
  have := Nat.testBit_two_pow_sub_one 8 i; simpa using this
theorem tb_4294967295 (i : Nat) : (4294967295 : Nat).testBit i = decide (i < 32) := by
  have := Nat.testBit_two_pow_sub_one 32 i; simpa using this
theorem tb_12 (i : Nat) : (12 : Nat).testBit i = decide (i = 2 ∨ i = 3) := by
  by_cases h : i < 4
  · interval_cases i <;> decide
  · rw [testBit_ge 12 4 i (by norm_num) (by omega)]; simp; omega
theorem tb_240 (i : Nat) : (240 : Nat).testBit i = decide (4 ≤ i ∧ i < 8) := by
  by_cases h : i < 8
  · interval_cases i <;> decide
  · rw [testBit_ge 240 8 i (by norm_num) (by omega)]; simp; omega
theorem tb_7168 (i : Nat) : (7168 : Nat).testBit i = decide (10 ≤ i ∧ i < 13) := by
  by_cases h : i < 13
  · interval_cases i <;> decide
  · rw [testBit_ge 7168 13 i (by norm_num) (by omega)]; simp; omega
theorem tb_57344 (i : Nat) : (57344 : Nat).testBit i = decide (13 ≤ i ∧ i < 16) := by
  by_cases h : i < 16
  · interval_cases i <;> decide
  · rw [testBit_ge 57344 16 i (by norm_num) (by omega)]; simp; omega
theorem tb_64752 (i : Nat) :
    (64752 : Nat).testBit i = decide ((4 ≤ i ∧ i < 8) ∨ (10 ≤ i ∧ i < 16)) := by
  by_cases h : i < 16
  · interval_cases i <;> decide
  · rw [testBit_ge 64752 16 i (by norm_num) (by omega)]; simp; omega

theorem tb_u32 (v i : Nat) : (u32 v).testBit i = (decide (i < 32) && v.testBit i) := by
  have := Nat.testBit_mod_two_pow v 32 i
  simpa [u32] using this

theorem tb_not32 (m i : Nat) :
    (not32 m).testBit i = (decide (i < 32) && !m.testBit i) := by
  unfold not32
  rw [Nat.testBit_xor, tb_4294967295, tb_u32]
  by_cases h : i < 32 <;> simp [h]

theorem tb_clr (v m i : Nat) : (clr v m).testBit i = (v.testBit i && !m.testBit i) := by
  unfold clr
  rw [Nat.testBit_xor, Nat.testBit_and]
  cases v.testBit i <;> cases m.testBit i <;> rfl

theorem and_pow_eq_zero (v k : Nat) : v &&& 2 ^ k = 0 ↔ v.testBit k = false := by
  rw [Nat.and_two_pow]
  cases v.testBit k <;> simp

theorem and_1_eq (v : Nat) : v &&& 1 = 0 ↔ v.testBit 0 = false := by
  have := and_pow_eq_zero v 0
  rw [pow_zero] at this
  exact this
theorem and_2_eq (v : Nat) : v &&& 2 = 0 ↔ v.testBit 1 = false := by
  simpa using and_pow_eq_zero v 1
theorem and_32_eq (v : Nat) : v &&& 32 = 0 ↔ v.testBit 5 = false := by
  simpa using and_pow_eq_zero v 5
theorem and_128_eq (v : Nat) : v &&& 128 = 0 ↔ v.testBit 7 = false := by
  simpa using and_pow_eq_zero v 7
theorem and_16777216_eq (v : Nat) : v &&& 16777216 = 0 ↔ v.testBit 24 = false := by
  simpa using and_pow_eq_zero v 24
theorem and_33554432_eq (v : Nat) : v &&& 33554432 = 0 ↔ v.testBit 25 = false := by
  simpa using and_pow_eq_zero v 25

theorem and_12_eq_8 (v : Nat) : v &&& 12 = 8 ↔ (v.testBit 2 = false ∧ v.testBit 3 = true) := by
  constructor
  · intro h
    have h2 := congrArg (fun x => x.testBit 2) h
    have h3 := congrArg (fun x => x.testBit 3) h
    simp only [Nat.testBit_and, tb_12, tb_8] at h2 h3
    simpa using And.intro h2 h3
  · rintro ⟨h2, h3⟩
    apply Nat.eq_of_testBit_eq
    intro i
    simp only [Nat.testBit_and, tb_12, tb_8]
    by_cases e2 : i = 2
    · subst e2; simp [h2]
    · by_cases e3 : i = 3
      · subst e3; simp [h3]
      · simp [e2, e3]

theorem and_3_eq_2 (v : Nat) : v &&& 3 = 2 ↔ (v.testBit 0 = false ∧ v.testBit 1 = true) := by
  constructor
  · intro h
    have h0 := congrArg (fun x => x.testBit 0) h
    have h1 := congrArg (fun x => x.testBit 1) h
    simp only [Nat.testBit_and, tb_3, tb_2] at h0 h1
    simpa using And.intro h0 h1
  · rintro ⟨h0, h1⟩
    apply Nat.eq_of_testBit_eq
    intro i
    simp only [Nat.testBit_and, tb_3, tb_2]
    by_cases e0 : i = 0
    · subst e0; simp [h0]
    · by_cases e1 : i = 1
      · subst e1; simp [h1]
      · have : ¬ i < 2 := by omega
        simp [e1, this]

theorem tb_follow_hsi (v i : Nat) :
    (follow RCC_CR_HSION RCC_CR_HSIRDY v).testBit i = if i = 1 then v.testBit 0 else v.testBit i := by
  unfold follow
  simp only [RCC_CR_HSION, RCC_CR_HSIRDY]
  by_cases h : v &&& 1 = 0
  · have h0 := (and_1_eq v).1 h
    rw [if_neg (by simpa using h), tb_clr, tb_2]
    by_cases e : i = 1 <;> simp [e, h0]
  · have h0 : v.testBit 0 = true := by
      cases hb : v.testBit 0
      · exact absurd ((and_1_eq v).2 hb) h
      · rfl
    rw [if_pos h, Nat.testBit_or, tb_2]
    by_cases e : i = 1 <;> simp [e, h0]

theorem tb_follow_pll (v i : Nat) :
    (follow RCC_CR_PLLON RCC_CR_PLLRDY v).testBit i =
      if i = 25 then v.testBit 24 else v.testBit i := by
  unfold follow
  simp only [RCC_CR_PLLON, RCC_CR_PLLRDY]
  by_cases h : v &&& 16777216 = 0
  · have h0 := (and_16777216_eq v).1 h
    rw [if_neg (by simpa using h), tb_clr, tb_33554432]
    by_cases e : i = 25 <;> simp [e, h0]
  · have h0 : v.testBit 24 = true := by
      cases hb : v.testBit 24
      · exact absurd ((and_16777216_eq v).2 hb) h
      · rfl
    rw [if_pos h, Nat.testBit_or, tb_33554432]
    by_cases e : i = 25 <;> simp [e, h0]

theorem tb_tickCR (env : Env) (t c i : Nat) :
    (tickCR env t c).testBit i =
      if i = 1 ∧ env.hsi t = true then c.testBit 0
      else if i = 25 ∧ env.pll t = true then c.testBit 24
      else c.testBit i := by
  unfold tickCR
  cases env.hsi t <;> cases env.pll t <;> simp [tb_follow_hsi, tb_follow_pll] <;>
    by_cases e : i = 1 <;> by_cases e2 : i = 25 <;> simp [e, e2] <;> omega

theorem tb_tickCFGR (env : Env) (t c i : Nat) :
    (tickCFGR env t c).testBit i =
      if env.sws t = true ∧ (i = 2 ∨ i = 3) then c.testBit (i - 2) else c.testBit i := by
  unfold tickCFGR
  simp only [RCC_CFGR_SWS, RCC_CFGR_SW]
  cases env.sws t
  · simp
  · simp only [if_true, Nat.testBit_or, tb_clr, tb_12, Nat.testBit_shiftLeft, Nat.testBit_and, tb_3]
    by_cases e2 : i = 2
    · subst e2; simp
    · by_cases e3 : i = 3
      · subst e3; simp
      · simp [e2, e3]
        intro h1 h2
        omega

theorem crStep_tick (env : Env) (t c : Nat) : CrStep c (tickCR env t c) := by
  constructor
  · intro i h1 h25; simp [tb_tickCR, h1, h25]
  · intro h0 h1; simp [tb_tickCR, h0, h1]
  · intro h0 h1; simp [tb_tickCR, h0, h1]

theorem crStep_refl (c : Nat) : CrStep c c := ⟨fun _ _ _ => rfl, fun _ h => h, fun _ h => h⟩

theorem crStep_trans {a b c : Nat} (h1 : CrStep a b) (h2 : CrStep b c) : CrStep a c := by
  obtain ⟨k1, s1, p1⟩ := h1
  obtain ⟨k2, s2, p2⟩ := h2
  refine ⟨fun i hi hj => (k2 i hi hj).trans (k1 i hi hj), fun ha hb => s2 ?_ (s1 ha hb),
    fun ha hb => p2 ?_ (p1 ha hb)⟩
  · rw [k1 0 (by norm_num) (by norm_num)]; exact ha
  · rw [k1 24 (by norm_num) (by norm_num)]; exact ha

theorem cfStep_tick (env : Env) (t c : Nat) : CfStep c (tickCFGR env t c) := by
  constructor
  · intro i h2 h3; simp [tb_tickCFGR, h2, h3]
  · intro h0 h1 h2 h3; simp [tb_tickCFGR, h0, h1, h2, h3]

theorem cfStep_refl (c : Nat) : CfStep c c :=
  ⟨fun _ _ _ => rfl, fun _ _ h2 h3 => ⟨h2, h3⟩⟩

theorem cfStep_trans {a b c : Nat} (h1 : CfStep a b) (h2 : CfStep b c) : CfStep a c := by
  obtain ⟨k1, s1⟩ := h1
  obtain ⟨k2, s2⟩ := h2
  refine ⟨fun i hi hj => (k2 i hi hj).trans (k1 i hi hj), fun h0 h1 h2 h3 => ?_⟩
  obtain ⟨q2, q3⟩ := s1 h0 h1 h2 h3
  apply s2 _ _ q2 q3
  · rw [k1 0 (by norm_num) (by norm_num)]; exact h0
  · rw [k1 1 (by norm_num) (by norm_num)]; exact h1


/-! ## Register views of the accesses -/

@[simp] theorem rdW_regs_CR (env : Env) (r : Reg) (w : World) :
    (rdW env r w).regs .RCC_CR = tickCR env w.clock (w.regs .RCC_CR) := by
  unfold rdW
  by_cases hr : r = .USART2_DR <;> simp [hr]

@[simp] theorem rdW_regs_CFGR (env : Env) (r : Reg) (w : World) :
    (rdW env r w).regs .RCC_CFGR = tickCFGR env w.clock (w.regs .RCC_CFGR) := by
  unfold rdW
  by_cases hr : r = .USART2_DR <;> simp [hr]

@[simp] theorem rdV_CR (env : Env) (w : World) :
    rdV env .RCC_CR w = tickCR env w.clock (w.regs .RCC_CR) := by simp [rdV]

@[simp] theorem rdV_CFGR (env : Env) (w : World) :
    rdV env .RCC_CFGR w = tickCFGR env w.clock (w.regs .RCC_CFGR) := by simp [rdV]

theorem rdV_dead (env : Env) (r : Reg) (w : World) (h : r.live = false) :
    rdV env r w = w.regs r := by simp [rdV, hwTick_regs_dead env w r h]

theorem wrW_regs_CR (env : Env) (r : Reg) (v : Nat) (w : World) :
    (wrW env r v w).regs .RCC_CR =
      if r = .RCC_CR then u32 v else tickCR env w.clock (w.regs .RCC_CR) := by
  unfold wrW
  by_cases hr : r = .USART2_DR
  · subst hr; simp
  · by_cases h2 : r = .RCC_CR
    · subst h2; simp
    · have : Reg.RCC_CR ≠ r := fun h => h2 h.symm
      simp [hr, h2, this]

theorem wrW_regs_CFGR (env : Env) (r : Reg) (v : Nat) (w : World) :
    (wrW env r v w).regs .RCC_CFGR =
      if r = .RCC_CFGR then u32 v else tickCFGR env w.clock (w.regs .RCC_CFGR) := by
  unfold wrW
  by_cases hr : r = .USART2_DR
  · subst hr; simp
  · by_cases h2 : r = .RCC_CFGR
    · subst h2; simp
    · have : Reg.RCC_CFGR ≠ r := fun h => h2 h.symm
      simp [hr, h2, this]

theorem wrW_tx (env : Env) (r : Reg) (v : Nat) (w : World) :
    (wrW env r v w).tx = if r = .USART2_DR then w.tx ++ [u32 v] else w.tx := by
  unfold wrW
  by_cases hr : r = .USART2_DR <;> simp [hr]

/-! ## Frames -/

theorem frame_refl (w : World) : Frame w w :=
  ⟨crStep_refl _, cfStep_refl _, fun _ _ => rfl, rfl⟩

theorem frame_trans {a b c : World} (h1 : Frame a b) (h2 : Frame b c) : Frame a c :=
  ⟨crStep_trans h1.cr h2.cr, cfStep_trans h1.cfgr h2.cfgr,
    fun q hq => (h2.dead q hq).trans (h1.dead q hq), h2.tx.trans h1.tx⟩

theorem frame_rdW (env : Env) (r : Reg) (w : World) : Frame w (rdW env r w) :=
  ⟨by rw [rdW_regs_CR]; exact crStep_tick _ _ _,
   by rw [rdW_regs_CFGR]; exact cfStep_tick _ _ _,
   fun q hq => rdW_regs_dead env r q w hq, rdW_tx env r w⟩

/-! ## Wait loops -/

theorem spinWhile_succ (env : Env) (r : Reg) (cond : Nat → Bool) (n : Nat) (w : World) :
    spinWhile env r cond (n + 1) w =
      if cond (rdV env r w) then spinWhile env r cond n (rdW env r w)
      else .done () (rdW env r w) := by
  simp only [spinWhile, bind_apply, rd_apply]
  split_ifs <;> rfl

theorem spin_total_aux (env : Env) (r : Reg) (cond : Nat → Bool) (orc : Nat → Bool)
    (I Q : World → Prop)
    (hstay : ∀ w, I w → cond (rdV env r w) = true → I (rdW env r w) ∧ orc w.clock = false)
    (hexit : ∀ w, I w → cond (rdV env r w) = false → Q (rdW env r w)) :
    ∀ (d : Nat) (w : World), I w → orc (w.clock + d) = true →
      ∃ w1, Runs (spinWhile env r cond) w () w1 ∧ Q w1 := by
  intro d
  induction d with
  | zero =>
    intro w hI ho
    cases hc : cond (rdV env r w)
    · refine ⟨rdW env r w, ⟨1, fun n hn => ?_⟩, hexit w hI hc⟩
      obtain ⟨k, rfl⟩ : ∃ k, n = k + 1 := ⟨n - 1, by omega⟩
      rw [spinWhile_succ, hc]; rfl
    · have := (hstay w hI hc).2
      rw [Nat.add_zero] at ho
      rw [ho] at this
      exact absurd this (by simp)
  | succ d ih =>
    intro w hI ho
    cases hc : cond (rdV env r w)
    · refine ⟨rdW env r w, ⟨1, fun n hn => ?_⟩, hexit w hI hc⟩
      obtain ⟨k, rfl⟩ : ∃ k, n = k + 1 := ⟨n - 1, by omega⟩
      rw [spinWhile_succ, hc]; rfl
    · have hI1 := (hstay w hI hc).1
      have ho1 : orc ((rdW env r w).clock + d) = true := by
        rw [rdW_clock]
        have : w.clock + 1 + d = w.clock + (d + 1) := by omega
        rw [this]; exact ho
      obtain ⟨w1, ⟨N, hN⟩, hQ⟩ := ih (rdW env r w) hI1 ho1
      refine ⟨w1, ⟨N + 1, fun n hn => ?_⟩, hQ⟩
      obtain ⟨k, rfl⟩ : ∃ k, n = k + 1 := ⟨n - 1, by omega⟩
      rw [spinWhile_succ, hc]
      simp only [if_true]
      exact hN k (by omega)

theorem spin_total (env : Env) (r : Reg) (cond : Nat → Bool) (orc : Nat → Bool)
    (I Q : World → Prop) (hfair : ∀ t, ∃ d, orc (t + d) = true)
    (hstay : ∀ w, I w → cond (rdV env r w) = true → I (rdW env r w) ∧ orc w.clock = false)
    (hexit : ∀ w, I w → cond (rdV env r w) = false → Q (rdW env r w))
    (w : World) (hI : I w) :
    ∃ w1, Runs (spinWhile env r cond) w () w1 ∧ Q w1 := by
  obtain ⟨d, hd⟩ := hfair w.clock
  exact spin_total_aux env r cond orc I Q hstay hexit d w hI hd

theorem loop_hsirdy (env : Env) (hf : Fair env) (w : World)
    (h0 : (w.regs .RCC_CR).testBit 0 = true) :
    ∃ w1, Runs (spinWhile env .RCC_CR (fun v => v &&& RCC_CR_HSIRDY == 0)) w () w1 ∧
      Frame w w1 ∧ (w1.regs .RCC_CR).testBit 1 = true := by
  apply spin_total env .RCC_CR _ env.hsi (fun x => Frame w x)
    (fun x => Frame w x ∧ (x.regs .RCC_CR).testBit 1 = true) hf.1
  · intro x hx hc
    refine ⟨frame_trans hx (frame_rdW env _ x), ?_⟩
    by_contra hne
    have hfire : env.hsi x.clock = true := by simpa using hne
    have hb0 : (x.regs .RCC_CR).testBit 0 = true := by
      rw [hx.cr.keep 0 (by norm_num) (by norm_num)]; exact h0
    have hb : (tickCR env x.clock (x.regs .RCC_CR)).testBit 1 = true := by
      simp [tb_tickCR, hfire, hb0]
    simp only [rdV_CR, RCC_CR_HSIRDY, beq_iff_eq, and_2_eq] at hc
    rw [hb] at hc
    exact absurd hc (by simp)
  · intro x hx hc
    refine ⟨frame_trans hx (frame_rdW env _ x), ?_⟩
    simp only [rdV_CR, RCC_CR_HSIRDY, beq_eq_false_iff_ne, ne_eq, and_2_eq] at hc
    rw [rdW_regs_CR]
    simpa using hc
  · exact frame_refl w


theorem loop_pllrdy_set (env : Env) (hf : Fair env) (w : World)
    (h0 : (w.regs .RCC_CR).testBit 24 = true) :
    ∃ w1, Runs (spinWhile env .RCC_CR (fun v => v &&& RCC_CR_PLLRDY == 0)) w () w1 ∧
      Frame w w1 ∧ (w1.regs .RCC_CR).testBit 25 = true := by
  apply spin_total env .RCC_CR _ env.pll (fun x => Frame w x)
    (fun x => Frame w x ∧ (x.regs .RCC_CR).testBit 25 = true) hf.2.1
  · intro x hx hc
    refine ⟨frame_trans hx (frame_rdW env _ x), ?_⟩
    by_contra hne
    have hfire : env.pll x.clock = true := by simpa using hne
    have hb0 : (x.regs .RCC_CR).testBit 24 = true := by
      rw [hx.cr.keep 24 (by norm_num) (by norm_num)]; exact h0
    have hb : (tickCR env x.clock (x.regs .RCC_CR)).testBit 25 = true := by
      simp [tb_tickCR, hfire, hb0]
    simp only [rdV_CR, RCC_CR_PLLRDY, beq_iff_eq, and_33554432_eq] at hc
    rw [hb] at hc
    exact absurd hc (by simp)
  · intro x hx hc
    refine ⟨frame_trans hx (frame_rdW env _ x), ?_⟩
    simp only [rdV_CR, RCC_CR_PLLRDY, beq_eq_false_iff_ne, ne_eq, and_33554432_eq] at hc
    rw [rdW_regs_CR]
    simpa using hc
  · exact frame_refl w

theorem loop_pllrdy_clear (env : Env) (hf : Fair env) (w : World)
    (h0 : (w.regs .RCC_CR).testBit 24 = false) :
    ∃ w1, Runs (spinWhile env .RCC_CR (fun v => v &&& RCC_CR_PLLRDY != 0)) w () w1 ∧
      Frame w w1 ∧ (w1.regs .RCC_CR).testBit 25 = false := by
  apply spin_total env .RCC_CR _ env.pll (fun x => Frame w x)
    (fun x => Frame w x ∧ (x.regs .RCC_CR).testBit 25 = false) hf.2.1
  · intro x hx hc
    refine ⟨frame_trans hx (frame_rdW env _ x), ?_⟩
    by_contra hne
    have hfire : env.pll x.clock = true := by simpa using hne
    have hb0 : (x.regs .RCC_CR).testBit 24 = false := by
      rw [hx.cr.keep 24 (by norm_num) (by norm_num)]; exact h0
    have hb : (tickCR env x.clock (x.regs .RCC_CR)).testBit 25 = false := by
      simp [tb_tickCR, hfire, hb0]
    simp only [rdV_CR, RCC_CR_PLLRDY, bne_iff_ne, ne_eq, and_33554432_eq] at hc
    exact hc hb
  · intro x hx hc
    refine ⟨frame_trans hx (frame_rdW env _ x), ?_⟩
    simp only [rdV_CR, RCC_CR_PLLRDY, bne_eq_false_iff_eq, and_33554432_eq] at hc
    rw [rdW_regs_CR]
    exact hc
  · exact frame_refl w

theorem loop_sws (env : Env) (hf : Fair env) (w : World)
    (h0 : (w.regs .RCC_CFGR).testBit 0 = false) (h1 : (w.regs .RCC_CFGR).testBit 1 = true) :
    ∃ w1, Runs (spinWhile env .RCC_CFGR (fun v => v &&& RCC_CFGR_SWS != RCC_CFGR_SWS_PLL)) w () w1 ∧
      Frame w w1 ∧ (w1.regs .RCC_CFGR).testBit 2 = false ∧ (w1.regs .RCC_CFGR).testBit 3 = true := by
  apply spin_total env .RCC_CFGR _ env.sws (fun x => Frame w x)
    (fun x => Frame w x ∧ (x.regs .RCC_CFGR).testBit 2 = false ∧
      (x.regs .RCC_CFGR).testBit 3 = true) hf.2.2.1
  · intro x hx hc
    refine ⟨frame_trans hx (frame_rdW env _ x), ?_⟩
    by_contra hne
    have hfire : env.sws x.clock = true := by simpa using hne
    have hb0 : (x.regs .RCC_CFGR).testBit 0 = false := by
      rw [hx.cfgr.keep 0 (by norm_num) (by norm_num)]; exact h0
    have hb1 : (x.regs .RCC_CFGR).testBit 1 = true := by
      rw [hx.cfgr.keep 1 (by norm_num) (by norm_num)]; exact h1
    have hb2 : (tickCFGR env x.clock (x.regs .RCC_CFGR)).testBit 2 = false := by
      simp [tb_tickCFGR, hfire, hb0]
    have hb3 : (tickCFGR env x.clock (x.regs .RCC_CFGR)).testBit 3 = true := by
      simp [tb_tickCFGR, hfire, hb1]
    simp only [rdV_CFGR, RCC_CFGR_SWS, RCC_CFGR_SWS_PLL, bne_iff_ne, ne_eq, and_12_eq_8] at hc
    exact hc ⟨hb2, hb3⟩
  · intro x hx hc
    refine ⟨frame_trans hx (frame_rdW env _ x), ?_⟩
    simp only [rdV_CFGR, RCC_CFGR_SWS, RCC_CFGR_SWS_PLL, bne_eq_false_iff_eq, and_12_eq_8] at hc
    rw [rdW_regs_CFGR]
    exact hc
  · exact frame_refl w

theorem M_bind_assoc {α β γ : Type} (m : M α) (f : α → M β) (g : β → M γ) :
    (m >>= f) >>= g = m >>= fun a => f a >>= g := by
  funext w
  simp only [bind_apply]
  cases m w <;> rfl

theorem M_pure_bind {α β : Type} (a : α) (f : α → M β) : (pure a >>= f) = f a := rfl

theorem M_ite_bind {α β : Type} (c : Prop) [Decidable c] (a b : M α) (f : α → M β) :
    ((if c then a else b) >>= f) = if c then a >>= f else b >>= f := by
  split_ifs <;> rfl

theorem BSP_split (env : Env) (fuel : Nat) :
    BSP_SystemClockConfig env fuel = (bspStop env fuel >>= fun _ => bspStart env fuel) := by
  unfold BSP_SystemClockConfig bspStop bspStart
  simp only [M_bind_assoc, M_ite_bind, M_pure_bind]


theorem crStep_tick_right {a b : Nat} (env : Env) (t : Nat) (h : CrStep a b) :
    CrStep a (tickCR env t b) := crStep_trans h (crStep_tick env t b)

theorem cfStep_tick_right {a b : Nat} (env : Env) (t : Nat) (h : CfStep a b) :
    CfStep a (tickCFGR env t b) := cfStep_trans h (cfStep_tick env t b)

theorem stop_total (env : Env) (hf : Fair env) (w : World) :
    ∃ wD, Runs (bspStop env) w () wD ∧
      (∀ i, i ≠ 1 → i ≠ 25 → (wD.regs .RCC_CR).testBit i =
        (decide (i = 0) || (decide (i < 32) && decide (i ≠ 24) && (w.regs .RCC_CR).testBit i))) ∧
      (wD.regs .RCC_CR).testBit 1 = true ∧
      CfStep (w.regs .RCC_CFGR) (wD.regs .RCC_CFGR) ∧
      wD.regs .FLASH_ACR = 0x602 ∧
      (∀ q : Reg, q.live = false → q ≠ .FLASH_ACR → wD.regs q = w.regs q) ∧
      wD.tx = w.tx := by
  obtain ⟨wA, hwA⟩ : ∃ wA, wA = wrW env .RCC_CR (rdV env .RCC_CR w ||| RCC_CR_HSION)
    (rdW env .RCC_CR w) := ⟨_, rfl⟩
  have hAcr : ∀ i, i ≠ 1 → i ≠ 25 → (wA.regs .RCC_CR).testBit i =
      (decide (i < 32) && (decide (i = 0) || (w.regs .RCC_CR).testBit i)) := by
    intro i h1 h25
    rw [hwA, wrW_regs_CR, if_pos rfl, tb_u32, rdV_CR, Nat.testBit_or, RCC_CR_HSION, tb_1,
      (crStep_tick env _ _).keep i h1 h25, Bool.or_comm]
  have hA0 : (wA.regs .RCC_CR).testBit 0 = true := by
    rw [hAcr 0 (by norm_num) (by norm_num)]; simp
  obtain ⟨w1, ⟨N1, hN1⟩, hF1, hb1⟩ := loop_hsirdy env hf wA hA0
  have h10 : (w1.regs .RCC_CR).testBit 0 = true := by
    rw [hF1.cr.keep 0 (by norm_num) (by norm_num)]; exact hA0
  obtain ⟨wB, hwB⟩ : ∃ wB, wB = wrW env .FLASH_ACR
      (FLASH_ACR_ICEN ||| FLASH_ACR_DCEN ||| FLASH_ACR_LATENCY_2WS) w1 := ⟨_, rfl⟩
  have hsB : CrStep (w1.regs .RCC_CR) (rdV env .RCC_CR wB) := by
    rw [rdV_CR, hwB, wrW_regs_CR, if_neg (by decide)]
    exact crStep_tick_right _ _ (crStep_tick _ _ _)
  obtain ⟨v, hv⟩ : ∃ v, v = rdV env .RCC_CR wB := ⟨_, rfl⟩
  rw [← hv] at hsB
  by_cases hp : v &&& RCC_CR_PLLON = 0
  · -- the multiplier is off: nothing to stop
    have hp24 : v.testBit 24 = false := (and_16777216_eq v).1 hp
    refine ⟨rdW env .RCC_CR wB, ⟨N1, fun n hn => ?_⟩, ?_, ?_, ?_, ?_, ?_, ?_⟩
    · simp only [bspStop, bind_apply, regOr_apply, wr_apply, rd_apply, ← hwA, hN1 n hn, ← hwB, ← hv]
      simp [hp]
    · intro i h1 h25
      rw [rdW_regs_CR, ← rdV_CR, ← hv, hsB.keep i h1 h25, hF1.cr.keep i h1 h25, hAcr i h1 h25]
      by_cases e24 : i = 24
      · subst e24
        have : (w1.regs .RCC_CR).testBit 24 = false := by
          rw [← hsB.keep 24 (by norm_num) (by norm_num)]; exact hp24
        rw [hF1.cr.keep 24 (by norm_num) (by norm_num), hAcr 24 (by norm_num) (by norm_num)] at this
        simpa using this
      · by_cases e0 : i = 0
        · subst e0; simp
        · simp [e24, e0]
    · rw [rdW_regs_CR, ← rdV_CR, ← hv]
      exact hsB.hsi h10 hb1
    · rw [rdW_regs_CFGR, hwB, wrW_regs_CFGR, if_neg (by decide)]
      refine cfStep_tick_right _ _ (cfStep_tick_right _ _ (cfStep_trans ?_ hF1.cfgr))
      rw [hwA, wrW_regs_CFGR, if_neg (by decide), rdW_regs_CFGR]
      exact cfStep_tick_right _ _ (cfStep_tick _ _ _)
    · rw [rdW_regs_dead _ _ _ _ (by rfl), hwB, wrW_regs_dead _ _ _ _ _ (by rfl), if_pos rfl]
      rfl
    · intro q hq hne
      rw [rdW_regs_dead _ _ _ _ hq, hwB, wrW_regs_dead _ _ _ _ _ hq, if_neg hne, hF1.dead q hq, hwA,
        wrW_regs_dead _ _ _ _ _ hq, if_neg (by rintro rfl; simp [Reg.live] at hq),
        rdW_regs_dead _ _ _ _ hq]
    · rw [rdW_tx, hwB, wrW_tx, if_neg (by decide), hF1.tx, hwA, wrW_tx, if_neg (by decide), rdW_tx]
  · -- the multiplier is on: clear PLLON and wait until PLLRDY is clear
    have hp24 : v.testBit 24 = true := by
      cases hb : v.testBit 24
      · exact absurd ((and_16777216_eq v).2 hb) hp
      · rfl
    obtain ⟨wC, hwC⟩ : ∃ wC, wC = wrW env .RCC_CR
        (rdV env .RCC_CR (rdW env .RCC_CR wB) &&& not32 RCC_CR_PLLON)
        (rdW env .RCC_CR (rdW env .RCC_CR wB)) := ⟨_, rfl⟩
    have hsC : CrStep (w1.regs .RCC_CR) (rdV env .RCC_CR (rdW env .RCC_CR wB)) := by
      rw [rdV_CR, rdW_regs_CR, ← rdV_CR, ← hv]
      exact crStep_tick_right _ _ hsB
    have hCcr : ∀ i, (wC.regs .RCC_CR).testBit i =
        (decide (i < 32) && decide (i ≠ 24) &&
          (rdV env .RCC_CR (rdW env .RCC_CR wB)).testBit i) := by
      intro i
      rw [hwC, wrW_regs_CR, if_pos rfl, tb_u32, Nat.testBit_and, tb_not32, RCC_CR_PLLON,
        tb_16777216]
      by_cases e : i < 32 <;> by_cases e2 : i = 24 <;> simp [e, e2]
    have hC24 : (wC.regs .RCC_CR).testBit 24 = false := by rw [hCcr]; simp
    obtain ⟨w2, ⟨N2, hN2⟩, hF2, hb2⟩ := loop_pllrdy_clear env hf wC hC24
    have hC1 : (wC.regs .RCC_CR).testBit 1 = true := by
      rw [hCcr, hsC.hsi h10 hb1]; simp
    have hC0 : (wC.regs .RCC_CR).testBit 0 = true := by
      rw [hCcr, hsC.keep 0 (by norm_num) (by norm_num), h10]; simp
    refine ⟨w2, ⟨max N1 N2, fun n hn => ?_⟩, ?_, ?_, ?_, ?_, ?_, ?_⟩
    · simp only [bspStop, bind_apply, regOr_apply, regAnd_apply, wr_apply, rd_apply, ← hwA,
        hN1 n (le_of_max_le_left hn), ← hwB, ← hv]
      have hpb : (v &&& RCC_CR_PLLON != 0) = true := by simpa using hp
      simp only [hpb, if_true, bind_apply, regAnd_apply, ← hwC, hN2 n (le_of_max_le_right hn)]
    · intro i h1 h25
      rw [hF2.cr.keep i h1 h25, hCcr, hsC.keep i h1 h25, hF1.cr.keep i h1 h25, hAcr i h1 h25]
      by_cases e : i < 32 <;> by_cases e2 : i = 24 <;> by_cases e0 : i = 0 <;> simp [e, e2, e0]
    · exact hF2.cr.hsi hC0 hC1
    · refine cfStep_trans ?_ hF2.cfgr
      rw [hwC, wrW_regs_CFGR, if_neg (by decide), rdW_regs_CFGR, rdW_regs_CFGR, hwB, wrW_regs_CFGR,
        if_neg (by decide)]
      refine cfStep_tick_right _ _ (cfStep_tick_right _ _ (cfStep_tick_right _ _
        (cfStep_tick_right _ _ (cfStep_trans ?_ hF1.cfgr))))
      rw [hwA, wrW_regs_CFGR, if_neg (by decide), rdW_regs_CFGR]
      exact cfStep_tick_right _ _ (cfStep_tick _ _ _)
    · rw [hF2.dead _ (by rfl), hwC, wrW_regs_dead _ _ _ _ _ (by rfl), if_neg (by decide),
        rdW_regs_dead _ _ _ _ (by rfl), rdW_regs_dead _ _ _ _ (by rfl), hwB,
        wrW_regs_dead _ _ _ _ _ (by rfl), if_pos rfl]
      rfl
    · intro q hq hne
      have hqcr : q ≠ .RCC_CR := by rintro rfl; simp [Reg.live] at hq
      rw [hF2.dead q hq, hwC, wrW_regs_dead _ _ _ _ _ hq, if_neg hqcr,
        rdW_regs_dead _ _ _ _ hq, rdW_regs_dead _ _ _ _ hq, hwB, wrW_regs_dead _ _ _ _ _ hq,
        if_neg hne, hF1.dead q hq, hwA, wrW_regs_dead _ _ _ _ _ hq, if_neg hqcr,
        rdW_regs_dead _ _ _ _ hq]
    · rw [hF2.tx, hwC, wrW_tx, if_neg (by decide), rdW_tx, rdW_tx, hwB, wrW_tx, if_neg (by decide),
        hF1.tx, hwA, wrW_tx, if_neg (by decide), rdW_tx]


theorem start_total (env : Env) (hf : Fair env) (w : World)
    (h0 : (w.regs .RCC_CR).testBit 0 = true) (h1 : (w.regs .RCC_CR).testBit 1 = true) :
    ∃ w4, Runs (bspStart env) w () w4 ∧
      (∀ i, i ≠ 1 → i ≠ 25 → (w4.regs .RCC_CR).testBit i =
        (decide (i = 24) || (decide (i < 32) && (w.regs .RCC_CR).testBit i))) ∧
      (w4.regs .RCC_CR).testBit 1 = true ∧ (w4.regs .RCC_CR).testBit 25 = true ∧
      (∀ i, (w4.regs .RCC_CFGR).testBit i =
        (decide (i = 1 ∨ i = 3 ∨ i = 12) ||
          (decide (i < 32) && decide (8 ≤ i) && !decide (10 ≤ i ∧ i < 16) &&
            (w.regs .RCC_CFGR).testBit i))) ∧
      w4.regs .RCC_PLLCFGR = pllcfgrWord ∧
      (∀ q : Reg, q.live = false → q ≠ .RCC_PLLCFGR → w4.regs q = w.regs q) ∧
      w4.tx = w.tx := by
  -- the straight-line stretch up to the write that sets PLLON
  obtain ⟨wa, hwa⟩ : ∃ wa, wa = wrW env .RCC_PLLCFGR pllcfgrWord w := ⟨_, rfl⟩
  obtain ⟨wb, hwb⟩ : ∃ wb, wb = wrW env .RCC_CFGR
      (rdV env .RCC_CFGR wa &&& not32 (RCC_CFGR_HPRE ||| RCC_CFGR_PPRE1 ||| RCC_CFGR_PPRE2))
      (rdW env .RCC_CFGR wa) := ⟨_, rfl⟩
  obtain ⟨wc, hwc⟩ : ∃ wc, wc = wrW env .RCC_CFGR (rdV env .RCC_CFGR wb ||| RCC_CFGR_PPRE1_DIV2)
      (rdW env .RCC_CFGR wb) := ⟨_, rfl⟩
  obtain ⟨wd, hwd⟩ : ∃ wd, wd = wrW env .RCC_CR (rdV env .RCC_CR wc ||| RCC_CR_PLLON)
      (rdW env .RCC_CR wc) := ⟨_, rfl⟩
  have hsc : CrStep (w.regs .RCC_CR) (rdV env .RCC_CR wc) := by
    rw [rdV_CR, hwc, wrW_regs_CR, if_neg (by decide), rdW_regs_CR, hwb, wrW_regs_CR,
      if_neg (by decide), rdW_regs_CR, hwa, wrW_regs_CR, if_neg (by decide)]
    exact crStep_tick_right _ _ (crStep_tick_right _ _ (crStep_tick_right _ _
      (crStep_tick_right _ _ (crStep_tick_right _ _ (crStep_tick _ _ _)))))
  have hdcr : ∀ i, (wd.regs .RCC_CR).testBit i =
      (decide (i < 32) && ((rdV env .RCC_CR wc).testBit i || decide (i = 24))) := by
    intro i
    rw [hwd, wrW_regs_CR, if_pos rfl, tb_u32, Nat.testBit_or, RCC_CR_PLLON, tb_16777216]
  have hd24 : (wd.regs .RCC_CR).testBit 24 = true := by rw [hdcr]; simp
  have hd0 : (wd.regs .RCC_CR).testBit 0 = true := by
    rw [hdcr, hsc.keep 0 (by norm_num) (by norm_num), h0]; simp
  have hd1 : (wd.regs .RCC_CR).testBit 1 = true := by
    rw [hdcr, hsc.hsi h0 h1]; simp
  obtain ⟨w3, ⟨N3, hN3⟩, hF3, hb3⟩ := loop_pllrdy_set env hf wd hd24
  -- the switch of the system clock
  obtain ⟨we, hwe⟩ : ∃ we, we = wrW env .RCC_CFGR (rdV env .RCC_CFGR w3 &&& not32 RCC_CFGR_SW)
      (rdW env .RCC_CFGR w3) := ⟨_, rfl⟩
  obtain ⟨wf, hwf⟩ : ∃ wf, wf = wrW env .RCC_CFGR (rdV env .RCC_CFGR we ||| RCC_CFGR_SW_PLL)
      (rdW env .RCC_CFGR we) := ⟨_, rfl⟩
  -- bits of the configuration register along the way
  have hbcf : ∀ i, i ≠ 2 → i ≠ 3 → (wb.regs .RCC_CFGR).testBit i =
      (decide (i < 32) && !decide ((4 ≤ i ∧ i < 8) ∨ (10 ≤ i ∧ i < 16)) &&
        (w.regs .RCC_CFGR).testBit i) := by
    intro i h2 h3
    have e : RCC_CFGR_HPRE ||| RCC_CFGR_PPRE1 ||| RCC_CFGR_PPRE2 = 64752 := by decide
    rw [hwb, wrW_regs_CFGR, if_pos rfl, tb_u32, Nat.testBit_and, tb_not32, e, tb_64752, rdV_CFGR,
      (cfStep_tick env _ _).keep i h2 h3, hwa, wrW_regs_CFGR, if_neg (by decide),
      (cfStep_tick env _ _).keep i h2 h3]
    by_cases e1 : i < 32 <;> cases (w.regs .RCC_CFGR).testBit i <;> simp [e1]
  have hccf : ∀ i, i ≠ 2 → i ≠ 3 → (wc.regs .RCC_CFGR).testBit i =
      (decide (i = 12) || (decide (i < 32) && !decide ((4 ≤ i ∧ i < 8) ∨ (10 ≤ i ∧ i < 16)) &&
        (w.regs .RCC_CFGR).testBit i)) := by
    intro i h2 h3
    rw [hwc, wrW_regs_CFGR, if_pos rfl, tb_u32, Nat.testBit_or, RCC_CFGR_PPRE1_DIV2, tb_4096,
      rdV_CFGR, (cfStep_tick env _ _).keep i h2 h3, hbcf i h2 h3]
    by_cases e1 : i < 32 <;> by_cases e2 : i = 12 <;> simp [e1, e2]
  have hs3 : CfStep (wc.regs .RCC_CFGR) (rdV env .RCC_CFGR w3) := by
    rw [rdV_CFGR]
    refine cfStep_tick_right _ _ (cfStep_trans ?_ hF3.cfgr)
    rw [hwd, wrW_regs_CFGR, if_neg (by decide), rdW_regs_CFGR]
    exact cfStep_tick_right _ _ (cfStep_tick _ _ _)
  have hecf : ∀ i, i ≠ 2 → i ≠ 3 → (we.regs .RCC_CFGR).testBit i =
      (decide (i < 32) && decide (2 ≤ i) && (wc.regs .RCC_CFGR).testBit i) := by
    intro i h2 h3
    rw [hwe, wrW_regs_CFGR, if_pos rfl, tb_u32, Nat.testBit_and, tb_not32, RCC_CFGR_SW, tb_3,
      hs3.keep i h2 h3]
    by_cases e1 : i < 32 <;> by_cases e2 : i < 2 <;> simp [e1, e2] <;> omega
  have hfcf : ∀ i, i ≠ 2 → i ≠ 3 → (wf.regs .RCC_CFGR).testBit i =
      (decide (i = 1) || (decide (i < 32) && decide (2 ≤ i) && (wc.regs .RCC_CFGR).testBit i)) := by
    intro i h2 h3
    rw [hwf, wrW_regs_CFGR, if_pos rfl, tb_u32, Nat.testBit_or, RCC_CFGR_SW_PLL, tb_2, rdV_CFGR,
      (cfStep_tick env _ _).keep i h2 h3, hecf i h2 h3]
    by_cases e1 : i < 32 <;> by_cases e2 : i = 1 <;> simp [e1, e2]
  have hf0 : (wf.regs .RCC_CFGR).testBit 0 = false := by
    rw [hfcf 0 (by norm_num) (by norm_num)]; simp
  have hf1 : (wf.regs .RCC_CFGR).testBit 1 = true := by
    rw [hfcf 1 (by norm_num) (by norm_num)]; simp
  obtain ⟨w4, ⟨N4, hN4⟩, hF4, hb42, hb43⟩ := loop_sws env hf wf hf0 hf1
  have hs4 : CrStep (w3.regs .RCC_CR) (w4.regs .RCC_CR) := by
    refine crStep_trans ?_ hF4.cr
    rw [hwf, wrW_regs_CR, if_neg (by decide), rdW_regs_CR, hwe, wrW_regs_CR, if_neg (by decide),
      rdW_regs_CR]
    exact crStep_tick_right _ _ (crStep_tick_right _ _ (crStep_tick_right _ _ (crStep_tick _ _ _)))
  have h324 : (w3.regs .RCC_CR).testBit 24 = true := by
    rw [hF3.cr.keep 24 (by norm_num) (by norm_num)]; exact hd24
  have h30 : (w3.regs .RCC_CR).testBit 0 = true := by
    rw [hF3.cr.keep 0 (by norm_num) (by norm_num)]; exact hd0
  refine ⟨w4, ⟨max N3 N4, fun n hn => ?_⟩, ?_, ?_, ?_, ?_, ?_, ?_, ?_⟩
  · simp only [bspStart, bind_apply, regOr_apply, regAnd_apply, wr_apply, ← hwa, ← hwb, ← hwc,
      ← hwd, hN3 n (le_of_max_le_left hn), ← hwe, ← hwf, hN4 n (le_of_max_le_right hn)]
  · intro i h1 h25
    rw [hs4.keep i h1 h25, hF3.cr.keep i h1 h25, hdcr, hsc.keep i h1 h25]
    by_cases e1 : i < 32 <;> by_cases e2 : i = 24 <;> simp [e1, e2]
  · exact hs4.hsi h30 (hF3.cr.hsi hd0 hd1)
  · exact hs4.pll h324 hb3
  · intro i
    by_cases e2 : i = 2
    · subst e2; rw [hb42]; simp
    · by_cases e3 : i = 3
      · subst e3; rw [hb43]; simp
      · rw [hF4.cfgr.keep i e2 e3, hfcf i e2 e3, hccf i e2 e3]
        by_cases e1 : i < 32 <;> by_cases e12 : i = 12 <;> by_cases e11 : i = 1 <;>
          cases (w.regs .RCC_CFGR).testBit i <;> simp [e1, e2, e3, e12, e11] <;>
          (try (apply Bool.eq_iff_iff.mpr
                simp only [Bool.and_eq_true, Bool.or_eq_true, Bool.not_eq_true',
                  decide_eq_true_eq, decide_eq_false_iff_not]
                omega))
  · rw [hF4.dead _ (by rfl), hwf, wrW_regs_dead _ _ _ _ _ (by rfl), if_neg (by decide),
      rdW_regs_dead _ _ _ _ (by rfl), hwe, wrW_regs_dead _ _ _ _ _ (by rfl), if_neg (by decide),
      rdW_regs_dead _ _ _ _ (by rfl), hF3.dead _ (by rfl), hwd, wrW_regs_dead _ _ _ _ _ (by rfl),
      if_neg (by decide), rdW_regs_dead _ _ _ _ (by rfl), hwc, wrW_regs_dead _ _ _ _ _ (by rfl),
      if_neg (by decide), rdW_regs_dead _ _ _ _ (by rfl), hwb, wrW_regs_dead _ _ _ _ _ (by rfl),
      if_neg (by decide), rdW_regs_dead _ _ _ _ (by rfl), hwa, wrW_regs_dead _ _ _ _ _ (by rfl),
      if_pos rfl]
    decide
  · intro q hq hne
    have hqcr : q ≠ .RCC_CR := by rintro rfl; simp [Reg.live] at hq
    have hqcf : q ≠ .RCC_CFGR := by rintro rfl; simp [Reg.live] at hq
    rw [hF4.dead q hq, hwf, wrW_regs_dead _ _ _ _ _ hq, if_neg hqcf,
      rdW_regs_dead _ _ _ _ hq, hwe, wrW_regs_dead _ _ _ _ _ hq, if_neg hqcf,
      rdW_regs_dead _ _ _ _ hq, hF3.dead q hq, hwd, wrW_regs_dead _ _ _ _ _ hq,
      if_neg hqcr, rdW_regs_dead _ _ _ _ hq, hwc, wrW_regs_dead _ _ _ _ _ hq,
      if_neg hqcf, rdW_regs_dead _ _ _ _ hq, hwb, wrW_regs_dead _ _ _ _ _ hq,
      if_neg hqcf, rdW_regs_dead _ _ _ _ hq, hwa, wrW_regs_dead _ _ _ _ _ hq,
      if_neg hne]
  · rw [hF4.tx, hwf, wrW_tx, if_neg (by decide), rdW_tx, hwe, wrW_tx, if_neg (by decide), rdW_tx,
      hF3.tx, hwd, wrW_tx, if_neg (by decide), rdW_tx, hwc, wrW_tx, if_neg (by decide), rdW_tx,
      hwb, wrW_tx, if_neg (by decide), rdW_tx, hwa, wrW_tx, if_neg (by decide)]

theorem runs_unique {α : Type} {m : Nat → M α} {w : World} {a b : α} {w1 w2 : World}
    (h1 : Runs m w a w1) (h2 : Runs m w b w2) : a = b ∧ w1 = w2 := by
  obtain ⟨N1, h1⟩ := h1
  obtain ⟨N2, h2⟩ := h2
  have e1 := h1 (max N1 N2) (le_max_left _ _)
  have e2 := h2 (max N1 N2) (le_max_right _ _)
  rw [e1] at e2
  injection e2 with ha hw
  exact ⟨ha, hw⟩

theorem runs_seq {α β : Type} {m : Nat → M α} {f : Nat → α → M β} {w w1 w2 : World} {a : α}
    {b : β} (h1 : Runs m w a w1) (h2 : Runs (fun n => f n a) w1 b w2) :
    Runs (fun n => m n >>= f n) w b w2 := by
  obtain ⟨N1, h1⟩ := h1
  obtain ⟨N2, h2⟩ := h2
  refine ⟨max N1 N2, fun n hn => ?_⟩
  simp only [bind_apply, h1 n (le_of_max_le_left hn)]
  exact h2 n (le_of_max_le_right hn)

theorem BSP_total (env : Env) (hf : Fair env) (w : World) :
    ∃ w1, Runs (BSP_SystemClockConfig env) w () w1 ∧ ClockPost w w1 := by
  obtain ⟨wD, hrD, hDcr, hD1, hDcf, hDacr, hDdead, hDtx⟩ := stop_total env hf w
  have hD0 : (wD.regs .RCC_CR).testBit 0 = true := by
    rw [hDcr 0 (by norm_num) (by norm_num)]; simp
  obtain ⟨w4, hr4, h4cr, h41, h425, h4cf, h4pll, h4dead, h4tx⟩ := start_total env hf wD hD0 hD1
  refine ⟨w4, ?_, ?_⟩
  · have := runs_seq (f := fun n _ => bspStart env n) hrD hr4
    obtain ⟨N, hN⟩ := this
    exact ⟨N, fun n hn => by rw [BSP_split]; exact hN n hn⟩
  · constructor
    · intro i
      by_cases e1 : i = 1
      · subst e1; rw [h41]; simp
      · by_cases e25 : i = 25
        · subst e25; rw [h425]; simp
        · rw [h4cr i e1 e25, hDcr i e1 e25]
          by_cases e : i < 32 <;> by_cases e24 : i = 24 <;> by_cases e0 : i = 0 <;>
            simp [e, e1, e25, e24, e0]
    · intro i
      rw [h4cf i]
      by_cases e2 : i = 2
      · subst e2; simp
      · by_cases e3 : i = 3
        · subst e3; simp
        · rw [hDcf.keep i e2 e3]
    · rw [h4dead _ (by rfl) (by decide), hDacr]; rfl
    · exact h4pll
    · intro q hq h1 h2
      rw [h4dead q hq h2, hDdead q hq h1]
    · rw [h4tx, hDtx]

theorem fair_envNow : Fair envNow :=
  ⟨fun _ => ⟨0, rfl⟩, fun _ => ⟨0, rfl⟩, fun _ => ⟨0, rfl⟩, fun _ => ⟨0, rfl⟩, fun _ => ⟨0, rfl⟩⟩

theorem fair_envSlow : Fair envSlow := by
  refine ⟨fun t => ⟨2 * t, ?_⟩, fun t => ⟨2 * t + 1, ?_⟩, fun t => ⟨2 * t + 2, ?_⟩,
    fun t => ⟨2 * t, ?_⟩, fun t => ⟨2 * t + 100 + 1 + 2 * 100, ?_⟩⟩ <;>
    simp [envSlow] <;> omega

/-- C4: for every fair environment and every initial world, running
`BSP_SystemClockConfig` twice in succession terminates and leaves `RCC->CR`,
`RCC->PLLCFGR`, `RCC->CFGR` and `FLASH->ACR` exactly as one run leaves them. -/
theorem BSP_SystemClockConfig_idempotent (env : Env) (hf : Fair env) (w : World) :
    ∃ w1 w2, Runs (BSP_SystemClockConfig env) w () w1 ∧
      Runs (fun n => BSP_SystemClockConfig env n >>= fun _ => BSP_SystemClockConfig env n)
        w () w2 ∧
      w2.regs .RCC_CR = w1.regs .RCC_CR ∧ w2.regs .RCC_PLLCFGR = w1.regs .RCC_PLLCFGR ∧
      w2.regs .RCC_CFGR = w1.regs .RCC_CFGR ∧ w2.regs .FLASH_ACR = w1.regs .FLASH_ACR := by
  obtain ⟨w1, hr1, hp1⟩ := BSP_total env hf w
  obtain ⟨w2, hr2, hp2⟩ := BSP_total env hf w1
  refine ⟨w1, w2, hr1, runs_seq (f := fun n _ => BSP_SystemClockConfig env n) hr1 hr2, ?_, ?_, ?_, ?_⟩
  · apply Nat.eq_of_testBit_eq
    intro i
    rw [hp2.cr i, hp1.cr i]
    by_cases e : i < 32 <;> cases (w.regs .RCC_CR).testBit i <;> simp [e]
  · rw [hp2.pllcfgr, hp1.pllcfgr]
  · apply Nat.eq_of_testBit_eq
    intro i
    rw [hp2.cfgr i, hp1.cfgr i]
    by_cases e : i < 32 <;> by_cases e8 : 8 ≤ i <;> cases (w.regs .RCC_CFGR).testBit i <;>
      simp [e, e8] <;>
      (try (apply Bool.eq_iff_iff.mpr
            simp only [Bool.and_eq_true, Bool.or_eq_true, Bool.not_eq_true',
              decide_eq_true_eq, decide_eq_false_iff_not]
            omega))
  · rw [hp2.acr, hp1.acr]

/-- Witness of C4 on a device after reset with slow hardware. -/
theorem BSP_SystemClockConfig_idempotent_witness :
    Fair envSlow ∧ ∃ w1 w2, Runs (BSP_SystemClockConfig envSlow) (coldStart []) () w1 ∧
      Runs (fun n => BSP_SystemClockConfig envSlow n >>= fun _ => BSP_SystemClockConfig envSlow n)
        (coldStart []) () w2 ∧
      w2.regs .RCC_CR = w1.regs .RCC_CR ∧ w2.regs .RCC_PLLCFGR = w1.regs .RCC_PLLCFGR ∧
      w2.regs .RCC_CFGR = w1.regs .RCC_CFGR ∧ w2.regs .FLASH_ACR = w1.regs .FLASH_ACR :=
  ⟨fair_envSlow, BSP_SystemClockConfig_idempotent envSlow fair_envSlow (coldStart [])⟩


theorem and_mask_of_bits (x m v : Nat)
    (h : ∀ i, m.testBit i = true → x.testBit i = v.testBit i)
    (hv : ∀ i, m.testBit i = false → v.testBit i = false) : x &&& m = v := by
  apply Nat.eq_of_testBit_eq
  intro i
  rw [Nat.testBit_and]
  cases hm : m.testBit i
  · rw [hv i hm]; simp
  · rw [h i hm]; simp

/-- C9: for every fair environment and every initial world,
`BSP_SystemClockConfig` returns with HPRE `0`, PPRE1 equal to the
divide-by-two code and PPRE2 `0` in `RCC->CFGR`; decoded with the factors it
programmed, the core runs at 84 MHz, APB1 at 84 MHz / 2 = 42 MHz, which is
the constant `apb1_clk` of `UART2_Init` and not above half the core clock,
and APB2 at 84 MHz. -/
theorem BSP_SystemClockConfig_prescalers (env : Env) (hf : Fair env) (w : World) :
    ∃ w1, Runs (BSP_SystemClockConfig env) w () w1 ∧
      w1.regs .RCC_CFGR &&& RCC_CFGR_HPRE = 0 ∧
      w1.regs .RCC_CFGR &&& RCC_CFGR_PPRE1 = RCC_CFGR_PPRE1_DIV2 ∧
      w1.regs .RCC_CFGR &&& RCC_CFGR_PPRE2 = 0 ∧
      hpreDiv ((w1.regs .RCC_CFGR &&& RCC_CFGR_HPRE) >>> 4) = 1 ∧
      ppreDiv ((w1.regs .RCC_CFGR &&& RCC_CFGR_PPRE1) >>> 10) = 2 ∧
      ppreDiv ((w1.regs .RCC_CFGR &&& RCC_CFGR_PPRE2) >>> 13) = 1 ∧
      ahbHz w1.regs = 84000000 ∧ apb1Hz w1.regs = 42000000 ∧ apb1Hz w1.regs = apb1_clk ∧
      2 * apb1Hz w1.regs ≤ ahbHz w1.regs ∧ apb2Hz w1.regs = 84000000 := by
  obtain ⟨w1, hr1, hp1⟩ := BSP_total env hf w
  have hH : w1.regs .RCC_CFGR &&& RCC_CFGR_HPRE = 0 := by
    apply and_mask_of_bits
    · intro i hi
      rw [RCC_CFGR_HPRE, tb_240] at hi
      have hi2 : 4 ≤ i ∧ i < 8 := by simpa using hi
      rw [hp1.cfgr i]
      have : ¬ 8 ≤ i := by omega
      simp [this]; omega
    · intro i _; simp
  have h1 : w1.regs .RCC_CFGR &&& RCC_CFGR_PPRE1 = RCC_CFGR_PPRE1_DIV2 := by
    apply and_mask_of_bits
    · intro i hi
      rw [RCC_CFGR_PPRE1, tb_7168] at hi
      have hi2 : 10 ≤ i ∧ i < 13 := by simpa using hi
      rw [hp1.cfgr i, RCC_CFGR_PPRE1_DIV2, tb_4096]
      have e1 : 10 ≤ i := hi2.1
      have e2 : i < 16 := by omega
      by_cases e12 : i = 12 <;> simp [e1, e2, e12] <;> omega
    · intro i hi
      rw [RCC_CFGR_PPRE1, tb_7168] at hi
      rw [RCC_CFGR_PPRE1_DIV2, tb_4096]
      have : ¬ (10 ≤ i ∧ i < 13) := by simpa using hi
      simp; omega
  have h2 : w1.regs .RCC_CFGR &&& RCC_CFGR_PPRE2 = 0 := by
    apply and_mask_of_bits
    · intro i hi
      rw [RCC_CFGR_PPRE2, tb_57344] at hi
      have hi2 : 13 ≤ i ∧ i < 16 := by simpa using hi
      rw [hp1.cfgr i]
      have e1 : 10 ≤ i := by omega
      have e2 : i < 16 := hi2.2
      simp [e1, e2]; omega
    · intro i _; simp
  refine ⟨w1, hr1, hH, h1, h2, ?_, ?_, ?_, ?_, ?_, ?_, ?_, ?_⟩
  · rw [hH]; decide
  · rw [h1]; decide
  · rw [h2]; decide
  · simp only [ahbHz, hH, hp1.pllcfgr]; decide
  · simp only [apb1Hz, ahbHz, hH, h1, hp1.pllcfgr]; decide
  · simp only [apb1Hz, ahbHz, hH, h1, hp1.pllcfgr]; decide
  · simp only [apb1Hz, ahbHz, hH, h1, hp1.pllcfgr]; decide
  · simp only [apb2Hz, ahbHz, hH, h2, hp1.pllcfgr]; decide

/-- Witness of C9 on a device that was already brought up. -/
theorem BSP_SystemClockConfig_prescalers_witness :
    Fair envNow ∧ ∃ w1, Runs (BSP_SystemClockConfig envNow) (warmStart []) () w1 ∧
      w1.regs .RCC_CFGR &&& RCC_CFGR_HPRE = 0 ∧
      w1.regs .RCC_CFGR &&& RCC_CFGR_PPRE1 = RCC_CFGR_PPRE1_DIV2 ∧
      w1.regs .RCC_CFGR &&& RCC_CFGR_PPRE2 = 0 ∧
      hpreDiv ((w1.regs .RCC_CFGR &&& RCC_CFGR_HPRE) >>> 4) = 1 ∧
      ppreDiv ((w1.regs .RCC_CFGR &&& RCC_CFGR_PPRE1) >>> 10) = 2 ∧
      ppreDiv ((w1.regs .RCC_CFGR &&& RCC_CFGR_PPRE2) >>> 13) = 1 ∧
      ahbHz w1.regs = 84000000 ∧ apb1Hz w1.regs = 42000000 ∧ apb1Hz w1.regs = apb1_clk ∧
      2 * apb1Hz w1.regs ≤ ahbHz w1.regs ∧ apb2Hz w1.regs = 84000000 :=
  ⟨fair_envNow, BSP_SystemClockConfig_prescalers envNow fair_envNow (warmStart [])⟩

theorem writesTo_append (r : Reg) (l1 l2 : List Event) :
    writesTo r (l1 ++ l2) = writesTo r l1 ++ writesTo r l2 := by
  simp [writesTo, List.filterMap_append]

@[simp] theorem writesTo_nil (r : Reg) : writesTo r [] = [] := rfl

@[simp] theorem writesTo_read (r q : Reg) (v : Nat) (p : Regs) (l : List Event) :
    writesTo r (⟨.read q v, p⟩ :: l) = writesTo r l := by simp [writesTo]

@[simp] theorem writesTo_write (r q : Reg) (v : Nat) (p : Regs) (l : List Event) :
    writesTo r (⟨.write q v, p⟩ :: l) = if q = r then v :: writesTo r l else writesTo r l := by
  by_cases h : q = r <;> simp [writesTo, h]

theorem brrWord_eq (b : Nat) (hb : b < 4294967296) :
    brrWord b = (42000000 + b / 2) / b := by
  unfold brrWord u32 apb1_clk
  rw [Nat.mod_eq_of_lt (by omega)]

theorem brrWord_lt (b : Nat) (hb : b < 4294967296) : brrWord b < 4294967296 := by
  rw [brrWord_eq b hb]
  rcases Nat.eq_zero_or_pos b with h | h
  · subst h; simp
  · calc (42000000 + b / 2) / b ≤ 42000000 + b / 2 := Nat.div_le_self _ _
      _ < 4294967296 := by omega

theorem round_half_up (b : Nat) (hb1 : 1 ≤ b) :
    (((42000000 + b / 2) / b : Nat) : ℤ) = ⌊(42000000 : ℚ) / (b : ℚ) + 1 / 2⌋ := by
  symm
  rw [Int.floor_eq_iff]
  have hbpos : (0 : ℚ) < (b : ℚ) := by exact_mod_cast hb1
  set k := (42000000 + b / 2) / b with hk
  have h1 : b * k ≤ 42000000 + b / 2 := Nat.mul_div_le _ _
  have h2 : 42000000 + b / 2 < b * (k + 1) := Nat.lt_mul_div_succ _ (by omega)
  have h3 : 2 * (b / 2) ≤ b := by omega
  have h4 : b ≤ 2 * (b / 2) + 1 := by omega
  have e1 : 2 * (b * k) ≤ 2 * 42000000 + b := by omega
  have e2 : 2 * 42000000 + b + 1 ≤ 2 * (b * (k + 1)) := by omega
  have q1 : (2 : ℚ) * ((b : ℚ) * (k : ℚ)) ≤ 2 * 42000000 + (b : ℚ) := by exact_mod_cast e1
  have q2 : (2 : ℚ) * 42000000 + (b : ℚ) + 1 ≤ 2 * ((b : ℚ) * ((k : ℚ) + 1)) := by
    exact_mod_cast e2
  constructor
  · rw [div_add_div _ _ (ne_of_gt hbpos) (by norm_num), le_div_iff₀ (by positivity)]
    push_cast
    nlinarith
  · rw [div_add_div _ _ (ne_of_gt hbpos) (by norm_num), div_lt_iff₀ (by positivity)]
    push_cast
    nlinarith


@[simp] theorem hwTick_regs_SR_rxne (env : Env) (w : World) :
    ((hwTick env w).regs .USART2_SR).testBit 5 =
      ((w.regs .USART2_SR).testBit 5 || delivers env w) := by
  unfold hwTick tickTXE
  by_cases hd : delivers env w = true
  · simp [hd, Regs.set, USART_SR_RXNE, USART_SR_TXE, tb_32]
  · have hd' : delivers env w = false := by simpa using hd
    simp only [hd', Bool.false_eq_true, if_false, Regs.set, if_true, USART_SR_TXE, Bool.or_false]
    split_ifs <;> simp [Nat.testBit_or, tb_128]

theorem rdW_DR_rxne (env : Env) (w : World) :
    ((rdW env .USART2_DR w).regs .USART2_SR).testBit 5 = false := by
  simp [rdW, Regs.set, tb_clr, USART_SR_RXNE, tb_32]

/-- C1: for every 32-bit baud rate `b ≥ 1`, `UART2_Init b` returns, the one
word it writes to `USART2->BRR` (and leaves there) is `(42000000 + b / 2) / b`,
which is also its value in unsigned 32-bit arithmetic because the sum
`42000000 + b / 2` stays below `2^32`; that word is `42000000 / b` rounded to
the nearest integer, ties up, over the rationals; and for `b = 115200` it is
`365`. -/
theorem UART2_Init_baud_divisor (env : Env) (w : World) (b : Nat) (hb1 : 1 ≤ b)
    (hb : b < 4294967296) :
    (∃ w1, UART2_Init env b w = .done () w1 ∧
      w1.regs .USART2_BRR = (42000000 + b / 2) / b ∧
      writesTo .USART2_BRR w1.log = writesTo .USART2_BRR w.log ++ [(42000000 + b / 2) / b]) ∧
    brrWord b = (42000000 + b / 2) / b ∧
    42000000 + b / 2 < 4294967296 ∧
    (((42000000 + b / 2) / b : Nat) : ℤ) = ⌊(42000000 : ℚ) / (b : ℚ) + 1 / 2⌋ ∧
    brrWord 115200 = 365 := by
  have hlt := brrWord_lt b hb
  have heq := brrWord_eq b hb
  refine ⟨⟨_, rfl, ?_, ?_⟩, heq, by omega, round_half_up b hb1, by decide⟩
  · rw [← heq]
    simp [rdW_regs_dead, wrW_regs_dead, Reg.live, u32, Nat.mod_eq_of_lt hlt]
  · rw [← heq]
    simp [writesTo_append, u32, Nat.mod_eq_of_lt hlt]

/-- Witness of C1 at 9600 baud on a device after reset. -/
theorem UART2_Init_baud_divisor_witness :
    (1 ≤ 9600 ∧ 9600 < 4294967296) ∧
    (∃ w1, UART2_Init envSlow 9600 (coldStart []) = .done () w1 ∧
      w1.regs .USART2_BRR = (42000000 + 9600 / 2) / 9600 ∧
      writesTo .USART2_BRR w1.log =
        writesTo .USART2_BRR (coldStart []).log ++ [(42000000 + 9600 / 2) / 9600]) ∧
    brrWord 9600 = (42000000 + 9600 / 2) / 9600 ∧
    42000000 + 9600 / 2 < 4294967296 ∧
    (((42000000 + 9600 / 2) / 9600 : Nat) : ℤ) = ⌊(42000000 : ℚ) / ((9600 : Nat) : ℚ) + 1 / 2⌋ ∧
    brrWord 115200 = 365 :=
  ⟨⟨by decide, by decide⟩,
    UART2_Init_baud_divisor envSlow (coldStart []) 9600 (by decide) (by decide)⟩

/-- C6: for every initial world and every 32-bit baud rate `b ≥ 1`,
`UART2_Init b` returns with `USART2->CR1` equal to `TE | RE | UE` (so the word
length, parity, oversampling and interrupt enable bits are clear), with
`USART2->CR2` equal to `0` (one stop bit) and `USART2->CR3` equal to `0` (no
flow control). -/
theorem UART2_Init_frame_format (env : Env) (w : World) (b : Nat) (hb1 : 1 ≤ b)
    (hb : b < 4294967296) :
    ∃ w1, UART2_Init env b w = .done () w1 ∧
      w1.regs .USART2_CR1 = USART_CR1_TE ||| USART_CR1_RE ||| USART_CR1_UE ∧
      w1.regs .USART2_CR2 = 0 ∧ w1.regs .USART2_CR3 = 0 ∧
      w1.regs .USART2_CR1 &&& USART_CR1_FORMAT_AND_IRQ = 0 ∧
      w1.regs .USART2_CR1 &&& USART_CR1_M = 0 ∧
      w1.regs .USART2_CR1 &&& USART_CR1_PCE = 0 ∧
      w1.regs .USART2_CR1 &&& USART_CR1_OVER8 = 0 ∧
      w1.regs .USART2_CR2 &&& USART_CR2_STOP = 0 ∧
      w1.regs .USART2_CR3 &&& USART_CR3_RTSE_CTSE = 0 := by
  have h1 : (UART2_Init env b w).world.regs .USART2_CR1 = 8204 := by
    simp [UART2_Init, Res.world, rdW_regs_dead, wrW_regs_dead, Reg.live, rdV_dead, u32,
      USART_CR1_TE, USART_CR1_RE, USART_CR1_UE]
  have h2 : (UART2_Init env b w).world.regs .USART2_CR2 = 0 := by
    simp [UART2_Init, Res.world, rdW_regs_dead, wrW_regs_dead, Reg.live, u32]
  have h3 : (UART2_Init env b w).world.regs .USART2_CR3 = 0 := by
    simp [UART2_Init, Res.world, rdW_regs_dead, wrW_regs_dead, Reg.live, u32]
  obtain ⟨w1, hw1⟩ := UART2_Init_done env b w
  rw [hw1] at h1 h2 h3
  simp only [Res.world] at h1 h2 h3
  refine ⟨w1, hw1, ?_, h2, h3, ?_, ?_, ?_, ?_, ?_, ?_⟩
  · rw [h1]; decide
  · rw [h1]; decide
  · rw [h1]; decide
  · rw [h1]; decide
  · rw [h1]; decide
  · rw [h2]; decide
  · rw [h3]; decide

/-- Witness of C6 at 115200 baud on a device that was already brought up. -/
theorem UART2_Init_frame_format_witness :
    (1 ≤ 115200 ∧ 115200 < 4294967296) ∧
    ∃ w1, UART2_Init envNow 115200 (warmStart [0x41]) = .done () w1 ∧
      w1.regs .USART2_CR1 = USART_CR1_TE ||| USART_CR1_RE ||| USART_CR1_UE ∧
      w1.regs .USART2_CR2 = 0 ∧ w1.regs .USART2_CR3 = 0 ∧
      w1.regs .USART2_CR1 &&& USART_CR1_FORMAT_AND_IRQ = 0 ∧
      w1.regs .USART2_CR1 &&& USART_CR1_M = 0 ∧
      w1.regs .USART2_CR1 &&& USART_CR1_PCE = 0 ∧
      w1.regs .USART2_CR1 &&& USART_CR1_OVER8 = 0 ∧
      w1.regs .USART2_CR2 &&& USART_CR2_STOP = 0 ∧
      w1.regs .USART2_CR3 &&& USART_CR3_RTSE_CTSE = 0 :=
  ⟨⟨by decide, by decide⟩,
    UART2_Init_frame_format envNow (warmStart [0x41]) 115200 (by decide) (by decide)⟩

theorem rxne_iff (v : Nat) : v &&& USART_SR_RXNE ≠ 0 ↔ v.testBit 5 = true := by
  rw [USART_SR_RXNE, ne_eq, and_32_eq]; simp

theorem txe_iff (v : Nat) : v &&& USART_SR_TXE ≠ 0 ↔ v.testBit 7 = true := by
  rw [USART_SR_TXE, ne_eq, and_128_eq]; simp

theorem delivers_iff (env : Env) (w : World) :
    delivers env w = true ↔
      env.rxne w.clock = true ∧ (w.regs .USART2_SR).testBit 5 = false ∧ w.rx ≠ [] := by
  unfold delivers
  rw [USART_SR_RXNE]
  simp only [Bool.and_eq_true, decide_eq_true_eq, and_32_eq, Bool.not_eq_true',
    List.isEmpty_eq_false, and_assoc]

theorem tb_tickTXE (env : Env) (t sr i : Nat) :
    (tickTXE env t sr).testBit i = (sr.testBit i || (decide (i = 7) && env.txe t)) := by
  unfold tickTXE
  cases env.txe t <;> simp [USART_SR_TXE, Nat.testBit_or, tb_128]

theorem hwTick_SR (env : Env) (w : World) (i : Nat) :
    ((hwTick env w).regs .USART2_SR).testBit i =
      ((w.regs .USART2_SR).testBit i || (decide (i = 7) && env.txe w.clock) ||
        (decide (i = 5) && delivers env w)) := by
  unfold hwTick
  by_cases hd : delivers env w = true
  · simp [hd, Regs.set, USART_SR_RXNE, Nat.testBit_or, tb_32, tb_tickTXE]
  · have hd' : delivers env w = false := by simpa using hd
    simp [hd', Regs.set, tb_tickTXE]

theorem hwTick_DR (env : Env) (w : World) :
    (hwTick env w).regs .USART2_DR =
      if delivers env w then w.rx.headD 0 else w.regs .USART2_DR := by
  unfold hwTick
  by_cases hd : delivers env w = true
  · simp [hd, Regs.set]
  · have hd' : delivers env w = false := by simpa using hd
    simp [hd', Regs.set]

theorem hwTick_rx (env : Env) (w : World) :
    (hwTick env w).rx = if delivers env w then w.rx.tail else w.rx := by
  unfold hwTick
  by_cases hd : delivers env w = true
  · simp [hd]
  · have hd' : delivers env w = false := by simpa using hd
    simp [hd']

theorem inbox_eq (w : World) :
    inbox w = if (w.regs .USART2_SR).testBit 5 = true then w.regs .USART2_DR :: w.rx
      else w.rx := by
  unfold inbox
  by_cases h : (w.regs .USART2_SR).testBit 5 = true
  · rw [if_pos h, if_pos ((rxne_iff _).2 h)]
  · rw [if_neg h, if_neg (fun h' => h ((rxne_iff _).1 h'))]

theorem inbox_hwTick (env : Env) (w : World) : inbox (hwTick env w) = inbox w := by
  rw [inbox_eq, inbox_eq, hwTick_SR, hwTick_DR, hwTick_rx]
  by_cases hd : delivers env w = true
  · obtain ⟨_, h5, hrx⟩ := (delivers_iff env w).1 hd
    obtain ⟨b, q, hq⟩ := List.exists_cons_of_ne_nil hrx
    simp [hd, h5, hq]
  · have hd' : delivers env w = false := by simpa using hd
    simp [hd']


theorem rdW_regs_SR (env : Env) (r : Reg) (w : World) (hr : r ≠ .USART2_DR) :
    (rdW env r w).regs .USART2_SR = (hwTick env w).regs .USART2_SR := by
  simp [rdW, hr]

theorem rdW_regs_DR (env : Env) (r : Reg) (w : World) :
    (rdW env r w).regs .USART2_DR = (hwTick env w).regs .USART2_DR := by
  unfold rdW
  by_cases hr : r = .USART2_DR <;> simp [hr, Regs.set]

theorem rdW_rx (env : Env) (r : Reg) (w : World) : (rdW env r w).rx = (hwTick env w).rx := by
  simp [rdW]

theorem wrW_rx (env : Env) (r : Reg) (v : Nat) (w : World) :
    (wrW env r v w).rx = (hwTick env w).rx := by
  simp [wrW]

theorem inbox_rdW (env : Env) (r : Reg) (w : World) (hr : r ≠ .USART2_DR) :
    inbox (rdW env r w) = inbox w := by
  rw [← inbox_hwTick env w, inbox_eq, inbox_eq (hwTick env w), rdW_regs_SR env r w hr,
    rdW_regs_DR, rdW_rx]

theorem inbox_wrW_DR (env : Env) (v : Nat) (w : World) :
    inbox (wrW env .USART2_DR v w) = inbox w := by
  rw [← inbox_hwTick env w, inbox_eq, inbox_eq (hwTick env w), wrW_rx]
  have h1 : ((wrW env .USART2_DR v w).regs .USART2_SR).testBit 5 =
      ((hwTick env w).regs .USART2_SR).testBit 5 := by
    simp [wrW, Regs.set, tb_clr, USART_SR_TXE, tb_128]
  have h2 : (wrW env .USART2_DR v w).regs .USART2_DR = (hwTick env w).regs .USART2_DR := by
    simp [wrW, Regs.set]
  rw [h1, h2]

theorem inbox_rdW_DR (env : Env) (w : World) (h : (w.regs .USART2_SR).testBit 5 = true) :
    rdV env .USART2_DR w :: inbox (rdW env .USART2_DR w) = inbox w := by
  have hnd : delivers env w = false := by
    cases hd : delivers env w
    · rfl
    · have := ((delivers_iff env w).1 hd).2.1
      rw [h] at this
      exact absurd this (by simp)
  rw [inbox_eq (rdW env .USART2_DR w), rdW_DR_rxne, inbox_eq w, if_pos h]
  simp [rdV, rdW_rx, hwTick_DR, hwTick_rx, hnd]

/-- Sending one character: the wait for the transmit-empty flag ends and the
byte is written. -/
theorem SendChar_total (env : Env) (hf : Fair env) (c : Int) (w : World) :
    ∃ w1, Runs (fun n => UART2_SendChar env n c) w () w1 ∧
      w1.tx = w.tx ++ [toU8 c] ∧ inbox w1 = inbox w := by
  obtain ⟨w1, ⟨N, hN⟩, hi, ht⟩ := spin_total env .USART2_SR
    (fun v => v &&& USART_SR_TXE == 0) env.txe
    (fun x => inbox x = inbox w ∧ x.tx = w.tx) (fun x => inbox x = inbox w ∧ x.tx = w.tx)
    hf.2.2.2.1
    (by
      intro x hx hc
      refine ⟨⟨by rw [inbox_rdW env _ x (by decide)]; exact hx.1, by rw [rdW_tx]; exact hx.2⟩, ?_⟩
      by_contra hne
      have hfire : env.txe x.clock = true := by simpa using hne
      have hb : (rdV env .USART2_SR x).testBit 7 = true := by
        simp [rdV, hwTick_SR, hfire]
      simp only [USART_SR_TXE, beq_iff_eq, and_128_eq] at hc
      rw [hb] at hc
      exact absurd hc (by simp))
    (by
      intro x hx _
      exact ⟨by rw [inbox_rdW env _ x (by decide)]; exact hx.1, by rw [rdW_tx]; exact hx.2⟩)
    w ⟨rfl, rfl⟩
  refine ⟨wrW env .USART2_DR (toU8 c) w1, ⟨N, fun n hn => ?_⟩, ?_, ?_⟩
  · simp only [UART2_SendChar, bind_apply, hN n hn, wr_apply]
  · have h8 : toU8 c < 256 := by
      unfold toU8
      have := Int.emod_lt_of_pos c (by norm_num : (0 : Int) < 256)
      have := Int.emod_nonneg c (by norm_num : (256 : Int) ≠ 0)
      omega
    rw [wrW_tx, if_pos rfl, ht, u32, Nat.mod_eq_of_lt (by omega)]
  · rw [inbox_wrW_DR, hi]

theorem sendLoop_total (env : Env) (hf : Fair env) (cs : List Int) :
    ∀ w : World, ∃ w1, Runs (fun n => sendLoop env n cs) w () w1 ∧
      w1.tx = w.tx ++ (cs.takeWhile (fun c => c != 0)).map toU8 ∧ inbox w1 = inbox w := by
  induction cs with
  | nil =>
    intro w
    exact ⟨w, ⟨0, fun n _ => rfl⟩, by simp, rfl⟩
  | cons c rest ih =>
    intro w
    by_cases hc : c = 0
    · subst hc
      exact ⟨w, ⟨0, fun n _ => by simp [sendLoop]⟩, by simp, rfl⟩
    · obtain ⟨w1, hr1, ht1, hi1⟩ := SendChar_total env hf c w
      obtain ⟨w2, hr2, ht2, hi2⟩ := ih w1
      refine ⟨w2, ?_, ?_, ?_⟩
      · have := runs_seq (f := fun n _ => sendLoop env n rest) hr1 hr2
        obtain ⟨N, hN⟩ := this
        refine ⟨N, fun n hn => ?_⟩
        have hcb : (c != 0) = true := by simpa using hc
        simp only [sendLoop, hcb, if_true]
        exact hN n hn
      · have hcb : (c != 0) = true := by simpa using hc
        rw [ht2, ht1, List.takeWhile_cons, hcb]
        simp
      · rw [hi2, hi1]


theorem takeWhile_prefix (pre post : List Int) (h : ∀ c ∈ pre, c ≠ 0) :
    (pre ++ 0 :: post).takeWhile (fun c => c != 0) = pre := by
  induction pre with
  | nil => simp
  | cons c rest ih =>
    have hc : (c != 0) = true := by simpa using h c (List.mem_cons_self _ _)
    rw [List.cons_append, List.takeWhile_cons, hc]
    simp only [if_true]
    rw [ih (fun x hx => h x (List.mem_cons_of_mem _ hx))]

/-- C8: under a fair environment `UART2_SendString` returns after writing to
the data register, in order, exactly the characters of its argument in front
of the first zero (the zero is not written): for an array `pre ++ 0 :: post`
with no zero in `pre` these are the bytes of `pre`. For the null pointer it
returns at once for every fuel, with the world unchanged: no byte is written,
no register is read, the trace and the access count are as before. -/
theorem UART2_SendString_sends (env : Env) (hf : Fair env) (w : World) (cs : List Int) :
    (∃ w1, Runs (fun n => UART2_SendString env n (some cs)) w () w1 ∧
      w1.tx = w.tx ++ (cs.takeWhile (fun c => c != 0)).map toU8) ∧
    (∀ pre post, cs = pre ++ 0 :: post → (∀ c ∈ pre, c ≠ 0) →
      ∃ w1, Runs (fun n => UART2_SendString env n (some cs)) w () w1 ∧
        w1.tx = w.tx ++ pre.map toU8) ∧
    (∀ n, UART2_SendString env n none w = .done () w) := by
  obtain ⟨w1, hr, ht, _⟩ := sendLoop_total env hf cs w
  refine ⟨⟨w1, hr, ht⟩, ?_, fun n => rfl⟩
  intro pre post hcs hpre
  refine ⟨w1, hr, ?_⟩
  rw [ht, hcs, takeWhile_prefix pre post hpre]

/-- Witness of C8: the word "ok" followed by its terminator and stale bytes,
on a device after reset with slow hardware. -/
theorem UART2_SendString_sends_witness :
    Fair envSlow ∧
    (∃ w1, Runs (fun n => UART2_SendString envSlow n (some [111, 107, 0, 33])) (coldStart []) () w1 ∧
      w1.tx = (coldStart []).tx ++
        (([111, 107, 0, 33] : List Int).takeWhile (fun c => c != 0)).map toU8) ∧
    (∀ pre post, ([111, 107, 0, 33] : List Int) = pre ++ 0 :: post → (∀ c ∈ pre, c ≠ 0) →
      ∃ w1, Runs (fun n => UART2_SendString envSlow n (some [111, 107, 0, 33])) (coldStart []) () w1 ∧
        w1.tx = (coldStart []).tx ++ pre.map toU8) ∧
    (∀ n, UART2_SendString envSlow n none (coldStart []) = .done () (coldStart [])) :=
  ⟨fair_envSlow, UART2_SendString_sends envSlow fair_envSlow (coldStart []) [111, 107, 0, 33]⟩

/-! ## Receiving -/

theorem IsRxReady_apply (env : Env) (w : World) :
    UART2_IsRxReady env w =
      .done (if rdV env .USART2_SR w &&& USART_SR_RXNE != 0 then 1 else 0)
        (rdW env .USART2_SR w) := rfl

theorem ReadChar_total (env : Env) (hf : Fair env) (w : World) (b : Nat) (q : List Nat)
    (hin : inbox w = b :: q) :
    ∃ w1, Runs (UART2_ReadChar env) w (toChar env.charSigned (b &&& 0xFF)) w1 ∧
      inbox w1 = q ∧ w1.tx = w.tx := by
  obtain ⟨w1, ⟨N, hN⟩, hi, ht, h5⟩ := spin_total env .USART2_SR
    (fun v => v &&& USART_SR_RXNE == 0) env.rxne
    (fun x => inbox x = inbox w ∧ x.tx = w.tx)
    (fun x => inbox x = inbox w ∧ x.tx = w.tx ∧ (x.regs .USART2_SR).testBit 5 = true)
    hf.2.2.2.2
    (by
      intro x hx hc
      refine ⟨⟨by rw [inbox_rdW env _ x (by decide)]; exact hx.1, by rw [rdW_tx]; exact hx.2⟩, ?_⟩
      by_contra hne
      have hfire : env.rxne x.clock = true := by simpa using hne
      simp only [USART_SR_RXNE, beq_iff_eq, and_32_eq] at hc
      have hb : (rdV env .USART2_SR x).testBit 5 =
          ((x.regs .USART2_SR).testBit 5 || delivers env x) := by
        simp [rdV, hwTick_SR]
      rw [hb] at hc
      have h5 : (x.regs .USART2_SR).testBit 5 = false := by
        cases h : (x.regs .USART2_SR).testBit 5
        · rfl
        · rw [h] at hc; simp at hc
      have hd : delivers env x = false := by
        cases h : delivers env x
        · rfl
        · rw [h] at hc; simp at hc
      have hrx : x.rx ≠ [] := by
        have := hx.1
        rw [inbox_eq, h5, hin] at this
        simp only [Bool.false_eq_true, if_false] at this
        rw [this]; simp
      have := (delivers_iff env x).2 ⟨hfire, h5, hrx⟩
      rw [hd] at this
      exact absurd this (by simp))
    (by
      intro x hx hc
      refine ⟨by rw [inbox_rdW env _ x (by decide)]; exact hx.1, by rw [rdW_tx]; exact hx.2, ?_⟩
      simp only [USART_SR_RXNE, beq_eq_false_iff_ne, ne_eq, and_32_eq] at hc
      rw [rdW_regs_SR env _ x (by decide)]
      cases h : ((hwTick env x).regs .USART2_SR).testBit 5
      · exact absurd h hc
      · rfl)
    w ⟨rfl, rfl⟩
  have hcons := inbox_rdW_DR env w1 h5
  rw [hi, hin] at hcons
  injection hcons with hv hq
  refine ⟨rdW env .USART2_DR w1, ⟨N, fun n hn => ?_⟩, hq, ?_⟩
  · simp only [UART2_ReadChar, bind_apply, hN n hn, rd_apply, pure_apply, hv]
  · rw [rdW_tx, ht]

theorem echo_byte (s : Bool) (b : Nat) : toU8 (toChar s (b &&& 0xFF)) = b % 256 := by
  have e : b &&& 0xFF = b % 256 := by
    have := Nat.and_pow_two_sub_one_eq_mod b 8
    simpa using this
  rw [e]
  have hlt : b % 256 < 256 := Nat.mod_lt _ (by norm_num)
  unfold toU8 toChar
  split_ifs with h
  · simp only [Bool.and_eq_true, decide_eq_true_eq] at h
    omega
  · omega


/-! ## The echo loop -/

theorem echoLoop_succ_idle (env : Env) (fuel n : Nat) (w : World)
    (h : (rdV env .USART2_SR w).testBit 5 = false) :
    echoLoop env fuel (n + 1) w = echoLoop env fuel n (rdW env .USART2_SR w) := by
  have h0 : rdV env .USART2_SR w &&& USART_SR_RXNE = 0 := by
    rw [USART_SR_RXNE, and_32_eq]; exact h
  simp only [echoLoop, bind_apply, IsRxReady_apply, h0]
  rfl

theorem echoLoop_succ_ready (env : Env) (fuel n : Nat) (w wR wS : World) (c : Int)
    (h : (rdV env .USART2_SR w).testBit 5 = true)
    (hR : UART2_ReadChar env fuel (rdW env .USART2_SR w) = .done c wR)
    (hS : UART2_SendChar env fuel c wR = .done () wS) :
    echoLoop env fuel (n + 1) w = echoLoop env fuel n wS := by
  have h0 : (rdV env .USART2_SR w &&& USART_SR_RXNE != 0) = true := by
    rw [bne_iff_ne]; exact (rxne_iff _).2 h
  simp only [echoLoop, bind_apply, IsRxReady_apply, h0, if_true]
  simp [hR, hS]

theorem echoLoop_idle (env : Env) (fuel : Nat) :
    ∀ (n : Nat) (w : World), inbox w = [] →
      ∃ w1, echoLoop env fuel n w = .timeout w1 ∧ w1.tx = w.tx := by
  intro n
  induction n with
  | zero => intro w _; exact ⟨w, rfl, rfl⟩
  | succ n ih =>
    intro w hw
    have hw1 : inbox (rdW env .USART2_SR w) = [] := by
      rw [inbox_rdW env _ w (by decide)]; exact hw
    have h5 : (rdV env .USART2_SR w).testBit 5 = false := by
      have := hw1
      rw [inbox_eq] at this
      cases hb : ((rdW env .USART2_SR w).regs .USART2_SR).testBit 5
      · rw [rdW_regs_SR env _ w (by decide)] at hb; exact hb
      · rw [hb] at this; simp at this
    obtain ⟨w1, h1, ht⟩ := ih (rdW env .USART2_SR w) hw1
    exact ⟨w1, by rw [echoLoop_succ_idle env fuel n w h5]; exact h1, by rw [ht, rdW_tx]⟩

theorem echoLoop_head (env : Env) (hf : Fair env) (b : Nat) (q : List Nat)
    (ihq : ∀ w : World, inbox w = q → ∃ N, ∀ fuel n, N ≤ fuel → N ≤ n →
      ∃ w1, echoLoop env fuel n w = .timeout w1 ∧ w1.tx = w.tx ++ q.map (fun x => x % 256)) :
    ∀ (d : Nat) (w : World), inbox w = b :: q → env.rxne (w.clock + d) = true →
      ∃ N, ∀ fuel n, N ≤ fuel → N ≤ n →
        ∃ w1, echoLoop env fuel n w = .timeout w1 ∧
          w1.tx = w.tx ++ (b :: q).map (fun x => x % 256) := by
  have ready : ∀ w : World, inbox w = b :: q → (rdV env .USART2_SR w).testBit 5 = true →
      ∃ N, ∀ fuel n, N ≤ fuel → N ≤ n →
        ∃ w1, echoLoop env fuel n w = .timeout w1 ∧
          w1.tx = w.tx ++ (b :: q).map (fun x => x % 256) := by
    intro w hw h5
    have hw1 : inbox (rdW env .USART2_SR w) = b :: q := by
      rw [inbox_rdW env _ w (by decide)]; exact hw
    obtain ⟨wR, ⟨NR, hNR⟩, hiR, htR⟩ := ReadChar_total env hf (rdW env .USART2_SR w) b q hw1
    obtain ⟨wS, ⟨NS, hNS⟩, htS, hiS⟩ :=
      SendChar_total env hf (toChar env.charSigned (b &&& 0xFF)) wR
    obtain ⟨N', hN'⟩ := ihq wS (by rw [hiS, hiR])
    refine ⟨max (max NR NS) N' + 1, fun fuel n hfuel hn => ?_⟩
    obtain ⟨m, rfl⟩ : ∃ m, n = m + 1 := ⟨n - 1, by omega⟩
    have hfR : NR ≤ fuel := by
      have := le_max_left NR NS; have := le_max_left (max NR NS) N'; omega
    have hfS : NS ≤ fuel := by
      have := le_max_right NR NS; have := le_max_left (max NR NS) N'; omega
    have hfN : N' ≤ fuel := by have := le_max_right (max NR NS) N'; omega
    have hmN : N' ≤ m := by have := le_max_right (max NR NS) N'; omega
    obtain ⟨w1, h1, ht1⟩ := hN' fuel m hfN hmN
    refine ⟨w1, ?_, ?_⟩
    · rw [echoLoop_succ_ready env fuel m w wR wS _ h5 (hNR fuel hfR) (hNS fuel hfS)]
      exact h1
    · rw [ht1, htS, htR, rdW_tx, echo_byte]
      simp
  intro d
  induction d with
  | zero =>
    intro w hw ho
    cases h5 : (rdV env .USART2_SR w).testBit 5
    · -- the schedule fired, so the flag must be set after the hardware step
      exfalso
      have hb : (rdV env .USART2_SR w).testBit 5 =
          ((w.regs .USART2_SR).testBit 5 || delivers env w) := by
        simp [rdV, hwTick_SR]
      rw [hb] at h5
      have h5' : (w.regs .USART2_SR).testBit 5 = false := by
        cases h : (w.regs .USART2_SR).testBit 5
        · rfl
        · rw [h] at h5; simp at h5
      have hd : delivers env w = false := by
        cases h : delivers env w
        · rfl
        · rw [h] at h5; simp at h5
      have hrx : w.rx ≠ [] := by
        have := hw
        rw [inbox_eq, h5'] at this
        simp only [Bool.false_eq_true, if_false] at this
        rw [this]; simp
      have := (delivers_iff env w).2 ⟨by simpa using ho, h5', hrx⟩
      rw [hd] at this
      exact absurd this (by simp)
    · exact ready w hw h5
  | succ d ih =>
    intro w hw ho
    cases h5 : (rdV env .USART2_SR w).testBit 5
    · have hw1 : inbox (rdW env .USART2_SR w) = b :: q := by
        rw [inbox_rdW env _ w (by decide)]; exact hw
      have ho1 : env.rxne ((rdW env .USART2_SR w).clock + d) = true := by
        rw [rdW_clock]
        have : w.clock + 1 + d = w.clock + (d + 1) := by omega
        rw [this]; exact ho
      obtain ⟨N, hN⟩ := ih (rdW env .USART2_SR w) hw1 ho1
      refine ⟨N + 1, fun fuel n hfuel hn => ?_⟩
      obtain ⟨m, rfl⟩ : ∃ m, n = m + 1 := ⟨n - 1, by omega⟩
      obtain ⟨w1, h1, ht1⟩ := hN fuel m (by omega) (by omega)
      refine ⟨w1, ?_, ?_⟩
      · rw [echoLoop_succ_idle env fuel m w h5]; exact h1
      · rw [ht1, rdW_tx]
    · exact ready w hw h5

theorem echoLoop_total (env : Env) (hf : Fair env) :
    ∀ (q : List Nat) (w : World), inbox w = q → ∃ N, ∀ fuel n, N ≤ fuel → N ≤ n →
      ∃ w1, echoLoop env fuel n w = .timeout w1 ∧ w1.tx = w.tx ++ q.map (fun x => x % 256) := by
  intro q
  induction q with
  | nil =>
    intro w hw
    refine ⟨0, fun fuel n _ _ => ?_⟩
    obtain ⟨w1, h1, ht⟩ := echoLoop_idle env fuel n w hw
    exact ⟨w1, h1, by simp [ht]⟩
  | cons b q ih =>
    intro w hw
    obtain ⟨d, hd⟩ := hf.2.2.2.2 w.clock
    exact echoLoop_head env hf b q ih d w hw hd

theorem banner1_bytes :
    ((cstr banner1).takeWhile (fun c => c != 0)).map toU8 = bytesOf banner1 := by decide

theorem banner2_bytes :
    ((cstr banner2).takeWhile (fun c => c != 0)).map toU8 = bytesOf banner2 := by decide

theorem Init_total (env : Env) (b : Nat) (w : World) :
    ∃ w1, UART2_Init env b w = .done () w1 ∧ w1.tx = w.tx ∧
      (w1.regs .USART2_SR).testBit 5 = false := by
  refine ⟨_, rfl, ?_, ?_⟩
  · simp [wrW_tx]
  · exact rdW_DR_rxne env _

theorem boot_total (env : Env) (hf : Fair env) (w : World) :
    ∃ wb, Runs (boot env) w () wb ∧ wb.tx = w.tx ∧ inbox wb = wb.rx := by
  obtain ⟨w1, hr1, hp1⟩ := BSP_total env hf w
  obtain ⟨wb, hb, htx, h5⟩ := Init_total env 115200 w1
  refine ⟨wb, ?_, by rw [htx, hp1.tx], ?_⟩
  · exact runs_seq (f := fun _ _ => UART2_Init env 115200) hr1 ⟨0, fun _ _ => hb⟩
  · rw [inbox_eq, h5]; simp

theorem main_split (env : Env) (fuel : Nat) :
    main env fuel = (boot env fuel >>= fun _ => serve env fuel) := by
  unfold main boot serve
  simp only [M_bind_assoc]

theorem serve_total (env : Env) (hf : Fair env) (w : World) :
    ∃ N, ∀ n, N ≤ n → ∃ w1, serve env n w = .timeout w1 ∧
      w1.tx = w.tx ++ bytesOf banner1 ++ bytesOf banner2 ++ (inbox w).map (fun x => x % 256) := by
  obtain ⟨w1, ⟨N1, hN1⟩, ht1, hi1⟩ := sendLoop_total env hf (cstr banner1) w
  obtain ⟨w2, ⟨N2, hN2⟩, ht2, hi2⟩ := sendLoop_total env hf (cstr banner2) w1
  obtain ⟨N3, hN3⟩ := echoLoop_total env hf (inbox w) w2 (by rw [hi2, hi1])
  refine ⟨max (max N1 N2) N3, fun n hn => ?_⟩
  have h1 : N1 ≤ n := by have := le_max_left N1 N2; have := le_max_left (max N1 N2) N3; omega
  have h2 : N2 ≤ n := by have := le_max_right N1 N2; have := le_max_left (max N1 N2) N3; omega
  have h3 : N3 ≤ n := by have := le_max_right (max N1 N2) N3; omega
  obtain ⟨w3, he, ht3⟩ := hN3 n n h3 h3
  refine ⟨w3, ?_, ?_⟩
  · simp only [serve, UART2_SendString, bind_apply, hN1 n h1, hN2 n h2]
    exact he
  · rw [ht3, ht2, ht1, banner1_bytes, banner2_bytes]

theorem main_total (env : Env) (hf : Fair env) (w : World) :
    ∃ wb, Runs (boot env) w () wb ∧ ∃ N, ∀ n, N ≤ n →
      (main env n w).world.tx =
        w.tx ++ bytesOf banner1 ++ bytesOf banner2 ++ wb.rx.map (fun x => x % 256) := by
  obtain ⟨wb, ⟨Nb, hNb⟩, htb, hib⟩ := boot_total env hf w
  obtain ⟨Ns, hNs⟩ := serve_total env hf wb
  refine ⟨wb, ⟨Nb, hNb⟩, max Nb Ns, fun n hn => ?_⟩
  obtain ⟨w1, h1, ht1⟩ := hNs n (le_of_max_le_right hn)
  rw [main_split]
  simp only [bind_apply, hNb n (le_of_max_le_left hn), h1, Res.world]
  rw [ht1, htb, hib]

theorem map_mod_bytes (l : List Nat) (h : ∀ b ∈ l, b < 256) : l.map (fun x => x % 256) = l := by
  induction l with
  | nil => rfl
  | cons b q ih =>
    rw [List.map_cons, Nat.mod_eq_of_lt (h b (List.mem_cons_self _ _)),
      ih (fun x hx => h x (List.mem_cons_of_mem _ hx))]

theorem boot_warm (k : Nat) :
    boot envNow (k + 1) (warmStart [0x48]) = .done () (boot envNow 1 (warmStart [0x48])).world := by
  rfl

set_option maxRecDepth 100000 in
theorem boot_warm_rx : (boot envNow 1 (warmStart [0x48])).world.rx = [] := rfl

theorem boot_warm_runs :
    Runs (boot envNow) (warmStart [0x48]) () (boot envNow 1 (warmStart [0x48])).world := by
  refine ⟨1, fun n hn => ?_⟩
  obtain ⟨k, rfl⟩ : ∃ k, n = k + 1 := ⟨n - 1, by omega⟩
  exact boot_warm k

theorem boot_cold (k : Nat) :
    boot envSlow (k + 3) (coldStart [0x48, 0x69]) =
      .done () (boot envSlow 3 (coldStart [0x48, 0x69])).world := by
  rfl

set_option maxRecDepth 100000 in
theorem boot_cold_rx : (boot envSlow 3 (coldStart [0x48, 0x69])).world.rx = [0x48, 0x69] := rfl

theorem boot_cold_runs :
    Runs (boot envSlow) (coldStart [0x48, 0x69]) ()
      (boot envSlow 3 (coldStart [0x48, 0x69])).world := by
  refine ⟨3, fun n hn => ?_⟩
  obtain ⟨k, rfl⟩ : ∃ k, n = k + 3 := ⟨n - 3, by omega⟩
  exact boot_cold k

/-- C2 (amended): under a fair environment, for every initial world, the two
initialisation calls of `main` return, and from some fuel on the bytes `main`
has written to the data register are exactly the bytes of the first banner
line, then those of the second, then the bytes that were still on the
receive line when `UART2_Init` returned, in the order received, each reduced
to its low eight bits, that is unaltered when they are bytes, whatever the
signedness of `char`. -/
theorem main_echoes_after_init (env : Env) (hf : Fair env) (w : World) :
    ∃ wb, Runs (boot env) w () wb ∧
      (∃ N, ∀ n, N ≤ n → (main env n w).world.tx =
        w.tx ++ bytesOf banner1 ++ bytesOf banner2 ++ wb.rx.map (fun x => x % 256)) ∧
      ((∀ b ∈ wb.rx, b < 256) → ∃ N, ∀ n, N ≤ n → (main env n w).world.tx =
        w.tx ++ bytesOf banner1 ++ bytesOf banner2 ++ wb.rx) := by
  obtain ⟨wb, hb, N, hN⟩ := main_total env hf w
  refine ⟨wb, hb, ⟨N, hN⟩, fun hbytes => ⟨N, fun n hn => ?_⟩⟩
  rw [hN n hn, map_mod_bytes wb.rx hbytes]

/-- Witness of C2 (amended): a device after reset, slow hardware, signed
`char`, and four bytes on the line of which two are above `0x7F`. -/
theorem main_echoes_after_init_witness :
    Fair envSlow ∧
    ∃ wb, Runs (boot envSlow) (coldStart [0x48, 0x69, 0xC3, 0xA9]) () wb ∧
      (∃ N, ∀ n, N ≤ n → (main envSlow n (coldStart [0x48, 0x69, 0xC3, 0xA9])).world.tx =
        (coldStart [0x48, 0x69, 0xC3, 0xA9]).tx ++ bytesOf banner1 ++ bytesOf banner2 ++
          wb.rx.map (fun x => x % 256)) ∧
      ((∀ b ∈ wb.rx, b < 256) → ∃ N, ∀ n, N ≤ n →
        (main envSlow n (coldStart [0x48, 0x69, 0xC3, 0xA9])).world.tx =
          (coldStart [0x48, 0x69, 0xC3, 0xA9]).tx ++ bytesOf banner1 ++ bytesOf banner2 ++ wb.rx) :=
  ⟨fair_envSlow, main_echoes_after_init envSlow fair_envSlow (coldStart [0x48, 0x69, 0xC3, 0xA9])⟩

/-- Counterexample to C2 as stated: on a device that is already up, receiver
enabled, with hardware that delivers at once, the byte `0x48` on the line is
presented (receive-available set, the byte in the data register) at the first
access, before `UART2_Init` makes its closing read of the data register, which
discards it; `main` then writes the two banner lines and nothing else, not
the banner lines followed by `0x48`. -/
theorem main_echo_counterexample :
    Fair envNow ∧ (∀ b ∈ (warmStart [0x48]).rx, b < 256) ∧
    ((warmStart [0x48]).regs .USART2_CR1 &&& USART_CR1_UE ≠ 0 ∧
      (warmStart [0x48]).regs .USART2_CR1 &&& USART_CR1_RE ≠ 0 ∧
      (hwTick envNow (warmStart [0x48])).regs .USART2_SR &&& USART_SR_RXNE ≠ 0 ∧
      (hwTick envNow (warmStart [0x48])).regs .USART2_DR = 0x48) ∧
    (∃ N, ∀ n, N ≤ n → (main envNow n (warmStart [0x48])).world.tx =
      bytesOf banner1 ++ bytesOf banner2) ∧
    ¬ ∃ N, ∀ n, N ≤ n → (main envNow n (warmStart [0x48])).world.tx =
      bytesOf banner1 ++ bytesOf banner2 ++ (warmStart [0x48]).rx := by
  obtain ⟨wb, hb, N, hN⟩ := main_total envNow fair_envNow (warmStart [0x48])
  have hwb := (runs_unique hb boot_warm_runs).2
  have hrx : wb.rx = [] := by rw [hwb]; exact boot_warm_rx
  have hN' : ∀ n, N ≤ n → (main envNow n (warmStart [0x48])).world.tx =
      bytesOf banner1 ++ bytesOf banner2 := by
    intro n hn
    rw [hN n hn, hrx]
    simp [warmStart]
  refine ⟨fair_envNow, ?_, ⟨by decide, by decide, by decide, by decide⟩, ⟨N, hN'⟩, ?_⟩
  · intro b hb
    simp [warmStart] at hb
    omega
  · rintro ⟨N2, hN2⟩
    have h1 := hN' (max N N2) (le_max_left _ _)
    have h2 := hN2 (max N N2) (le_max_right _ _)
    rw [h1] at h2
    simp [warmStart] at h2

/-- C10 (amended): under a fair environment, when the bytes still on the
receive line at the return of `UART2_Init` are those of "Hi", from some fuel
on the bytes `main` has written to the data register are the two banner
lines followed by exactly `0x48` ('H') then `0x69` ('i'), in the order
received. -/
theorem main_echoes_Hi (env : Env) (hf : Fair env) (w wb : World)
    (hb : Runs (boot env) w () wb) (hrx : wb.rx = [0x48, 0x69]) :
    ∃ N, ∀ n, N ≤ n → (main env n w).world.tx =
      w.tx ++ bytesOf banner1 ++ bytesOf banner2 ++ [0x48, 0x69] := by
  obtain ⟨wb', hb', N, hN⟩ := main_total env hf w
  have hwb := (runs_unique hb' hb).2
  refine ⟨N, fun n hn => ?_⟩
  rw [hN n hn, hwb, hrx]
  rfl

/-- Witness of C10 (amended): a device after reset whose receive line holds
"Hi" and stays silent until the initialisation is over. -/
theorem main_echoes_Hi_witness :
    (Fair envSlow ∧
      Runs (boot envSlow) (coldStart [0x48, 0x69]) ()
        (boot envSlow 3 (coldStart [0x48, 0x69])).world ∧
      (boot envSlow 3 (coldStart [0x48, 0x69])).world.rx = [0x48, 0x69]) ∧
    ∃ N, ∀ n, N ≤ n → (main envSlow n (coldStart [0x48, 0x69])).world.tx =
      (coldStart [0x48, 0x69]).tx ++ bytesOf banner1 ++ bytesOf banner2 ++ [0x48, 0x69] :=
  ⟨⟨fair_envSlow, boot_cold_runs, boot_cold_rx⟩,
    main_echoes_Hi envSlow fair_envSlow (coldStart [0x48, 0x69]) _ boot_cold_runs boot_cold_rx⟩

/-- Counterexample to C10 as stated: with "Hi" presented after the
initialisation, `main` writes the banner lines followed by `0x48`, `0x69`
('H', 'i'); the sequence never settles on the banner lines followed by `0x48`,
`0x49` ('H', 'I'). -/
theorem main_echo_Hi_counterexample :
    (∃ N, ∀ n, N ≤ n → (main envSlow n (coldStart [0x48, 0x69])).world.tx =
      bytesOf banner1 ++ bytesOf banner2 ++ [0x48, 0x69]) ∧
    ¬ ∃ N, ∀ n, N ≤ n → (main envSlow n (coldStart [0x48, 0x69])).world.tx =
      bytesOf banner1 ++ bytesOf banner2 ++ [0x48, 0x49] := by
  obtain ⟨wb, hb, N, hN⟩ := main_total envSlow fair_envSlow (coldStart [0x48, 0x69])
  have hwb := (runs_unique hb boot_cold_runs).2
  have hrx : wb.rx = [0x48, 0x69] := by rw [hwb]; exact boot_cold_rx
  have hN' : ∀ n, N ≤ n → (main envSlow n (coldStart [0x48, 0x69])).world.tx =
      bytesOf banner1 ++ bytesOf banner2 ++ [0x48, 0x69] := by
    intro n hn
    rw [hN n hn, hrx]
    simp [coldStart]
  refine ⟨⟨N, hN'⟩, ?_⟩
  rintro ⟨N2, hN2⟩
  have h1 := hN' (max N N2) (le_max_left _ _)
  have h2 := hN2 (max N N2) (le_max_right _ _)
  rw [h1] at h2
  simp at h2

theorem ReadChar_succ (env : Env) (f : Nat) (w : World) :
    UART2_ReadChar env (f + 1) w =
      if (rdV env .USART2_SR w).testBit 5 = true then
        .done (toChar env.charSigned (rdV env .USART2_DR (rdW env .USART2_SR w) &&& 0xFF))
          (rdW env .USART2_DR (rdW env .USART2_SR w))
      else UART2_ReadChar env f (rdW env .USART2_SR w) := by
  simp only [UART2_ReadChar, bind_apply, spinWhile_succ]
  by_cases h : (rdV env .USART2_SR w).testBit 5 = true
  · have h0 : (rdV env .USART2_SR w &&& USART_SR_RXNE == 0) = false := by
      rw [beq_eq_false_iff_ne]; exact (rxne_iff _).2 h
    rw [if_pos h]
    simp [h0]
  · have h' : (rdV env .USART2_SR w).testBit 5 = false := by simpa using h
    have h0 : (rdV env .USART2_SR w &&& USART_SR_RXNE == 0) = true := by
      rw [beq_iff_eq, USART_SR_RXNE, and_32_eq]; exact h'
    rw [if_neg h]
    simp [h0]

theorem ReadChar_zero (env : Env) (w : World) : UART2_ReadChar env 0 w = .timeout w := rfl

theorem rdV_DR_stable (env : Env) (w : World) (h : (w.regs .USART2_SR).testBit 5 = true) :
    rdV env .USART2_DR w = w.regs .USART2_DR := by
  have hnd : delivers env w = false := by
    cases hd : delivers env w
    · rfl
    · have := ((delivers_iff env w).1 hd).2.1
      rw [h] at this
      exact absurd this (by simp)
  simp [rdV, hwTick_DR, hnd]

theorem rdV_SR_stays (env : Env) (w : World) (h : (w.regs .USART2_SR).testBit 5 = true) :
    (rdV env .USART2_SR w).testBit 5 = true := by
  simp [rdV, hwTick_SR, h]

/-- One more poll of the status register in front of `UART2_ReadChar` does not
change the character it returns. -/
theorem ReadChar_after_poll (env : Env) (w : World) (c : Int) :
    (∃ f w1, UART2_ReadChar env f (rdW env .USART2_SR w) = .done c w1) ↔
      (∃ f w1, UART2_ReadChar env f w = .done c w1) := by
  by_cases h5 : (rdV env .USART2_SR w).testBit 5 = true
  · -- a byte is available at the first poll: both runs return it
    have hs : ((rdW env .USART2_SR w).regs .USART2_SR).testBit 5 = true := by
      rw [rdW_regs_SR env _ w (by decide)]; exact h5
    have hs2 := rdV_SR_stays env _ hs
    have hs3 : ((rdW env .USART2_SR (rdW env .USART2_SR w)).regs .USART2_SR).testBit 5 = true := by
      rw [rdW_regs_SR env _ _ (by decide)]; exact hs2
    have hv : rdV env .USART2_DR (rdW env .USART2_SR (rdW env .USART2_SR w)) =
        rdV env .USART2_DR (rdW env .USART2_SR w) := by
      rw [rdV_DR_stable env _ hs3, rdV_DR_stable env _ hs, rdW_regs_DR, ← rdV,
        rdV_DR_stable env _ hs]
    constructor
    · rintro ⟨f, w1, hf⟩
      cases f with
      | zero => rw [ReadChar_zero] at hf; exact absurd hf (by simp)
      | succ f =>
        rw [ReadChar_succ, if_pos hs2, hv] at hf
        injection hf with hc _
        exact ⟨1, _, by rw [ReadChar_succ, if_pos h5, hc]⟩
    · rintro ⟨f, w1, hf⟩
      cases f with
      | zero => rw [ReadChar_zero] at hf; exact absurd hf (by simp)
      | succ f =>
        rw [ReadChar_succ, if_pos h5] at hf
        injection hf with hc _
        exact ⟨1, _, by rw [ReadChar_succ, if_pos hs2, hv, hc]⟩
  · -- no byte yet: the first poll of `UART2_ReadChar` is the extra poll
    constructor
    · rintro ⟨f, w1, hf⟩
      exact ⟨f + 1, w1, by rw [ReadChar_succ, if_neg h5]; exact hf⟩
    · rintro ⟨f, w1, hf⟩
      cases f with
      | zero => rw [ReadChar_zero] at hf; exact absurd hf (by simp)
      | succ f =>
        rw [ReadChar_succ, if_neg h5] at hf
        exact ⟨f, w1, hf⟩

theorem pollRx_succ (env : Env) (n : Nat) (w : World) {α : Type} (k : M α) :
    (pollRx env (n + 1) >>= fun _ => k) w = (pollRx env n >>= fun _ => k) (rdW env .USART2_SR w) := by
  simp only [pollRx, bind_apply, IsRxReady_apply]

/-- C7: `UART2_IsRxReady` is a pure observation. It always returns, with `1`
if the receive-available flag is set in the status word it reads and `0`
otherwise; its only access is one read of `USART2->SR` (no write, no read of
the data register); the register file, the receive line and the transmitted
bytes after the call are those the hardware step alone produces; and for
every `n`, `UART2_ReadChar` returns the character `c` after `n` calls of
`UART2_IsRxReady` exactly when it returns `c` without them. -/
theorem UART2_IsRxReady_pure (env : Env) (w : World) :
    UART2_IsRxReady env w =
      .done (if rdV env .USART2_SR w &&& USART_SR_RXNE ≠ 0 then 1 else 0)
        (rdW env .USART2_SR w) ∧
    (∃ v p, (rdW env .USART2_SR w).log = w.log ++ [⟨.read .USART2_SR v, p⟩]) ∧
    (rdW env .USART2_SR w).regs = (hwTick env w).regs ∧
    (rdW env .USART2_SR w).rx = (hwTick env w).rx ∧
    (rdW env .USART2_SR w).tx = w.tx ∧
    inbox (rdW env .USART2_SR w) = inbox w ∧
    (∀ (n : Nat) (c : Int),
      (∃ f w1, (pollRx env n >>= fun _ => UART2_ReadChar env f) w = .done c w1) ↔
        (∃ f w1, UART2_ReadChar env f w = .done c w1)) := by
  refine ⟨?_, ⟨_, _, rdW_log env _ w⟩, ?_, rdW_rx env _ w, rdW_tx env _ w,
    inbox_rdW env _ w (by decide), ?_⟩
  · rw [IsRxReady_apply]
    by_cases h : rdV env .USART2_SR w &&& USART_SR_RXNE = 0 <;> simp [h]
  · simp [rdW]
  · intro n
    induction n generalizing w with
    | zero => intro c; rfl
    | succ n ih =>
      intro c
      have e : ∀ f, (pollRx env (n + 1) >>= fun _ => UART2_ReadChar env f) w =
          (pollRx env n >>= fun _ => UART2_ReadChar env f) (rdW env .USART2_SR w) :=
        fun f => pollRx_succ env n w _
      simp only [e]
      rw [ih (rdW env .USART2_SR w) c]
      exact ReadChar_after_poll env w c

theorem pllObserveAll_append (s : PllPhase) (l1 l2 : List Event) :
    pllObserveAll s (l1 ++ l2) =
      match pllObserveAll s l1 with
      | some s1 => pllObserveAll s1 l2
      | none => none := by
  induction l1 generalizing s with
  | nil => rfl
  | cons e rest ih =>
    simp only [List.cons_append, pllObserveAll]
    cases pllObserve s e with
    | none => rfl
    | some s1 => exact ih s1

theorem pllObserveAll_snoc (s0 s s1 : PllPhase) (l : List Event) (e : Event)
    (h : pllObserveAll s0 l = some s) (he : pllObserve s e = some s1) :
    pllObserveAll s0 (l ++ [e]) = some s1 := by
  rw [pllObserveAll_append, h]
  simp [pllObserveAll, he]

theorem tickCR_bit24 (env : Env) (t c : Nat) : (tickCR env t c).testBit 24 = c.testBit 24 :=
  (crStep_tick env t c).keep 24 (by norm_num) (by norm_num)

theorem hwTick_pllon (env : Env) (w : World) :
    (hwTick env w).regs .RCC_CR &&& RCC_CR_PLLON = 0 ↔ (w.regs .RCC_CR).testBit 24 = false := by
  rw [hwTick_regs_CR, RCC_CR_PLLON, and_16777216_eq, tickCR_bit24]

theorem pllOnRead_on (s : PllPhase) (v : Nat) : (pllOnRead s v).on = s.on := by
  cases s <;> simp [pllOnRead, PllPhase.on]
  split_ifs <;> rfl

theorem pllOnRead_wrote (s : PllPhase) (v : Nat) : (pllOnRead s v).wrote = s.wrote := by
  cases s <;> simp [pllOnRead, PllPhase.wrote]
  split_ifs <;> rfl

theorem inv_rd (env : Env) (r : Reg) (s0 s : PllPhase) (w : World) (hr : r ≠ .RCC_CR)
    (h : PllInv s0 s w) : PllInv s0 s (rdW env r w) := by
  refine ⟨?_, ?_, ?_, ?_, ?_⟩
  · rw [rdW_log]
    apply pllObserveAll_snoc s0 s s _ _ h.obs
    cases r <;> first | exact absurd rfl hr | rfl
  · rw [rdW_regs_CR, tickCR_bit24]; exact h.bit
  · intro e he v hv
    rw [rdW_log, List.mem_append, List.mem_singleton] at he
    rcases he with he | he
    · exact h.safe e he v hv
    · subst he; simp at hv
  · rw [rdW_log, writesTo_append, h.writes]; simp
  · intro hw
    rw [rdW_regs_dead _ _ _ _ (by rfl)]; exact h.reg hw

theorem inv_rd_CR (env : Env) (s0 s : PllPhase) (w : World) (h : PllInv s0 s w) :
    PllInv s0 (pllOnRead s (rdV env .RCC_CR w)) (rdW env .RCC_CR w) := by
  refine ⟨?_, ?_, ?_, ?_, ?_⟩
  · rw [rdW_log]
    exact pllObserveAll_snoc s0 s _ _ _ h.obs rfl
  · rw [rdW_regs_CR, tickCR_bit24, pllOnRead_on]; exact h.bit
  · intro e he v hv
    rw [rdW_log, List.mem_append, List.mem_singleton] at he
    rcases he with he | he
    · exact h.safe e he v hv
    · subst he; simp at hv
  · rw [rdW_log, writesTo_append, h.writes, pllOnRead_wrote]; simp
  · intro hw
    rw [pllOnRead_wrote] at hw
    rw [rdW_regs_dead _ _ _ _ (by rfl)]; exact h.reg hw

theorem inv_wr (env : Env) (r : Reg) (v : Nat) (s0 s : PllPhase) (w : World)
    (hr : r ≠ .RCC_CR) (hr2 : r ≠ .RCC_PLLCFGR) (h : PllInv s0 s w) :
    PllInv s0 s (wrW env r v w) := by
  refine ⟨?_, ?_, ?_, ?_, ?_⟩
  · rw [wrW_log]
    apply pllObserveAll_snoc s0 s s _ _ h.obs
    cases r <;> first | exact absurd rfl hr | exact absurd rfl hr2 | rfl
  · rw [wrW_regs_CR, if_neg hr, tickCR_bit24]; exact h.bit
  · intro e he v1 hv
    rw [wrW_log, List.mem_append, List.mem_singleton] at he
    rcases he with he | he
    · exact h.safe e he v1 hv
    · subst he
      simp only [Access.write.injEq] at hv
      exact absurd hv.1 hr2
  · rw [wrW_log, writesTo_append, h.writes]; simp [hr2]
  · intro hw
    rw [wrW_regs_dead _ _ _ _ _ (by rfl), if_neg (fun e => hr2 e.symm)]; exact h.reg hw

theorem pllOnWrite_on (s s1 : PllPhase) (v : Nat) (h : pllOnWrite s v = some s1) :
    s1.on = v.testBit 24 := by
  unfold pllOnWrite at h
  by_cases hv : v &&& RCC_CR_PLLON = 0
  · have hb : v.testBit 24 = false := (and_16777216_eq v).1 hv
    rw [if_neg (by simpa using hv)] at h
    cases s <;> simp [pllOnClear] at h <;> subst h <;> simp [PllPhase.on, hb]
  · have hb : v.testBit 24 = true := by
      cases hb : v.testBit 24
      · exact absurd ((and_16777216_eq v).2 hb) hv
      · rfl
    rw [if_pos hv] at h
    cases s <;> simp [pllOnSet] at h <;> subst h <;> simp [PllPhase.on, hb]

theorem pllOnWrite_wrote (s s1 : PllPhase) (v : Nat) (h : pllOnWrite s v = some s1) :
    s1.wrote = s.wrote := by
  unfold pllOnWrite at h
  split_ifs at h <;> cases s <;> simp [pllOnSet, pllOnClear] at h <;> subst h <;> rfl

theorem inv_wr_CR (env : Env) (v : Nat) (s0 s s1 : PllPhase) (w : World)
    (h : PllInv s0 s w) (hs : pllOnWrite s (u32 v) = some s1) :
    PllInv s0 s1 (wrW env .RCC_CR v w) := by
  refine ⟨?_, ?_, ?_, ?_, ?_⟩
  · rw [wrW_log]
    exact pllObserveAll_snoc s0 s s1 _ _ h.obs hs
  · rw [wrW_regs_CR, if_pos rfl, pllOnWrite_on s s1 _ hs]
  · intro e he v1 hv
    rw [wrW_log, List.mem_append, List.mem_singleton] at he
    rcases he with he | he
    · exact h.safe e he v1 hv
    · subst he; simp at hv
  · rw [wrW_log, writesTo_append, h.writes, pllOnWrite_wrote s s1 _ hs]; simp
  · intro hw
    rw [pllOnWrite_wrote s s1 _ hs] at hw
    rw [wrW_regs_dead _ _ _ _ _ (by rfl), if_neg (by decide)]; exact h.reg hw

theorem inv_wr_factors (env : Env) (s0 s : PllPhase) (w : World) (h : PllInv s0 s w)
    (hs : s = .idle ∨ s = .stopped) :
    PllInv s0 .written (wrW env .RCC_PLLCFGR pllcfgrWord w) := by
  have hoff : (w.regs .RCC_CR).testBit 24 = false := by
    rw [h.bit]; rcases hs with rfl | rfl <;> rfl
  have hpre : (hwTick env w).regs .RCC_CR &&& RCC_CR_PLLON = 0 := (hwTick_pllon env w).2 hoff
  refine ⟨?_, ?_, ?_, ?_, ?_⟩
  · rw [wrW_log]
    apply pllObserveAll_snoc s0 s _ _ _ h.obs
    show pllOnFactors s (hwTick env w).regs = some .written
    unfold pllOnFactors
    rw [if_neg (by simpa using hpre)]
    rcases hs with rfl | rfl <;> rfl
  · rw [wrW_regs_CR, if_neg (by decide), tickCR_bit24, hoff]; rfl
  · intro e he v1 hv
    rw [wrW_log, List.mem_append, List.mem_singleton] at he
    rcases he with he | he
    · exact h.safe e he v1 hv
    · subst he; exact hpre
  · have hw : s.wrote = false := by rcases hs with rfl | rfl <;> rfl
    rw [wrW_log, writesTo_append, h.writes, hw]
    simp [PllPhase.wrote, u32]
    decide
  · intro _
    rw [wrW_regs_dead _ _ _ _ _ (by rfl), if_pos rfl]
    decide


/-! ## Outcomes of a run, with or without fuel left -/

theorem wp_bind {α β : Type} (m : M α) (f : α → M β) (Q : β → World → Prop)
    (T : World → Prop) (w : World) :
    wp (m >>= f) Q T w ↔ wp m (fun a w1 => wp (f a) Q T w1) T w := by
  unfold wp
  simp only [bind_apply]
  cases m w <;> rfl

theorem wp_pure {α : Type} (a : α) (Q : α → World → Prop) (T : World → Prop) (w : World) :
    wp (pure a) Q T w ↔ Q a w := Iff.rfl

theorem wp_rd (env : Env) (r : Reg) (Q : Nat → World → Prop) (T : World → Prop) (w : World) :
    wp (rd env r) Q T w ↔ Q (rdV env r w) (rdW env r w) := Iff.rfl

theorem wp_wr (env : Env) (r : Reg) (v : Nat) (Q : Unit → World → Prop) (T : World → Prop)
    (w : World) : wp (wr env r v) Q T w ↔ Q () (wrW env r v w) := Iff.rfl

theorem wp_regOr (env : Env) (r : Reg) (m : Nat) (Q : Unit → World → Prop)
    (T : World → Prop) (w : World) :
    wp (regOr env r m) Q T w ↔ Q () (wrW env r (rdV env r w ||| m) (rdW env r w)) := Iff.rfl

theorem wp_regAnd (env : Env) (r : Reg) (m : Nat) (Q : Unit → World → Prop)
    (T : World → Prop) (w : World) :
    wp (regAnd env r m) Q T w ↔ Q () (wrW env r (rdV env r w &&& m) (rdW env r w)) := Iff.rfl

theorem wp_spin (env : Env) (r : Reg) (cond : Nat → Bool) (Q : Unit → World → Prop)
    (T I : World → Prop) (hT : ∀ x, I x → T x)
    (hstay : ∀ x, I x → cond (rdV env r x) = true → I (rdW env r x))
    (hexit : ∀ x, I x → cond (rdV env r x) = false → Q () (rdW env r x)) :
    ∀ (n : Nat) (w : World), I w → wp (spinWhile env r cond n) Q T w := by
  intro n
  induction n with
  | zero => intro w hI; exact hT w hI
  | succ n ih =>
    intro w hI
    unfold wp
    rw [spinWhile_succ]
    cases hc : cond (rdV env r w)
    · exact hexit w hI hc
    · exact ih (rdW env r w) (hstay w hI hc)

theorem wp_mono {α : Type} (m : M α) (Q Q1 : α → World → Prop) (T T1 : World → Prop)
    (w : World) (hQ : ∀ a x, Q a x → Q1 a x) (hT : ∀ x, T x → T1 x) (h : wp m Q T w) :
    wp m Q1 T1 w := by
  unfold wp at h ⊢
  cases hm : m w with
  | done a w1 => rw [hm] at h; exact hQ a w1 h
  | timeout w1 => rw [hm] at h; exact hT w1 h


theorem wp_seq {α β : Type} (m : M α) (f : α → M β) (Q1 : α → World → Prop)
    (Q : β → World → Prop) (T : World → Prop) (w : World) (h : wp m Q1 T w)
    (hf : ∀ a x, Q1 a x → wp (f a) Q T x) : wp (m >>= f) Q T w := by
  rw [wp_bind]
  exact wp_mono m Q1 _ T T w hf (fun _ hx => hx) h

theorem pllOnWrite_keep (s : PllPhase) (v : Nat) (hs : s = .running ∨ s = .idle)
    (hv : v.testBit 24 = s.on) : pllOnWrite s v = some s := by
  unfold pllOnWrite
  rcases hs with rfl | rfl
  · have : v &&& RCC_CR_PLLON ≠ 0 := by
      rw [RCC_CR_PLLON, ne_eq, and_16777216_eq, hv]; simp [PllPhase.on]
    rw [if_pos this]; rfl
  · have : v &&& RCC_CR_PLLON = 0 := by
      rw [RCC_CR_PLLON, and_16777216_eq, hv]; rfl
    rw [if_neg (by simpa using this)]; rfl

theorem pllOnRead_keep (s : PllPhase) (v : Nat) (hs : s ≠ .cleared) : pllOnRead s v = s := by
  cases s <;> first | rfl | exact absurd rfl hs

theorem inv_regOr_CR_keep (env : Env) (m : Nat) (s0 s : PllPhase) (w : World)
    (hs : s = .running ∨ s = .idle) (hm : m.testBit 24 = false) (h : PllInv s0 s w) :
    PllInv s0 s (wrW env .RCC_CR (rdV env .RCC_CR w ||| m) (rdW env .RCC_CR w)) := by
  have hne : s ≠ .cleared := by rcases hs with rfl | rfl <;> decide
  have h1 := inv_rd_CR env s0 s w h
  rw [pllOnRead_keep s _ hne] at h1
  apply inv_wr_CR env _ s0 s s _ h1
  apply pllOnWrite_keep s _ hs
  rw [tb_u32, Nat.testBit_or, hm, rdV_CR, tickCR_bit24, h.bit]
  simp

theorem stop_safe (env : Env) (fuel : Nat) (s0 s : PllPhase) (w : World)
    (hs : s = .running ∨ s = .idle) (h : PllInv s0 s w) :
    wp (bspStop env fuel) (fun _ x => PllInv s0 .idle x ∨ PllInv s0 .stopped x)
      (fun x => ∃ s1, PllInv s0 s1 x) w := by
  have hne : s ≠ .cleared := by rcases hs with rfl | rfl <;> decide
  unfold bspStop
  rw [wp_bind, wp_regOr, wp_bind]
  have hA := inv_regOr_CR_keep env RCC_CR_HSION s0 s w hs (by rw [RCC_CR_HSION, tb_1]; rfl) h
  refine wp_spin env .RCC_CR _ _ _ (fun x => PllInv s0 s x) (fun x hx => ⟨s, hx⟩) ?_ ?_ fuel _ hA
  · intro x hx _
    have := inv_rd_CR env s0 s x hx
    rwa [pllOnRead_keep s _ hne] at this
  · intro x hx _
    have h1 := inv_rd_CR env s0 s x hx
    rw [pllOnRead_keep s _ hne] at h1
    rw [wp_bind, wp_wr, wp_bind, wp_rd]
    have h2 := inv_wr env .FLASH_ACR
      (FLASH_ACR_ICEN ||| FLASH_ACR_DCEN ||| FLASH_ACR_LATENCY_2WS) s0 s _ (by decide) (by decide) h1
    have h3 := inv_rd_CR env s0 s _ h2
    rw [pllOnRead_keep s _ hne] at h3
    have hbit : (rdV env .RCC_CR (wrW env .FLASH_ACR
        (FLASH_ACR_ICEN ||| FLASH_ACR_DCEN ||| FLASH_ACR_LATENCY_2WS)
        (rdW env .RCC_CR x))).testBit 24 = s.on := by
      rw [rdV_CR, tickCR_bit24, h2.bit]
    generalize rdV env .RCC_CR (wrW env .FLASH_ACR
        (FLASH_ACR_ICEN ||| FLASH_ACR_DCEN ||| FLASH_ACR_LATENCY_2WS)
        (rdW env .RCC_CR x)) = cr at hbit ⊢
    by_cases hp : cr &&& RCC_CR_PLLON = 0
    · -- PLLON is clear: the phase is idle and nothing is done
      have hb : (cr &&& RCC_CR_PLLON != 0) = false := by rw [bne_eq_false_iff_eq]; exact hp
      rw [hb]
      simp only [Bool.false_eq_true, if_false]
      rw [wp_pure]
      left
      have hoff : s.on = false := by
        rw [← hbit]; exact (and_16777216_eq _).1 hp
      rcases hs with rfl | rfl
      · simp [PllPhase.on] at hoff
      · exact h3
    · -- PLLON is set: the phase is running; clear it and wait
      have hb : (cr &&& RCC_CR_PLLON != 0) = true := by rw [bne_iff_ne]; exact hp
      rw [if_pos hb, wp_bind, wp_regAnd]
      have hon : s.on = true := by
        rw [← hbit]
        cases hq : cr.testBit 24
        · exact absurd ((and_16777216_eq _).2 hq) hp
        · rfl
      have hrun : s = .running := by
        rcases hs with rfl | rfl
        · rfl
        · simp [PllPhase.on] at hon
      subst hrun
      have h4 := inv_rd_CR env s0 .running _ h3
      rw [pllOnRead_keep _ _ (by decide)] at h4
      have h5 : PllInv s0 .cleared (wrW env .RCC_CR
          (rdV env .RCC_CR (rdW env .RCC_CR (wrW env .FLASH_ACR
            (FLASH_ACR_ICEN ||| FLASH_ACR_DCEN ||| FLASH_ACR_LATENCY_2WS) (rdW env .RCC_CR x)))
            &&& not32 RCC_CR_PLLON)
          (rdW env .RCC_CR (rdW env .RCC_CR (wrW env .FLASH_ACR
            (FLASH_ACR_ICEN ||| FLASH_ACR_DCEN ||| FLASH_ACR_LATENCY_2WS)
            (rdW env .RCC_CR x))))) := by
        apply inv_wr_CR env _ s0 .running .cleared _ h4
        unfold pllOnWrite
        have : u32 (rdV env .RCC_CR (rdW env .RCC_CR (wrW env .FLASH_ACR
            (FLASH_ACR_ICEN ||| FLASH_ACR_DCEN ||| FLASH_ACR_LATENCY_2WS) (rdW env .RCC_CR x)))
            &&& not32 RCC_CR_PLLON) &&& RCC_CR_PLLON = 0 := by
          rw [RCC_CR_PLLON, and_16777216_eq, tb_u32, Nat.testBit_and, tb_not32, tb_16777216]
          simp
        rw [if_neg (by simpa using this)]; rfl
      refine wp_spin env .RCC_CR _ _ _
        (fun y => PllInv s0 .cleared y ∨ PllInv s0 .stopped y) ?_ ?_ ?_ fuel _ (Or.inl h5)
      · rintro y (hy | hy)
        · exact ⟨_, hy⟩
        · exact ⟨_, hy⟩
      · rintro y (hy | hy) _
        · have := inv_rd_CR env s0 .cleared y hy
          unfold pllOnRead at this
          split_ifs at this
          · exact Or.inr this
          · exact Or.inl this
        · have := inv_rd_CR env s0 .stopped y hy
          exact Or.inr this
      · rintro y (hy | hy) hc
        · have := inv_rd_CR env s0 .cleared y hy
          have hz : rdV env .RCC_CR y &&& RCC_CR_PLLRDY = 0 := by
            simpa using hc
          unfold pllOnRead at this
          rw [if_pos hz] at this
          exact Or.inr this
        · exact Or.inr (inv_rd_CR env s0 .stopped y hy)


theorem inv_regOr_other (env : Env) (r : Reg) (m : Nat) (s0 s : PllPhase) (w : World)
    (hr : r ≠ .RCC_CR) (hr2 : r ≠ .RCC_PLLCFGR) (h : PllInv s0 s w) :
    PllInv s0 s (wrW env r (rdV env r w ||| m) (rdW env r w)) :=
  inv_wr env r _ s0 s _ hr hr2 (inv_rd env r s0 s w hr h)

theorem inv_regAnd_other (env : Env) (r : Reg) (m : Nat) (s0 s : PllPhase) (w : World)
    (hr : r ≠ .RCC_CR) (hr2 : r ≠ .RCC_PLLCFGR) (h : PllInv s0 s w) :
    PllInv s0 s (wrW env r (rdV env r w &&& m) (rdW env r w)) :=
  inv_wr env r _ s0 s _ hr hr2 (inv_rd env r s0 s w hr h)

theorem start_safe (env : Env) (fuel : Nat) (s0 s : PllPhase) (w : World)
    (hs : s = .idle ∨ s = .stopped) (h : PllInv s0 s w) :
    wp (bspStart env fuel) (fun _ x => PllInv s0 .restarted x)
      (fun x => ∃ s1, PllInv s0 s1 x) w := by
  unfold bspStart
  rw [wp_bind, wp_wr, wp_bind, wp_regAnd, wp_bind, wp_regOr, wp_bind, wp_regOr, wp_bind]
  have h1 := inv_wr_factors env s0 s w h hs
  have h2 := inv_regAnd_other env .RCC_CFGR
    (not32 (RCC_CFGR_HPRE ||| RCC_CFGR_PPRE1 ||| RCC_CFGR_PPRE2)) s0 _ _ (by decide) (by decide) h1
  have h3 := inv_regOr_other env .RCC_CFGR RCC_CFGR_PPRE1_DIV2 s0 _ _ (by decide) (by decide) h2
  have h4 := inv_rd_CR env s0 _ _ h3
  rw [pllOnRead_keep _ _ (by decide)] at h4
  have h5 := inv_wr_CR env (rdV env .RCC_CR _ ||| RCC_CR_PLLON) s0 .written .restarted _ h4 (by
    unfold pllOnWrite
    have : u32 (rdV env .RCC_CR (wrW env .RCC_CFGR
        (rdV env .RCC_CFGR (wrW env .RCC_CFGR
          (rdV env .RCC_CFGR (wrW env .RCC_PLLCFGR pllcfgrWord w) &&&
            not32 (RCC_CFGR_HPRE ||| RCC_CFGR_PPRE1 ||| RCC_CFGR_PPRE2))
          (rdW env .RCC_CFGR (wrW env .RCC_PLLCFGR pllcfgrWord w))) ||| RCC_CFGR_PPRE1_DIV2)
        (rdW env .RCC_CFGR (wrW env .RCC_CFGR
          (rdV env .RCC_CFGR (wrW env .RCC_PLLCFGR pllcfgrWord w) &&&
            not32 (RCC_CFGR_HPRE ||| RCC_CFGR_PPRE1 ||| RCC_CFGR_PPRE2))
          (rdW env .RCC_CFGR (wrW env .RCC_PLLCFGR pllcfgrWord w))))) ||| RCC_CR_PLLON)
        &&& RCC_CR_PLLON ≠ 0 := by
      rw [RCC_CR_PLLON, ne_eq, and_16777216_eq, tb_u32, Nat.testBit_or, tb_16777216]
      simp
    rw [if_pos this]; rfl)
  refine wp_spin env .RCC_CR _ _ _ (fun x => PllInv s0 .restarted x) (fun x hx => ⟨_, hx⟩)
    ?_ ?_ fuel _ h5
  · intro x hx _
    exact inv_rd_CR env s0 .restarted x hx
  · intro x hx _
    have h6 := inv_rd_CR env s0 .restarted x hx
    rw [pllOnRead_keep _ _ (by decide)] at h6
    rw [wp_bind, wp_regAnd, wp_bind, wp_regOr]
    have h7 := inv_regAnd_other env .RCC_CFGR (not32 RCC_CFGR_SW) s0 _ _ (by decide) (by decide) h6
    have h8 := inv_regOr_other env .RCC_CFGR RCC_CFGR_SW_PLL s0 _ _ (by decide) (by decide) h7
    refine wp_spin env .RCC_CFGR _ _ _ (fun y => PllInv s0 .restarted y) (fun y hy => ⟨_, hy⟩)
      ?_ ?_ fuel _ h8
    · intro y hy _
      exact inv_rd env .RCC_CFGR s0 _ y (by decide) hy
    · intro y hy _
      exact inv_rd env .RCC_CFGR s0 _ y (by decide) hy

theorem BSP_safe (env : Env) (fuel : Nat) (s0 s : PllPhase) (w : World)
    (hs : s = .running ∨ s = .idle) (h : PllInv s0 s w) :
    wp (BSP_SystemClockConfig env fuel) (fun _ x => PllInv s0 .restarted x)
      (fun x => ∃ s1, PllInv s0 s1 x) w := by
  rw [BSP_split]
  apply wp_seq _ _ _ _ _ _ (stop_safe env fuel s0 s w hs h)
  rintro _ x (hx | hx)
  · exact start_safe env fuel s0 .idle x (Or.inl rfl) hx
  · exact start_safe env fuel s0 .stopped x (Or.inr rfl) hx

theorem pllEntry_cases (regs : Regs) : pllEntry regs = .running ∨ pllEntry regs = .idle := by
  unfold pllEntry
  split_ifs
  · exact Or.inl rfl
  · exact Or.inr rfl

theorem pllInv_entry (regs : Regs) (clock : Nat) (rx tx : List Nat) :
    PllInv (pllEntry regs) (pllEntry regs) ⟨regs, clock, rx, tx, []⟩ := by
  refine ⟨rfl, ?_, ?_, ?_, ?_⟩
  · unfold pllEntry
    by_cases hp : regs .RCC_CR &&& RCC_CR_PLLON = 0
    · rw [if_neg (by simpa using hp)]
      exact (and_16777216_eq _).1 hp
    · rw [if_pos hp]
      cases hq : (regs .RCC_CR).testBit 24
      · exact absurd ((and_16777216_eq _).2 hq) hp
      · rfl
  · intro e he; simp at he
  · rcases pllEntry_cases regs with h | h <;> rw [h] <;> rfl
  · rcases pllEntry_cases regs with h | h <;> rw [h] <;> simp [PllPhase.wrote]

theorem BSP_trace (env : Env) (fuel : Nat) (regs : Regs) (clock : Nat) (rx tx : List Nat) :
    ∃ s1, PllInv (pllEntry regs) s1
        (BSP_SystemClockConfig env fuel ⟨regs, clock, rx, tx, []⟩).world ∧
      ∀ w1, BSP_SystemClockConfig env fuel ⟨regs, clock, rx, tx, []⟩ = .done () w1 →
        s1 = .restarted := by
  have h := BSP_safe env fuel _ _ _ (pllEntry_cases regs) (pllInv_entry regs clock rx tx)
  unfold wp at h
  cases hm : BSP_SystemClockConfig env fuel ⟨regs, clock, rx, tx, []⟩ with
  | done a w1 =>
    rw [hm] at h
    exact ⟨.restarted, h, fun _ _ => rfl⟩
  | timeout w1 =>
    rw [hm] at h
    obtain ⟨s1, hs1⟩ := h
    exact ⟨s1, hs1, fun w2 hw2 => by simp at hw2⟩

theorem step_restarted (e : Event) (s1 : PllPhase) (h : pllObserve .restarted e = some s1) :
    s1 = .restarted ∧ ¬ isFactors e := by
  obtain ⟨acc, pre⟩ := e
  cases acc with
  | read r v =>
    cases r <;> simp [pllObserve, pllOnRead, isFactors] at h ⊢ <;> exact h.symm
  | write r v =>
    cases r <;> simp [pllObserve, pllOnFactors, pllOnFactorsOff, isFactors, pllOnWrite,
      pllOnSet, pllOnClear] at h ⊢ <;> first | exact h.symm | exact h.2.symm

theorem step_written (e : Event) (s1 : PllPhase) (h : pllObserve .written e = some s1) :
    ¬ isFactors e ∧ ((s1 = .written ∧ ¬ isSet e) ∨ (s1 = .restarted ∧ isSet e)) := by
  obtain ⟨acc, pre⟩ := e
  cases acc with
  | read r v =>
    cases r <;> simp [pllObserve, pllOnRead, isFactors, isSet] at h ⊢ <;> exact h.symm
  | write r v =>
    cases r <;> simp [pllObserve, pllOnFactors, pllOnFactorsOff, isFactors, isSet, pllOnWrite,
      pllOnSet, pllOnClear] at h ⊢ <;> first | exact h.symm | skip
    by_cases hv : v &&& RCC_CR_PLLON = 0
    · simp [hv] at h ⊢; exact h.symm
    · simp [hv] at h ⊢; exact h.symm

theorem step_ready (s : PllPhase) (hs : s = .idle ∨ s = .stopped) (e : Event) (s1 : PllPhase)
    (h : pllObserve s e = some s1) :
    (s1 = s ∧ ¬ isFactors e ∧ ¬ isSet e) ∨
      (s1 = .written ∧ isFactors e ∧ e.pre .RCC_CR &&& RCC_CR_PLLON = 0) := by
  obtain ⟨acc, pre⟩ := e
  rcases hs with rfl | rfl
  · cases acc with
    | read r v =>
      left
      cases r <;> simp [pllObserve, pllOnRead, isFactors, isSet] at h ⊢ <;> exact h.symm
    | write r v =>
      cases r <;> simp [pllObserve, pllOnFactors, pllOnFactorsOff, isFactors, isSet, pllOnWrite,
        pllOnSet, pllOnClear] at h ⊢ <;> first | exact h.symm | skip
      · exact ⟨h.2.symm, h.1⟩
      · exact ⟨h.2.symm, h.1⟩
  · cases acc with
    | read r v =>
      left
      cases r <;> simp [pllObserve, pllOnRead, isFactors, isSet] at h ⊢ <;> exact h.symm
    | write r v =>
      cases r <;> simp [pllObserve, pllOnFactors, pllOnFactorsOff, isFactors, isSet, pllOnWrite,
        pllOnSet, pllOnClear] at h ⊢ <;> first | exact h.symm | skip
      · exact ⟨h.2.symm, h.1⟩
      · exact ⟨h.2.symm, h.1⟩


theorem step_cleared (e : Event) (s1 : PllPhase) (h : pllObserve .cleared e = some s1) :
    ¬ isFactors e ∧ ¬ isSet e ∧ (s1 = .cleared ∨ (s1 = .stopped ∧ isStopped e)) := by
  obtain ⟨acc, pre⟩ := e
  cases acc with
  | read r v =>
    cases r <;> simp [pllObserve, pllOnRead, isFactors, isSet, isStopped] at h ⊢ <;>
      first | exact h.symm | skip
    by_cases hv : v &&& RCC_CR_PLLRDY = 0
    · simp [hv] at h ⊢; first | exact h.symm | exact Or.inr h.symm
    · simp [hv] at h ⊢; first | exact h.symm
  | write r v =>
    cases r <;> simp [pllObserve, pllOnFactors, pllOnFactorsOff, isFactors, isSet, isStopped,
      pllOnWrite, pllOnSet, pllOnClear] at h ⊢ <;> first | exact h.symm | skip
    exact ⟨h.1, h.2.symm⟩

theorem step_running (e : Event) (s1 : PllPhase) (h : pllObserve .running e = some s1) :
    ¬ isFactors e ∧ (s1 = .running ∨ (s1 = .cleared ∧ isClear e)) := by
  obtain ⟨acc, pre⟩ := e
  cases acc with
  | read r v =>
    cases r <;> simp [pllObserve, pllOnRead, isFactors, isClear] at h ⊢ <;> exact h.symm
  | write r v =>
    cases r <;> simp [pllObserve, pllOnFactors, pllOnFactorsOff, isFactors, isClear,
      pllOnWrite, pllOnSet, pllOnClear] at h ⊢ <;> first | exact h.symm | skip
    by_cases hv : v &&& RCC_CR_PLLON = 0
    · simp [hv] at h ⊢; first | exact h.symm | exact Or.inr h.symm
    · simp [hv] at h ⊢; first | exact h.symm

theorem pllObserveAll_cons (s : PllPhase) (e : Event) (rest : List Event) (s2 : PllPhase)
    (h : pllObserveAll s (e :: rest) = some s2) :
    ∃ s1, pllObserve s e = some s1 ∧ pllObserveAll s1 rest = some s2 := by
  simp only [pllObserveAll] at h
  cases hs : pllObserve s e with
  | none => rw [hs] at h; simp at h
  | some s1 => rw [hs] at h; exact ⟨s1, rfl, h⟩

theorem all_restarted (log : List Event) (s2 : PllPhase)
    (h : pllObserveAll .restarted log = some s2) :
    s2 = .restarted ∧ ∀ e ∈ log, ¬ isFactors e := by
  induction log with
  | nil => exact ⟨by simpa [pllObserveAll] using h.symm, by simp⟩
  | cons e rest ih =>
    obtain ⟨s1, h1, h2⟩ := pllObserveAll_cons _ _ _ _ h
    obtain ⟨rfl, hf⟩ := step_restarted e s1 h1
    obtain ⟨hs2, hrest⟩ := ih h2
    refine ⟨hs2, fun x hx => ?_⟩
    rcases List.mem_cons.1 hx with rfl | hx
    · exact hf
    · exact hrest x hx

theorem all_written (log : List Event) (h : pllObserveAll .written log = some .restarted) :
    (∀ e ∈ log, ¬ isFactors e) ∧ ∃ es ∈ log, isSet es := by
  induction log with
  | nil => simp [pllObserveAll] at h
  | cons e rest ih =>
    obtain ⟨s1, h1, h2⟩ := pllObserveAll_cons _ _ _ _ h
    obtain ⟨hf, hc⟩ := step_written e s1 h1
    rcases hc with ⟨rfl, _⟩ | ⟨rfl, hset⟩
    · obtain ⟨hr, es, hes, hset⟩ := ih h2
      refine ⟨fun x hx => ?_, es, List.mem_cons_of_mem _ hes, hset⟩
      rcases List.mem_cons.1 hx with rfl | hx
      · exact hf
      · exact hr x hx
    · obtain ⟨_, hr⟩ := all_restarted rest _ h2
      refine ⟨fun x hx => ?_, e, List.mem_cons_self _ _, hset⟩
      rcases List.mem_cons.1 hx with rfl | hx
      · exact hf
      · exact hr x hx

theorem all_ready (s : PllPhase) (hs : s = .idle ∨ s = .stopped) (log : List Event)
    (h : pllObserveAll s log = some .restarted) :
    ∃ c ef rest, log = c ++ ef :: rest ∧ isFactors ef ∧ ef.pre .RCC_CR &&& RCC_CR_PLLON = 0 ∧
      (∀ e ∈ c, ¬ isFactors e) ∧ (∀ e ∈ c, ¬ isSet e) ∧ (∀ e ∈ rest, ¬ isFactors e) ∧
      ∃ es ∈ rest, isSet es := by
  induction log with
  | nil =>
    rcases hs with rfl | rfl <;> simp [pllObserveAll] at h
  | cons e rest ih =>
    obtain ⟨s1, h1, h2⟩ := pllObserveAll_cons _ _ _ _ h
    rcases step_ready s hs e s1 h1 with ⟨rfl, hf, hset⟩ | ⟨rfl, hf, hpre⟩
    · obtain ⟨c, ef, r2, hlog, hef, hpre, hc1, hc2, hr, hes⟩ := ih h2
      refine ⟨e :: c, ef, r2, by rw [hlog]; rfl, hef, hpre, ?_, ?_, hr, hes⟩
      · intro x hx
        rcases List.mem_cons.1 hx with rfl | hx
        · exact hf
        · exact hc1 x hx
      · intro x hx
        rcases List.mem_cons.1 hx with rfl | hx
        · exact hset
        · exact hc2 x hx
    · obtain ⟨hr, hes⟩ := all_written rest h2
      exact ⟨[], e, rest, rfl, hf, hpre, by simp, by simp, hr, hes⟩

theorem all_cleared (log : List Event) (h : pllObserveAll .cleared log = some .restarted) :
    ∃ b er rest, log = b ++ er :: rest ∧ isStopped er ∧
      (∀ e ∈ b ++ [er], ¬ isFactors e) ∧ (∀ e ∈ b ++ [er], ¬ isSet e) ∧
      pllObserveAll .stopped rest = some .restarted := by
  induction log with
  | nil => simp [pllObserveAll] at h
  | cons e rest ih =>
    obtain ⟨s1, h1, h2⟩ := pllObserveAll_cons _ _ _ _ h
    obtain ⟨hf, hset, hc⟩ := step_cleared e s1 h1
    rcases hc with rfl | ⟨rfl, hst⟩
    · obtain ⟨b, er, r2, hlog, her, hb1, hb2, hrest⟩ := ih h2
      refine ⟨e :: b, er, r2, by rw [hlog]; rfl, her, ?_, ?_, hrest⟩
      · intro x hx
        rcases List.mem_cons.1 hx with rfl | hx
        · exact hf
        · exact hb1 x hx
      · intro x hx
        rcases List.mem_cons.1 hx with rfl | hx
        · exact hset
        · exact hb2 x hx
    · refine ⟨[], e, rest, rfl, hst, ?_, ?_, h2⟩
      · intro x hx
        simp only [List.nil_append, List.mem_singleton] at hx
        subst hx; exact hf
      · intro x hx
        simp only [List.nil_append, List.mem_singleton] at hx
        subst hx; exact hset

theorem all_running (log : List Event) (h : pllObserveAll .running log = some .restarted) :
    ∃ a ec rest, log = a ++ ec :: rest ∧ isClear ec ∧ (∀ e ∈ a ++ [ec], ¬ isFactors e) ∧
      pllObserveAll .cleared rest = some .restarted := by
  induction log with
  | nil => simp [pllObserveAll] at h
  | cons e rest ih =>
    obtain ⟨s1, h1, h2⟩ := pllObserveAll_cons _ _ _ _ h
    obtain ⟨hf, hc⟩ := step_running e s1 h1
    rcases hc with rfl | ⟨rfl, hcl⟩
    · obtain ⟨a, ec, r2, hlog, hec, ha, hrest⟩ := ih h2
      refine ⟨e :: a, ec, r2, by rw [hlog]; rfl, hec, ?_, hrest⟩
      intro x hx
      rcases List.mem_cons.1 hx with rfl | hx
      · exact hf
      · exact ha x hx
    · refine ⟨[], e, rest, rfl, hcl, ?_, h2⟩
      intro x hx
      simp only [List.nil_append, List.mem_singleton] at hx
      subst hx; exact hf

theorem ordered_of_observed (regs : Regs) (log : List Event)
    (h : pllObserveAll (pllEntry regs) log = some .restarted) :
    PllOrdered (decide (regs .RCC_CR &&& RCC_CR_PLLON ≠ 0)) log := by
  unfold pllEntry at h
  by_cases hp : regs .RCC_CR &&& RCC_CR_PLLON ≠ 0
  · rw [if_pos hp] at h
    obtain ⟨a, ec, r1, hlog1, hec, ha, h1⟩ := all_running log h
    obtain ⟨b, er, r2, hlog2, her, hb1, hb2, h2⟩ := all_cleared r1 h1
    obtain ⟨c, ef, r3, hlog3, hef, hpre, hc1, hc2, hr3, hes⟩ :=
      all_ready .stopped (Or.inr rfl) r2 h2
    refine ⟨a ++ ec :: (b ++ er :: c), ef, r3, ?_, hef, hpre, ?_, hr3, ?_, ?_, hes⟩
    · rw [hlog1, hlog2, hlog3]; simp
    · intro x hx
      simp only [List.mem_append, List.mem_cons] at hx
      rcases hx with hx | rfl | hx | rfl | hx
      · exact ha x (by simp [hx])
      · exact ha x (by simp)
      · exact hb1 x (by simp [hx])
      · exact hb1 x (by simp)
      · exact hc1 x hx
    · intro _
      refine ⟨a, ec, b, er, c, rfl, hec, her, ?_⟩
      intro x hx
      simp only [List.mem_append, List.mem_cons] at hx
      rcases hx with hx | rfl | hx
      · exact hb2 x (by simp [hx])
      · exact hb2 x (by simp)
      · exact hc2 x hx
    · intro hfalse
      simp [hp] at hfalse
  · rw [if_neg hp] at h
    obtain ⟨c, ef, r3, hlog3, hef, hpre, hc1, hc2, hr3, hes⟩ :=
      all_ready .idle (Or.inl rfl) log h
    refine ⟨c, ef, r3, hlog3, hef, hpre, hc1, hr3, ?_, fun _ => hc2, hes⟩
    intro htrue
    simp [hp] at htrue

/-! ## The multiplier is reprogrammed only while it is off -/

theorem BSP_done_restarted (env : Env) (fuel : Nat) (regs : Regs) (clock : Nat)
    (rx tx : List Nat) (w1 : World)
    (hd : BSP_SystemClockConfig env fuel ⟨regs, clock, rx, tx, []⟩ = .done () w1) :
    PllInv (pllEntry regs) .restarted w1 := by
  obtain ⟨s1, hinv, hs⟩ := BSP_trace env fuel regs clock rx tx
  have e := hs w1 hd
  subst e
  rw [hd] at hinv
  exact hinv

theorem BSP_done_ordered (env : Env) (fuel : Nat) (regs : Regs) (clock : Nat)
    (rx tx : List Nat) (w1 : World)
    (hd : BSP_SystemClockConfig env fuel ⟨regs, clock, rx, tx, []⟩ = .done () w1) :
    PllOrdered (decide (regs .RCC_CR &&& RCC_CR_PLLON ≠ 0)) w1.log :=
  ordered_of_observed regs w1.log (BSP_done_restarted env fuel regs clock rx tx w1 hd).obs

theorem BSP_done_factors (env : Env) (fuel : Nat) (regs : Regs) (clock : Nat)
    (rx tx : List Nat) (w1 : World)
    (hd : BSP_SystemClockConfig env fuel ⟨regs, clock, rx, tx, []⟩ = .done () w1) :
    writesTo .RCC_PLLCFGR w1.log = [pllcfgrWord] ∧ w1.regs .RCC_PLLCFGR = pllcfgrWord := by
  have h := BSP_done_restarted env fuel regs clock rx tx w1 hd
  exact ⟨by simpa [PllPhase.wrote] using h.writes, h.reg rfl⟩

theorem pllcfgrWord_eq : pllcfgrWord = 0x07015410 := by decide

/-- C3: whatever the registers hold on entry and however the hardware behaves,
the accesses of `BSP_SystemClockConfig` never write `RCC->PLLCFGR` at a moment
when PLLON is set in `RCC->CR`, and write it at most once; the hardware model
never changes PLLON by itself. A run that returns wrote the factors exactly
once, with PLLON clear; if PLLON was set on entry, a write clearing it and then
a read finding PLLRDY clear came before the factor write, with no write setting
PLLON between the clearing write and the factor write; if PLLON was clear on
entry, nothing set it before the factor write; and PLLON is set by a write
after the factor write. With hardware that eventually answers the routine does
return, so the ordered trace exists. -/
theorem BSP_SystemClockConfig_pll_order (env : Env) (regs : Regs) (clock : Nat)
    (rx tx : List Nat) :
    (∀ w : World, (hwTick env w).regs .RCC_CR &&& RCC_CR_PLLON = 0 ↔
        w.regs .RCC_CR &&& RCC_CR_PLLON = 0) ∧
    (∀ fuel, ∀ e ∈ (BSP_SystemClockConfig env fuel ⟨regs, clock, rx, tx, []⟩).world.log,
        isFactors e → e.pre .RCC_CR &&& RCC_CR_PLLON = 0) ∧
    (∀ fuel, (writesTo .RCC_PLLCFGR
        (BSP_SystemClockConfig env fuel ⟨regs, clock, rx, tx, []⟩).world.log).length ≤ 1) ∧
    (∀ fuel w1, BSP_SystemClockConfig env fuel ⟨regs, clock, rx, tx, []⟩ = .done () w1 →
        PllOrdered (decide (regs .RCC_CR &&& RCC_CR_PLLON ≠ 0)) w1.log) ∧
    (Fair env → ∃ w1, Runs (BSP_SystemClockConfig env) ⟨regs, clock, rx, tx, []⟩ () w1 ∧
        PllOrdered (decide (regs .RCC_CR &&& RCC_CR_PLLON ≠ 0)) w1.log) := by
  refine ⟨?_, ?_, ?_, ?_, ?_⟩
  · intro w
    rw [hwTick_pllon, RCC_CR_PLLON, and_16777216_eq]
  · intro fuel e he hf
    obtain ⟨s1, hinv, _⟩ := BSP_trace env fuel regs clock rx tx
    obtain ⟨v, hv⟩ := hf
    exact hinv.safe e he v hv
  · intro fuel
    obtain ⟨s1, hinv, _⟩ := BSP_trace env fuel regs clock rx tx
    rw [hinv.writes]
    split_ifs <;> simp
  · intro fuel w1 hd
    exact BSP_done_ordered env fuel regs clock rx tx w1 hd
  · intro hf
    obtain ⟨w1, hr, _⟩ := BSP_total env hf ⟨regs, clock, rx, tx, []⟩
    refine ⟨w1, hr, ?_⟩
    obtain ⟨N, hN⟩ := hr
    exact BSP_done_ordered env N regs clock rx tx w1 (hN N (le_refl N))

/-- C3, at an instance: on a device whose multiplier is running on entry and
whose hardware answers every third access, the routine returns and its trace
shows the stop, the confirmation, the single factor write and the restart in
this order. -/
theorem BSP_SystemClockConfig_pll_order_witness :
    warmRegs .RCC_CR &&& RCC_CR_PLLON ≠ 0 ∧ Fair envSlow ∧
    ∃ w1, Runs (BSP_SystemClockConfig envSlow) ⟨warmRegs, 0, [], [], []⟩ () w1 ∧
      PllOrdered (decide (warmRegs .RCC_CR &&& RCC_CR_PLLON ≠ 0)) w1.log :=
  ⟨by decide, fair_envSlow,
    (BSP_SystemClockConfig_pll_order envSlow warmRegs 0 [] []).2.2.2.2 fair_envSlow⟩

/-! ## The factors of the multiplier -/

/-- C5: every word `BSP_SystemClockConfig` writes to `RCC->PLLCFGR`, whatever
the registers hold on entry and however the hardware behaves, is the constant
`0x07015410`; a run that returns wrote it exactly once and leaves it in the
register, and with hardware that eventually answers the routine does return.
The constant is the sum of its fields, each within its width and below the
position of the next field, and decodes to source HSI, M = 16, N = 336,
P code 1 (divide by four) and Q = 7. From the 16 MHz oscillator this gives
`16 MHz / 16 * 336 = 336 MHz`, a main output of `336 MHz / 4 = 84 MHz` and an
auxiliary output of `336 MHz / 7 = 48 MHz`, every division being exact. -/
theorem BSP_SystemClockConfig_pll_factors (env : Env) (regs : Regs) (clock : Nat)
    (rx tx : List Nat) :
    (∀ fuel, ∀ v ∈ writesTo .RCC_PLLCFGR
        (BSP_SystemClockConfig env fuel ⟨regs, clock, rx, tx, []⟩).world.log,
        v = 0x07015410) ∧
    (∀ fuel w1, BSP_SystemClockConfig env fuel ⟨regs, clock, rx, tx, []⟩ = .done () w1 →
        writesTo .RCC_PLLCFGR w1.log = [0x07015410] ∧ w1.regs .RCC_PLLCFGR = 0x07015410) ∧
    (Fair env → ∃ w1, Runs (BSP_SystemClockConfig env) ⟨regs, clock, rx, tx, []⟩ () w1 ∧
        writesTo .RCC_PLLCFGR w1.log = [0x07015410] ∧ w1.regs .RCC_PLLCFGR = 0x07015410) ∧
    (pllcfgrWord = 0x07015410 ∧
      pllcfgrWord = 16 * 2 ^ RCC_PLLCFGR_PLLM_Pos + 336 * 2 ^ RCC_PLLCFGR_PLLN_Pos +
        1 * 2 ^ RCC_PLLCFGR_PLLP_Pos + RCC_PLLCFGR_PLLSRC_HSI + 7 * 2 ^ RCC_PLLCFGR_PLLQ_Pos ∧
      16 * 2 ^ RCC_PLLCFGR_PLLM_Pos < 2 ^ RCC_PLLCFGR_PLLN_Pos ∧
      336 * 2 ^ RCC_PLLCFGR_PLLN_Pos < 2 ^ RCC_PLLCFGR_PLLP_Pos ∧
      1 * 2 ^ RCC_PLLCFGR_PLLP_Pos < 2 ^ 22 ∧
      7 * 2 ^ RCC_PLLCFGR_PLLQ_Pos < 2 ^ 32) ∧
    (pllSrc pllcfgrWord = 0 ∧ pllM pllcfgrWord = 16 ∧ pllN pllcfgrWord = 336 ∧
      pllPcode pllcfgrWord = 1 ∧ pllPdiv pllcfgrWord = 4 ∧ pllQ pllcfgrWord = 7) ∧
    (hsiHz = 16000000 ∧ hsiHz % pllM pllcfgrWord = 0 ∧
      vcoHz pllcfgrWord = 336000000 ∧
      vcoHz pllcfgrWord % pllPdiv pllcfgrWord = 0 ∧ pllOutHz pllcfgrWord = 84000000 ∧
      vcoHz pllcfgrWord % pllQ pllcfgrWord = 0 ∧ pllAuxHz pllcfgrWord = 48000000) := by
  refine ⟨?_, ?_, ?_, ?_, ?_, ?_⟩
  · intro fuel v hv
    obtain ⟨s1, hinv, _⟩ := BSP_trace env fuel regs clock rx tx
    rw [hinv.writes] at hv
    split_ifs at hv
    · rw [List.mem_singleton] at hv
      rw [hv]; exact pllcfgrWord_eq
    · simp at hv
  · intro fuel w1 hd
    have h := BSP_done_factors env fuel regs clock rx tx w1 hd
    rw [pllcfgrWord_eq] at h
    exact h
  · intro hf
    obtain ⟨w1, hr, _⟩ := BSP_total env hf ⟨regs, clock, rx, tx, []⟩
    refine ⟨w1, hr, ?_⟩
    obtain ⟨N, hN⟩ := hr
    have h := BSP_done_factors env N regs clock rx tx w1 (hN N (le_refl N))
    rw [pllcfgrWord_eq] at h
    exact h
  · decide
  · decide
  · decide

/-- C5, at an instance: from the reset state, with hardware that answers at
once, the routine returns having written `0x07015410` once. -/
theorem BSP_SystemClockConfig_pll_factors_witness :
    Fair envNow ∧
    ∃ w1, Runs (BSP_SystemClockConfig envNow) ⟨resetRegs, 0, [], [], []⟩ () w1 ∧
      writesTo .RCC_PLLCFGR w1.log = [0x07015410] ∧ w1.regs .RCC_PLLCFGR = 0x07015410 :=
  ⟨fair_envNow,
    (BSP_SystemClockConfig_pll_factors envNow resetRegs 0 [] []).2.2.1 fair_envNow⟩

end RepCounter
